import Mathlib

/-!
# Concurrency-control algorithms: a shallow embedding

Embedding of `a2/src/txn/mvcc_storage.cc`, `a2/src/txn/lock_manager.cc` and
`a2/src/txn/txn_processor.cc`.

Conventions of the embedding.

* `Txn*` pointers are natural numbers (`TxnPtr`); the transaction objects live
  in a heap `TxnPtr → Txn` carried by the processor state.
* C++ `int` is `Int`. The one `int` that only ever grows, `next_unique_id_`,
  is incremented by `intSucc`, the 32-bit increment: `x + 1` below `2^31 - 1`
  and `-2^31` at `2^31 - 1`. The lock counters are bounded by the number of
  requests in the queues and stay `Int`.
* `std::set<Key>` and `std::map<Key, Value>` that the code iterates are lists
  in iteration (ascending key) order; maps that are only indexed are functions
  into `Option`.
* `std::deque`, `AtomicQueue` and `AtomicVector` are lists, front first.
* Behaviour the C++ standard leaves undefined is `none`, with one exception:
  the overflow of `next_unique_id_++`, where the embedding takes what the
  two's-complement increment of the compiled code yields.
-/

namespace CC

abbrev Key := Nat
abbrev Value := Nat
abbrev TxnPtr := Nat

/-! ## Multi-version storage (`mvcc_storage.cc`) -/

/-- The `Version` record stored in a version chain. -/
structure Version where
  value_ : Value
  max_read_id_ : Int
  version_id_ : Int
deriving DecidableEq, Repr

/-- State of `MVCCStorage`: `mvcc_data_`, a map from keys to version deques
(front = newest). `none` is a key without an entry. -/
structure MVCCStorage where
  mvcc_data_ : Key → Option (List Version)

namespace MVCCStorage

/-- A storage without any entry (before `InitStorage`). -/
def empty : MVCCStorage := ⟨fun _ => none⟩

/-- The `for` loop of `MVCCStorage::Read` (mvcc_storage.cc:62-69): walk the
deque from the front, stop at the first version whose `max_read_id_` exceeds
the reader, otherwise overwrite `*result` with the version's value. -/
def readScan : List Version → Int → Value → Value
  | [], _, result => result
  | version :: rest, txn_unique_id, result =>
    if version.max_read_id_ > txn_unique_id then result
    else readScan rest txn_unique_id version.value_

/-- Embeds `MVCCStorage::Read` (mvcc_storage.cc:45-74). The argument `result` is the
content of `*result` before the call; the triple is the returned flag, the
content of `*result` after the call and the storage after the call. -/
def Read (s : MVCCStorage) (key : Key) (result : Value) (txn_unique_id : Int) :
    Bool × Value × MVCCStorage :=
  match s.mvcc_data_ key with
  | none => (false, result, s)
  | some [] => (false, result, s)
  | some (v :: rest) =>
    if txn_unique_id > v.max_read_id_ then
      (true, v.value_,
        ⟨Function.update s.mvcc_data_ key
          (some ({ v with max_read_id_ := txn_unique_id } :: rest))⟩)
    else
      (true, readScan (v :: rest) txn_unique_id result, s)

/-- Embeds `MVCCStorage::CheckWrite` (mvcc_storage.cc:77-98). -/
def CheckWrite (s : MVCCStorage) (key : Key) (txn_unique_id : Int) : Bool :=
  match s.mvcc_data_ key with
  | none => true
  | some [] => true
  | some (v :: _) => if v.max_read_id_ > txn_unique_id then false else true

/-- Embeds `MVCCStorage::CheckWrite1` (mvcc_storage.cc:101-122). -/
def CheckWrite1 (s : MVCCStorage) (key : Key) (txn_unique_id : Int) : Bool :=
  match s.mvcc_data_ key with
  | none => true
  | some [] => true
  | some (v :: _) => if v.version_id_ > txn_unique_id then false else true

/-- Embeds `MVCCStorage::Write` (mvcc_storage.cc:125-143). -/
def Write (s : MVCCStorage) (key : Key) (value : Value) (txn_unique_id : Int) :
    MVCCStorage :=
  let version : Version :=
    { value_ := value, max_read_id_ := txn_unique_id, version_id_ := txn_unique_id }
  ⟨Function.update s.mvcc_data_ key (some (version :: (s.mvcc_data_ key).getD []))⟩

/-- What the specification (and the hint comment at mvcc_storage.cc:50-51) asks
of a read: the value of the first version from the head whose write timestamp
`version_id_` is at most the reader. Written from the specification's words,
to be compared with `Read`. -/
def newestVisible : List Version → Int → Option Value
  | [], _ => none
  | v :: rest, reader_id =>
    if v.version_id_ ≤ reader_id then some v.value_ else newestVisible rest reader_id

/-- Write timestamps strictly decreasing from head to tail. -/
def chainSorted (chain : List Version) : Prop :=
  chain.Pairwise (fun a b => a.version_id_ > b.version_id_)

end MVCCStorage

/-! ## Lock managers (`lock_manager.cc`) -/

/-- Modelled from the spec: the `LockMode` enumeration of the absent
`lock_manager.h`; the three names are the ones `lock_manager.cc` uses. -/
inductive LockMode where
  | UNLOCKED
  | SHARED
  | EXCLUSIVE
deriving DecidableEq, Repr

/-- Modelled from the spec: the lock request record `⟨mode, txn⟩` of the absent
`lock_manager.h`, with the field names `lock_manager.cc` uses. -/
structure LockRequest where
  mode_ : LockMode
  txn_ : TxnPtr
deriving DecidableEq, Repr

/-- One entry of `lock_table_`, a map from keys to `deque<LockRequest>*`:
the key has no entry, the entry is a null pointer (what `lock_table_[key]`
creates when it is evaluated on a key without entry), or it points to a
deque. -/
inductive Slot where
  | absent
  | null
  | deque (q : List LockRequest)
deriving DecidableEq, Repr

/-- The requests queued in a slot. -/
def Slot.reqs : Slot → List LockRequest
  | .deque q => q
  | _ => []

/-- Modelled from the spec: the data members shared by `LockManagerA` and
`LockManagerB` (declared in the absent `lock_manager.h`): the per-key FIFO
queues `lock_table_`, the per-transaction pending counters `txn_waits_`
(`none`: no entry, read as 0 by `operator[]`), and the deque that the pointer
`ready_txns_` designates, which is `TxnProcessor::ready_txns_`. -/
structure LockManager where
  lock_table_ : Key → Slot
  txn_waits_ : TxnPtr → Option Int
  ready_txns_ : List TxnPtr

namespace LockManager

/-- The manager right after construction with an empty ready queue. -/
def empty : LockManager := ⟨fun _ => Slot.absent, fun _ => none, []⟩

/-- The requests queued on `key`. -/
def queue (lm : LockManager) (key : Key) : List LockRequest :=
  (lm.lock_table_ key).reqs

/-- The pending counter of `txn`, as `txn_waits_[txn]` reads it. -/
def counter (lm : LockManager) (txn : TxnPtr) : Int :=
  (lm.txn_waits_ txn).getD 0

/-- The effect of evaluating `lock_table_[key]`: a key without entry gets a
null entry. -/
def touch (lm : LockManager) (key : Key) : LockManager :=
  match lm.lock_table_ key with
  | .absent => { lm with lock_table_ := Function.update lm.lock_table_ key Slot.null }
  | _ => lm

/-- Lines 12-19 / 91-98 / 112-119 of lock_manager.cc: append the request `l`
to the deque of `key`, creating the deque when the entry is null. -/
def enqueue (lm : LockManager) (key : Key) (l : LockRequest) : LockManager :=
  match lm.lock_table_ key with
  | .deque q =>
    { lm with lock_table_ := Function.update lm.lock_table_ key (Slot.deque (q ++ [l])) }
  | _ => { lm with lock_table_ := Function.update lm.lock_table_ key (Slot.deque [l]) }

/-- The statement `txn_waits_[txn]++`. -/
def incr (lm : LockManager) (txn : TxnPtr) : LockManager :=
  { lm with txn_waits_ := Function.update lm.txn_waits_ txn (some (lm.counter txn + 1)) }

/-- Remove the first request of `txn` from a deque (the erase loops of the two
`Release` functions). -/
def eraseFirst (txn : TxnPtr) : List LockRequest → List LockRequest
  | [] => []
  | r :: rest => if r.txn_ = txn then rest else r :: eraseFirst txn rest

end LockManager

namespace LockManagerA

open LockManager

/-- Embeds `LockManagerA::WriteLock` (lock_manager.cc:9-27). -/
def WriteLock (lm : LockManager) (txn : TxnPtr) (key : Key) : Bool × LockManager :=
  let l : LockRequest := ⟨LockMode.EXCLUSIVE, txn⟩
  let lm1 := lm.enqueue key l
  if (lm1.queue key).length = 1 then (true, lm1)
  else (false, lm1.incr txn)

/-- Embeds `LockManagerA::ReadLock` (lock_manager.cc:29-34). -/
def ReadLock (lm : LockManager) (txn : TxnPtr) (key : Key) : Bool × LockManager :=
  WriteLock lm txn key

/-- Embeds `LockManagerA::Release` (lock_manager.cc:36-64). `none`: `front()` of an
empty deque. -/
def Release (lm : LockManager) (txn : TxnPtr) (key : Key) : Option LockManager :=
  match lm.lock_table_ key with
  | .absent => some (lm.touch key)
  | .null => some lm
  | .deque [] => none
  | .deque (r :: rest) =>
    if r.txn_ = txn then
      let lm1 : LockManager :=
        { lm with
          lock_table_ := Function.update lm.lock_table_ key (Slot.deque rest)
          txn_waits_ := Function.update lm.txn_waits_ txn none }
      match rest with
      | [] => some lm1
      | r1 :: _ =>
        let txn1 := r1.txn_
        let lm2 : LockManager :=
          { lm1 with
            txn_waits_ := Function.update lm1.txn_waits_ txn1 (some (lm1.counter txn1 - 1)) }
        if lm2.counter txn1 = 0 then
          some { lm2 with ready_txns_ := lm2.ready_txns_ ++ [txn1] }
        else some lm2
    else
      some { lm with
        lock_table_ :=
          Function.update lm.lock_table_ key (Slot.deque (eraseFirst txn (r :: rest)))
        txn_waits_ := Function.update lm.txn_waits_ txn none }

end LockManagerA

namespace LockManagerB

open LockManager

/-- Embeds `LockManagerB::WriteLock` (lock_manager.cc:87-106). -/
def WriteLock (lm : LockManager) (txn : TxnPtr) (key : Key) : Bool × LockManager :=
  let l : LockRequest := ⟨LockMode.EXCLUSIVE, txn⟩
  let lm1 := lm.enqueue key l
  if (lm1.queue key).length = 1 then (true, lm1)
  else (false, lm1.incr txn)

/-- Embeds `LockManagerB::ReadLock` (lock_manager.cc:108-139). The loop starts at
`queue->begin()+1`, that is, on the tail of the deque. -/
def ReadLock (lm : LockManager) (txn : TxnPtr) (key : Key) : Bool × LockManager :=
  let l : LockRequest := ⟨LockMode.SHARED, txn⟩
  let lm1 := lm.enqueue key l
  if (lm1.queue key).length = 1 then (true, lm1)
  else
    let isContainsExclusiveLock :=
      (lm1.queue key).tail.any (fun r => decide (r.mode_ = LockMode.EXCLUSIVE))
    if isContainsExclusiveLock then (false, lm1.incr txn)
    else (true, lm1)

/-- What the first loop of `LockManagerB::Release` leaves behind. -/
structure Scan where
  lock_mode : Option LockMode
  isA : Bool
  isB : Bool
  ct : Nat
  queue : List LockRequest
deriving DecidableEq, Repr

/-- First loop of `LockManagerB::Release` (lock_manager.cc:152-165).
`lock_mode = none`: the local `lock_mode` was never assigned. -/
def scan (txn : TxnPtr) : List LockRequest → Bool → Bool → Nat → Scan
  | [], isA, isB, ct => ⟨none, isA, isB, ct, []⟩
  | r :: rest, isA, isB, ct =>
    if r.txn_ = txn then ⟨some r.mode_, isA, isB, ct + 1, rest⟩
    else
      let isA1 := if r.mode_ = LockMode.EXCLUSIVE ∧ isA = false then true else isA
      let isB1 := if r.mode_ = LockMode.SHARED ∧ isB = false then true else isB
      let sc := scan txn rest isA1 isB1 (ct + 1)
      { sc with queue := r :: sc.queue }

/-- The block `txn_waits_[t]--; if (txn_waits_[t] == 0) { ready_txns_->push_back(t);
txn_waits_.erase(t); }` (lock_manager.cc:170-174, 183-187, 190-194). -/
def decr (lm : LockManager) (t : TxnPtr) : LockManager :=
  if lm.counter t - 1 = 0 then
    { lm with
      ready_txns_ := lm.ready_txns_ ++ [t]
      txn_waits_ := Function.update lm.txn_waits_ t none }
  else
    { lm with txn_waits_ := Function.update lm.txn_waits_ t (some (lm.counter t - 1)) }

/-- Second loop of `LockManagerB::Release` (lock_manager.cc:180-198) over the
requests from position `ct-1` on; `ct1` counts the SHARED requests met. -/
def promote (lm : LockManager) : List LockRequest → Nat → LockManager
  | [], _ => lm
  | r :: rest, ct1 =>
    if r.mode_ = LockMode.SHARED then promote (decr lm r.txn_) rest (ct1 + 1)
    else if ct1 = 0 then decr lm r.txn_ else lm

/-- Lines 167-176 of `LockManagerB::Release`: when the deque is not empty and
its front is EXCLUSIVE, the counter of the front's transaction is
decremented. -/
def wakeFront (lm : LockManager) : List LockRequest → LockManager
  | [] => lm
  | r :: _ => if r.mode_ = LockMode.EXCLUSIVE then decr lm r.txn_ else lm

/-- Embeds `LockManagerB::Release` (lock_manager.cc:141-201). `none`: the local
`lock_mode` is read without having been assigned (no request of `txn` in the
deque). -/
def Release (lm : LockManager) (txn : TxnPtr) (key : Key) : Option LockManager :=
  match lm.lock_table_ key with
  | .absent => some (lm.touch key)
  | .null => some lm
  | .deque q =>
    let sc := scan txn q false false 0
    match sc.lock_mode with
    | none => none
    | some lock_mode =>
      let lm1 : LockManager :=
        { lm with lock_table_ := Function.update lm.lock_table_ key (Slot.deque sc.queue) }
      let lm2 :=
        if lock_mode = LockMode.SHARED ∧ sc.isB = false ∧ sc.isA = false then
          wakeFront lm1 sc.queue
        else lm1
      if lock_mode = LockMode.EXCLUSIVE ∧ sc.isA = false then
        some (promote lm2 (sc.queue.drop (sc.ct - 1)) 0)
      else some lm2

end LockManagerB

/-! ## Transactions, single-version storage and the processor state -/

/-- Modelled from the spec: the status field of a transaction descriptor
(`txn.h` is absent), with the names `txn_processor.cc` uses. -/
inductive TxnStatus where
  | INCOMPLETE
  | COMPLETED_C
  | COMPLETED_A
  | COMMITTED
  | ABORTED
deriving DecidableEq, Repr

/-- Modelled from the spec: the transaction descriptor (`txn.h` is absent),
with the members `txn_processor.cc` accesses. `readset_`, `writeset_` are
`set<Key>` and `writes_` is `map<Key, Value>`, all three in ascending key
order; `reads_` is the `map<Key, Value>` the executor fills;
`occ_start_time_` is the wall-clock `double` returned by `GetTime()`, a
rational number; `occ_start_idx_` is the size of the committed history at
execution start. -/
structure Txn where
  readset_ : List Key
  writeset_ : List Key
  reads_ : Key → Option Value
  writes_ : List (Key × Value)
  status_ : TxnStatus
  unique_id_ : Int
  occ_start_time_ : Rat
  occ_start_idx_ : Nat

/-- Modelled from the spec: single-version storage (`storage.cc` is absent), a
mapping from keys to (value, last-writer-id). -/
structure Storage where
  data_ : Key → Option (Value × Int)

namespace Storage

/-- Modelled from the spec: a single-version storage without any record
(`storage.cc` is absent). -/
def empty : Storage := ⟨fun _ => none⟩

/-- Modelled from the spec: `read(k) → (found, value)` of single-version
storage (`Storage::Read`, absent); `*result` is written only when the record
exists. -/
def Read (s : Storage) (key : Key) (result : Value) : Bool × Value :=
  match s.data_ key with
  | some (v, _) => (true, v)
  | none => (false, result)

/-- Modelled from the spec: `write(k, v, writer_id)` of single-version storage
(`Storage::Write`, absent) unconditionally overwrites and records
`writer_id`. -/
def Write (s : Storage) (key : Key) (value : Value) (txn_unique_id : Int) : Storage :=
  ⟨Function.update s.data_ key (some (value, txn_unique_id))⟩

/-- Modelled from the spec: `timestamp(k)` of single-version storage
(`Storage::Timestamp`, absent) returns the last writer id; 0, the writer id of
the pre-initialisation, for a key never written. -/
def Timestamp (s : Storage) (key : Key) : Int :=
  match s.data_ key with
  | some (_, ts) => ts
  | none => 0

end Storage

/-- The object behind `TxnProcessor::storage_` (a `Storage*`): a single-version
`Storage` or the derived `MVCCStorage` (txn_processor.cc:24-32). -/
inductive StorageImpl where
  | sv (s : Storage)
  | mv (m : MVCCStorage)

namespace StorageImpl

/-- The virtual call `storage_->Read(key, &result, txn_unique_id)`. -/
def Read (st : StorageImpl) (key : Key) (result : Value) (txn_unique_id : Int) :
    Bool × Value × StorageImpl :=
  match st with
  | .sv s => ((s.Read key result).1, (s.Read key result).2, .sv s)
  | .mv m =>
    ((m.Read key result txn_unique_id).1, (m.Read key result txn_unique_id).2.1,
      .mv (m.Read key result txn_unique_id).2.2)

/-- The virtual call `storage_->Write(key, value, txn_unique_id)`. -/
def Write (st : StorageImpl) (key : Key) (value : Value) (txn_unique_id : Int) :
    StorageImpl :=
  match st with
  | .sv s => .sv (s.Write key value txn_unique_id)
  | .mv m => .mv (m.Write key value txn_unique_id)

end StorageImpl

/-- The concurrency-control modes (txn_processor.h:23-34). -/
inductive CCMode where
  | SERIAL
  | LOCKING_EXCLUSIVE_ONLY
  | LOCKING
  | OCC_SERIAL_FORWARD_VALIDATION
  | OCC_SERIAL_BACKWARD_VALIDATION
  | OCC_PARREL_FORWARD_VALIDATION
  | OCC_PARREL_BACKWARD_VALIDATION
  | MVCC_MVTO
  | MVCC_MV2PL
deriving DecidableEq, Repr

/-- Modelled from the spec: how a scheduler step can end without a successor
state. The macro `DIE` (`utils/common.h`, absent) is the fatal error that
terminates the process. -/
inductive Failure where
  /-- The macro `DIE(...)` was reached: the process terminates. -/
  | die
  /-- A lock-manager call with undefined behaviour was reached. -/
  | undefinedBehaviour
deriving DecidableEq, Repr

/-- The increment `next_unique_id_++` (txn_processor.cc:81, 312, 359, 483, 557,
611) of the member `int next_unique_id_` (txn_processor.h:140), a 32-bit
two's-complement integer: `x + 1` reduced to the range `-2^31 .. 2^31 - 1`,
so `2^31 - 1` is followed by `-2^31`. The C++ standard leaves the overflow
undefined; this is the value the compiled increment stores. -/
def intSucc (x : Int) : Int :=
  (x + 1 + 2147483648) % 4294967296 - 2147483648

/-- The data members of `TxnProcessor` (txn_processor.h:130-178) that the
schedulers read or write, and the heap of transaction objects. The ready
queue `ready_txns_` is `lm_.ready_txns_`: the lock manager holds a pointer to
it (txn_processor.cc:18-26). The containers `AtomicQueue`, `AtomicVector` and
`AtomicSet` (`utils/atomic.h`, absent) are lists: `Push` appends, `Pop` takes
the front, `Size` is the length. -/
structure TxnProcessor where
  mode_ : CCMode
  storage_ : StorageImpl
  next_unique_id_ : Int
  txn_requests_ : List TxnPtr
  completed_txns_ : List TxnPtr
  committed_txns_ : List TxnPtr
  txn_results_ : List TxnPtr
  active_set_ : List TxnPtr
  lm_ : LockManager
  heap : TxnPtr → Txn

namespace TxnProcessor

/-- Overwrite the transaction object `txn` points to. -/
def setTxn (s : TxnProcessor) (txn : TxnPtr) (t : Txn) : TxnProcessor :=
  { s with heap := Function.update s.heap txn t }

/-- The assignment `txn->status_ = st`. -/
def setStatus (s : TxnProcessor) (txn : TxnPtr) (st : TxnStatus) : TxnProcessor :=
  s.setTxn txn { s.heap txn with status_ := st }

/-- Embeds `TxnProcessor::NewTxnRequest` (txn_processor.cc:75-84). -/
def NewTxnRequest (s : TxnProcessor) (txn : TxnPtr) : TxnProcessor :=
  let s1 := s.setTxn txn { s.heap txn with unique_id_ := s.next_unique_id_ }
  { s1 with
    next_unique_id_ := intSucc s1.next_unique_id_
    txn_requests_ := s1.txn_requests_ ++ [txn] }

/-- The read loops of the executors (txn_processor.cc:255-262, 265-270,
412-417, 420-425, 499-504, 507-512, 584-593): for every key of `keys`, in
order, `Value result; if (storage_->Read(key, &result, id)) txn->reads_[key] =
result;`. `uninit` is the indeterminate content of the local `result` before
the call. -/
def readKeys (uninit : Value) (id : Int) :
    List Key → StorageImpl → (Key → Option Value) → StorageImpl × (Key → Option Value)
  | [], st, reads => (st, reads)
  | key :: rest, st, reads =>
    let r := st.Read key uninit id
    readKeys uninit id rest r.2.2
      (if r.1 then Function.update reads key (some r.2.1) else reads)

/-- Lines 252-270 of `TxnProcessor::ExecuteTxn`: record the start time and the
size of the committed history, then read the read set and the write set.
`storage_->Read(key, &result)` leaves the transaction id to its default
argument, 0. -/
def ExecuteTxn_reads (s : TxnProcessor) (txn : TxnPtr) (now : Rat) (uninit : Value) :
    TxnProcessor :=
  let t0 := s.heap txn
  let r1 := readKeys uninit 0 t0.readset_ s.storage_ t0.reads_
  let r2 := readKeys uninit 0 t0.writeset_ r1.1 r1.2
  { s with
    storage_ := r2.1
    heap := Function.update s.heap txn
      { t0 with
        occ_start_time_ := now
        occ_start_idx_ := s.committed_txns_.length
        reads_ := r2.2 } }

/-- Lines 252-273 of `TxnProcessor::ExecuteTxn`: the reads, then the body
`txn->Run()`, given as the function `Run` on the transaction object. -/
def ExecuteTxn_run (s : TxnProcessor) (txn : TxnPtr) (now : Rat) (uninit : Value)
    (Run : Txn → Txn) : TxnProcessor :=
  let s1 := ExecuteTxn_reads s txn now uninit
  s1.setTxn txn (Run (s1.heap txn))

/-- Line 276 of `TxnProcessor::ExecuteTxn`: `completed_txns_.Push(txn)`. -/
def ExecuteTxn_push (s : TxnProcessor) (txn : TxnPtr) : TxnProcessor :=
  { s with completed_txns_ := s.completed_txns_ ++ [txn] }

/-- Embeds `TxnProcessor::ExecuteTxn` (txn_processor.cc:250-277). -/
def ExecuteTxn (s : TxnProcessor) (txn : TxnPtr) (now : Rat) (uninit : Value)
    (Run : Txn → Txn) : TxnProcessor :=
  ExecuteTxn_push (ExecuteTxn_run s txn now uninit Run) txn

/-- The loop of `TxnProcessor::ApplyWrites` over `txn->writes_`. -/
def applyWritesLoop (id : Int) : List (Key × Value) → StorageImpl → StorageImpl
  | [], st => st
  | kv :: rest, st => applyWritesLoop id rest (st.Write kv.1 kv.2 id)

/-- Embeds `TxnProcessor::ApplyWrites` (txn_processor.cc:279-286). -/
def ApplyWrites (s : TxnProcessor) (txn : TxnPtr) : TxnProcessor :=
  { s with
    storage_ := applyWritesLoop (s.heap txn).unique_id_ (s.heap txn).writes_ s.storage_ }

/-- The commit block `ApplyWrites(txn); committed_txns_.Push(txn);
txn->status_ = COMMITTED;` (txn_processor.cc:146-148, 207-209). -/
def commit (s : TxnProcessor) (txn : TxnPtr) : TxnProcessor :=
  let s1 := ApplyWrites s txn
  let s2 := { s1 with committed_txns_ := s1.committed_txns_ ++ [txn] }
  s2.setStatus txn TxnStatus.COMMITTED

/-- The statement `txn_results_.Push(txn)`. -/
def publish (s : TxnProcessor) (txn : TxnPtr) : TxnProcessor :=
  { s with txn_results_ := s.txn_results_ ++ [txn] }

/-- The decision on a completed transaction (txn_processor.cc:144-158 and,
with the same text, 205-219). -/
def commitOrAbort (s : TxnProcessor) (txn : TxnPtr) : Except Failure TxnProcessor :=
  match (s.heap txn).status_ with
  | TxnStatus.COMPLETED_C => .ok (s.commit txn)
  | TxnStatus.COMPLETED_A => .ok (s.setStatus txn TxnStatus.ABORTED)
  | _ => .error Failure.die

/-- One pass through the loop body of `TxnProcessor::RunSerialScheduler`
(txn_processor.cc:137-162). -/
def RunSerialScheduler_step (s : TxnProcessor) (now : Rat) (uninit : Value)
    (Run : Txn → Txn) : Except Failure TxnProcessor :=
  match s.txn_requests_ with
  | [] => .ok s
  | txn :: rest =>
    let s1 := ExecuteTxn { s with txn_requests_ := rest } txn now uninit Run
    match commitOrAbort s1 txn with
    | .ok s2 => .ok (s2.publish txn)
    | .error e => .error e

/-- Which lock manager the constructor builds (txn_processor.cc:18-26):
`LockManagerA` in mode LOCKING_EXCLUSIVE_ONLY, `LockManagerB` in the other
modes that have one. Returns true for `LockManagerA`. -/
def isLockManagerA (mode : CCMode) : Bool :=
  decide (mode = CCMode.LOCKING_EXCLUSIVE_ONLY)

/-- The virtual call `lm_->ReadLock(txn, key)`. -/
def lmReadLock (mode : CCMode) (lm : LockManager) (txn : TxnPtr) (key : Key) :
    Bool × LockManager :=
  if isLockManagerA mode then LockManagerA.ReadLock lm txn key
  else LockManagerB.ReadLock lm txn key

/-- The virtual call `lm_->WriteLock(txn, key)`. -/
def lmWriteLock (mode : CCMode) (lm : LockManager) (txn : TxnPtr) (key : Key) :
    Bool × LockManager :=
  if isLockManagerA mode then LockManagerA.WriteLock lm txn key
  else LockManagerB.WriteLock lm txn key

/-- The virtual call `lm_->Release(txn, key)`. -/
def lmRelease (mode : CCMode) (lm : LockManager) (txn : TxnPtr) (key : Key) :
    Option LockManager :=
  if isLockManagerA mode then LockManagerA.Release lm txn key
  else LockManagerB.Release lm txn key

/-- A lock-request loop of the admission step (txn_processor.cc:176-182,
185-191, 652-658, 661-666): every key is requested, `blocked` is set as soon
as one request is refused. -/
def lockLoop (f : LockManager → TxnPtr → Key → Bool × LockManager) (txn : TxnPtr) :
    List Key → LockManager → Bool → LockManager × Bool
  | [], lm, blocked => (lm, blocked)
  | key :: rest, lm, blocked =>
    lockLoop f txn rest (f lm txn key).2 (if (f lm txn key).1 then blocked else true)

/-- The admission step of `TxnProcessor::RunLockingScheduler`
(txn_processor.cc:172-199). -/
def RunLockingScheduler_admit (s : TxnProcessor) : TxnProcessor :=
  match s.txn_requests_ with
  | [] => s
  | txn :: rest =>
    let r1 := lockLoop (lmReadLock s.mode_) txn (s.heap txn).readset_ s.lm_ false
    let r2 := lockLoop (lmWriteLock s.mode_) txn (s.heap txn).writeset_ r1.1 r1.2
    let lm3 :=
      if r2.2 = false then { r2.1 with ready_txns_ := r2.1.ready_txns_ ++ [txn] }
      else r2.1
    { s with txn_requests_ := rest, lm_ := lm3 }

/-- A release loop of the completion step (txn_processor.cc:222-225,
227-230). -/
def releaseLoop (mode : CCMode) (txn : TxnPtr) : List Key → LockManager → Option LockManager
  | [], lm => some lm
  | key :: rest, lm =>
    match lmRelease mode lm txn key with
    | some lm1 => releaseLoop mode txn rest lm1
    | none => none

/-- One pass through the completion loop of `TxnProcessor::RunLockingScheduler`
(txn_processor.cc:202-234). -/
def RunLockingScheduler_complete (s : TxnProcessor) : Except Failure TxnProcessor :=
  match s.completed_txns_ with
  | [] => .ok s
  | txn :: rest =>
    match commitOrAbort { s with completed_txns_ := rest } txn with
    | .error e => .error e
    | .ok s1 =>
      match releaseLoop s1.mode_ txn (s1.heap txn).readset_ s1.lm_ with
      | none => .error Failure.undefinedBehaviour
      | some lm1 =>
        match releaseLoop s1.mode_ txn (s1.heap txn).writeset_ lm1 with
        | none => .error Failure.undefinedBehaviour
        | some lm2 => .ok ({ s1 with lm_ := lm2 }.publish txn)

/-- The re-admission block (txn_processor.cc:307-314, 354-361, 478-485,
552-559, 606-613). -/
def readmit (s : TxnProcessor) (txn : TxnPtr) : TxnProcessor :=
  let s1 := s.setTxn txn
    { s.heap txn with
      reads_ := fun _ => none
      writes_ := []
      status_ := TxnStatus.INCOMPLETE
      unique_id_ := s.next_unique_id_ }
  { s1 with
    next_unique_id_ := intSucc s1.next_unique_id_
    txn_requests_ := s1.txn_requests_ ++ [txn] }

/-- Innermost loop of the backward validation (txn_processor.cc:339-345):
search the read set for `key`. -/
def scanReadset (key : Key) : List Key → Bool → Bool
  | [], isvalid => isvalid
  | k1 :: rest, isvalid => if k1 = key then false else scanReadset key rest isvalid

/-- Middle loop of the backward validation (txn_processor.cc:338-346), over
the write set of one committed transaction, guarded by `isvalid`. -/
def scanWriteset (readset : List Key) : List Key → Bool → Bool
  | [], isvalid => isvalid
  | key :: rest, isvalid =>
    if isvalid then scanWriteset readset rest (scanReadset key readset isvalid)
    else isvalid

/-- Outer loop of the backward validation (txn_processor.cc:335-347), over the
committed transactions from index `occ_start_idx_ + 1` on, guarded by
`isvalid`. -/
def scanCommitted (heap : TxnPtr → Txn) (readset : List Key) : List TxnPtr → Bool → Bool
  | [], isvalid => isvalid
  | past_txn :: rest, isvalid =>
    if isvalid then
      scanCommitted heap readset rest (scanWriteset readset (heap past_txn).writeset_ isvalid)
    else isvalid

/-- One pass through the completion loop of
`TxnProcessor::RunOCCSerialSchedulerBackwardValidation`
(txn_processor.cc:333-363). -/
def RunOCCSerialSchedulerBackwardValidation_complete (s : TxnProcessor) : TxnProcessor :=
  match s.completed_txns_ with
  | [] => s
  | txn :: rest =>
    let s1 := { s with completed_txns_ := rest }
    let isvalid :=
      scanCommitted s1.heap (s1.heap txn).readset_
        (s1.committed_txns_.drop ((s1.heap txn).occ_start_idx_ + 1)) true
    if isvalid then
      let s2 := ApplyWrites s1 txn
      let s3 := { s2 with committed_txns_ := s2.committed_txns_ ++ [txn] }
      (s3.setStatus txn TxnStatus.COMMITTED).publish txn
    else readmit s1 txn

/-- The admission step of the OCC and MVCC-TO schedulers
(txn_processor.cc:293-296, 327-330, 374-377, 387-390, 400-403): pop the next
request; the popped transaction is handed to a worker. -/
def popRequest (s : TxnProcessor) : Option (TxnPtr × TxnProcessor) :=
  match s.txn_requests_ with
  | [] => none
  | txn :: rest => some (txn, { s with txn_requests_ := rest })

/-- Lines 409-425 of `TxnProcessor::ExecuteTxnParallelBackwardValidation`: what
happens before the body is run at line 428. -/
def ExecuteTxnParallelBackwardValidation_reads (s : TxnProcessor) (txn : TxnPtr)
    (uninit : Value) : TxnProcessor :=
  let t0 := s.heap txn
  let r1 := readKeys uninit 0 t0.readset_ s.storage_ t0.reads_
  let r2 := readKeys uninit 0 t0.writeset_ r1.1 r1.2
  { s with
    storage_ := r2.1
    heap := Function.update s.heap txn
      { t0 with occ_start_idx_ := s.committed_txns_.length, reads_ := r2.2 } }

/-- Lines 496-512 of `TxnProcessor::ExecuteTxnParallelForwardValidation`: what
happens before the body is run at line 515. -/
def ExecuteTxnParallelForwardValidation_reads (s : TxnProcessor) (txn : TxnPtr)
    (now : Rat) (uninit : Value) : TxnProcessor :=
  let t0 := s.heap txn
  let r1 := readKeys uninit 0 t0.readset_ s.storage_ t0.reads_
  let r2 := readKeys uninit 0 t0.writeset_ r1.1 r1.2
  { s with
    storage_ := r2.1
    heap := Function.update s.heap txn
      { t0 with occ_start_time_ := now, reads_ := r2.2 } }

/-- Lines 584-593 of `TxnProcessor::MVCCMVTOExecuteTxn`: what happens before
the body is run at line 594; only the read set is read, with the
transaction's own id. The per-key mutex has no effect on a single thread. -/
def MVCCMVTOExecuteTxn_reads (s : TxnProcessor) (txn : TxnPtr) (uninit : Value) :
    TxnProcessor :=
  let t0 := s.heap txn
  let r1 := readKeys uninit t0.unique_id_ t0.readset_ s.storage_ t0.reads_
  { s with
    storage_ := r1.1
    heap := Function.update s.heap txn { t0 with reads_ := r1.2 } }

/-- Lines 706-725 of `TxnProcessor::MVCC2PLExecuteTxn`, what follows the body:
`isvalid` is the constant true, so the else branch is never taken. The
per-key mutexes have no effect on a single thread. -/
def MVCC2PLExecuteTxn_finish (s : TxnProcessor) (txn : TxnPtr) : TxnProcessor :=
  let s2 := ApplyWrites s txn
  let s3 := s2.setStatus txn TxnStatus.COMMITTED
  { s3 with
    committed_txns_ := s3.committed_txns_ ++ [txn]
    completed_txns_ := s3.completed_txns_ ++ [txn] }

/-- Embeds `TxnProcessor::MVCC2PLExecuteTxn` (txn_processor.cc:704-725): the body is
run first (line 705), on the transaction object as it is. -/
def MVCC2PLExecuteTxn (s : TxnProcessor) (txn : TxnPtr) (Run : Txn → Txn) : TxnProcessor :=
  MVCC2PLExecuteTxn_finish (s.setTxn txn (Run (s.heap txn))) txn

end TxnProcessor

/-! ## Lock status, storage initialisation and the MVCC-TO executor -/

namespace LockManagerB

/-- The loop of `LockManagerB::Status` (lock_manager.cc:219-225): collect the
transactions of the SHARED requests from the front, up to the first request
that is not SHARED. -/
def sharedOwners : List LockRequest → List TxnPtr
  | [] => []
  | r :: rest => if r.mode_ = LockMode.SHARED then r.txn_ :: sharedOwners rest else []

/-- Embeds `LockManagerB::Status` (lock_manager.cc:204-230). The argument `owners`
is the content of `*owners` before the call; the result is the returned mode
and the content of `*owners` after the call. `none`: the entry of `key` is a
null pointer (or is created as one by `lock_table_[key]`), in which case
control reaches the end of the function without a `return`. When the result
is defined the lock table is as before the call. -/
def Status (lm : LockManager) (key : Key) (owners : List TxnPtr) :
    Option (LockMode × List TxnPtr) :=
  match lm.lock_table_ key with
  | .absent => none
  | .null => none
  | .deque [] => some (LockMode.UNLOCKED, owners)
  | .deque (r :: rest) =>
    if r.mode_ = LockMode.EXCLUSIVE then some (LockMode.EXCLUSIVE, [r.txn_])
    else some (LockMode.SHARED, sharedOwners (r :: rest))

/-- The transactions of `txns` call `ReadLock(t, key)` one after the other; the
result lists the returned flags in call order and the manager after the last
call. -/
def readLockAll (key : Key) : List TxnPtr → LockManager → List Bool × LockManager
  | [], lm => ([], lm)
  | t :: rest, lm =>
    ((ReadLock lm t key).1 :: (readLockAll key rest (ReadLock lm t key).2).1,
      (readLockAll key rest (ReadLock lm t key).2).2)

/-- The maximal leading run of SHARED requests of a queue. -/
def sharedRun (q : List LockRequest) : List LockRequest :=
  q.takeWhile (fun r => decide (r.mode_ = LockMode.SHARED))

end LockManagerB

namespace MVCCStorage

/-- The loop of `MVCCStorage::InitStorage` (mvcc_storage.cc:6-11) for
`i = 0, ..., n-1`: `Write(i, 0, 0)`. The per-key mutexes are not part of the
embedding. -/
def initLoop : Nat → MVCCStorage → MVCCStorage
  | 0, s => s
  | n + 1, s => (initLoop n s).Write n 0 0

/-- Embeds `MVCCStorage::InitStorage` (mvcc_storage.cc:4-12), on the storage as
constructed. -/
@[irreducible]
def InitStorage : MVCCStorage := initLoop 1000000 MVCCStorage.empty

/-- The storage states reached from `InitStorage` by `Read` calls (any
arguments) and by `Write` calls that `CheckWrite` allows. -/
inductive Reachable : MVCCStorage → Prop where
  | init : Reachable InitStorage
  | read (s : MVCCStorage) (key : Key) (result : Value) (txn_unique_id : Int) :
      Reachable s → Reachable (s.Read key result txn_unique_id).2.2
  | write (s : MVCCStorage) (key : Key) (value : Value) (txn_unique_id : Int) :
      Reachable s → s.CheckWrite key txn_unique_id = true →
      Reachable (s.Write key value txn_unique_id)

/-- Write timestamps non-increasing from head to tail. -/
def chainWeaklySorted (chain : List Version) : Prop :=
  chain.Pairwise (fun a b => a.version_id_ ≥ b.version_id_)

/-- The version chain of a key, empty when the key has no entry. -/
def chain (s : MVCCStorage) (key : Key) : List Version :=
  (s.mvcc_data_ key).getD []

/-- What a version chain is apart from the read marks: the values and write
timestamps of its versions, head first. -/
def versions (s : MVCCStorage) (key : Key) : List (Value × Int) :=
  (s.chain key).map (fun v => (v.value_, v.version_id_))

end MVCCStorage

/-- The version chains of the object behind `storage_` apart from the read
marks; a single-version storage has none. -/
def StorageImpl.versions (st : StorageImpl) (key : Key) : List (Value × Int) :=
  match st with
  | .sv _ => []
  | .mv m => m.versions key

/-- The virtual call `storage_->CheckWrite(key, txn_unique_id)`. Modelled from
the spec: on the single-version `Storage` (`storage.h` is absent; the spec
gives it no write check) every write is accepted; the MVCC modes never run on
it. -/
def StorageImpl.CheckWrite (st : StorageImpl) (key : Key) (txn_unique_id : Int) : Bool :=
  match st with
  | .sv _ => true
  | .mv m => m.CheckWrite key txn_unique_id

namespace TxnProcessor

/-- The loop of `TxnProcessor::MVCCCheckWrites` (txn_processor.cc:620-623),
guarded by `isvalid`. -/
def checkWritesLoop (st : StorageImpl) (id : Int) : List Key → Bool → Bool
  | [], isvalid => isvalid
  | key :: rest, isvalid =>
    if isvalid then checkWritesLoop st id rest (st.CheckWrite key id) else isvalid

/-- Embeds `TxnProcessor::MVCCCheckWrites` (txn_processor.cc:617-625). -/
def MVCCCheckWrites (s : TxnProcessor) (txn : TxnPtr) : Bool :=
  checkWritesLoop s.storage_ (s.heap txn).unique_id_ (s.heap txn).writeset_ true

/-- Lines 595-614 of `TxnProcessor::MVCCMVTOExecuteTxn`, what follows the body.
The per-key mutexes have no effect on a single thread. -/
def MVCCMVTOExecuteTxn_finish (s : TxnProcessor) (txn : TxnPtr) : TxnProcessor :=
  if MVCCCheckWrites s txn then
    let s1 := ApplyWrites s txn
    let s2 := s1.setStatus txn TxnStatus.COMMITTED
    { s2 with
      txn_results_ := s2.txn_results_ ++ [txn]
      committed_txns_ := s2.committed_txns_ ++ [txn] }
  else readmit s txn

/-- Embeds `TxnProcessor::MVCCMVTOExecuteTxn` (txn_processor.cc:583-615): the reads
of the read set, the body `txn->Run()` given as the function `Run`, then the
write checks and their outcome. -/
def MVCCMVTOExecuteTxn (s : TxnProcessor) (txn : TxnPtr) (uninit : Value)
    (Run : Txn → Txn) : TxnProcessor :=
  MVCCMVTOExecuteTxn_finish
    ((MVCCMVTOExecuteTxn_reads s txn uninit).setTxn txn
      (Run ((MVCCMVTOExecuteTxn_reads s txn uninit).heap txn))) txn

/-- The flag `isvalid` that the completion loop of
`TxnProcessor::RunOCCSerialSchedulerBackwardValidation` computes for `txn`
(txn_processor.cc:334-347). -/
def backwardIsValid (s : TxnProcessor) (txn : TxnPtr) : Bool :=
  scanCommitted s.heap (s.heap txn).readset_
    (s.committed_txns_.drop ((s.heap txn).occ_start_idx_ + 1)) true

end TxnProcessor

/-! ## OCC validation, the parallel executors and the MVCC-2PL scheduler -/

/-- The virtual call `storage_->Timestamp(key)`. Modelled from the spec:
`timestamp(k)` of the single-version storage returns the last writer id
(`storage.cc` is absent); `mvcc_storage.cc` defines no `Timestamp` and its
`Write` records none, so the multi-version storage answers 0, the timestamp
of a key never written. The call changes nothing. The OCC modes never run on
the multi-version storage. -/
def StorageImpl.Timestamp (st : StorageImpl) (key : Key) : Rat :=
  match st with
  | .sv s => ((s.Timestamp key : Int) : Rat)
  | .mv _ => 0

namespace TxnProcessor

/-- One loop of `TxnProcessor::SerialValidate` (txn_processor.cc:568-573 and
574-579): `return false` at the first key whose timestamp is above the start
time; `after` is what the code that follows the loop returns. -/
def timestampLoop (start : Rat) (st : StorageImpl) : List Key → Bool → Bool
  | [], after => after
  | key :: rest, after =>
    if start < st.Timestamp key then false else timestampLoop start st rest after

/-- Embeds `TxnProcessor::SerialValidate` (txn_processor.cc:567-581): the loop over
the read set, then the loop over the write set, then `return true`. -/
def SerialValidate (s : TxnProcessor) (txn : TxnPtr) : Bool :=
  timestampLoop (s.heap txn).occ_start_time_ s.storage_ (s.heap txn).readset_
    (timestampLoop (s.heap txn).occ_start_time_ s.storage_ (s.heap txn).writeset_ true)

/-- One pass through the completion loop of
`TxnProcessor::RunOCCSerialSchedulerForwardValidation`
(txn_processor.cc:299-316). -/
def RunOCCSerialSchedulerForwardValidation_complete (s : TxnProcessor) : TxnProcessor :=
  match s.completed_txns_ with
  | [] => s
  | txn :: rest =>
    let s1 := { s with completed_txns_ := rest }
    if SerialValidate s1 txn then
      let s2 := ApplyWrites s1 txn
      let s3 := { s2 with committed_txns_ := s2.committed_txns_ ++ [txn] }
      (s3.setStatus txn TxnStatus.COMMITTED).publish txn
    else readmit s1 txn

/-- The operation `insert` of `std::set` on a set given as the list of its
elements in ascending order. -/
def setInsert (k : Nat) : List Nat → List Nat
  | [] => [k]
  | x :: rest =>
    if k < x then k :: x :: rest
    else if k = x then x :: rest
    else x :: setInsert k rest

/-- The loops `interset.insert(*it)` (txn_processor.cc:436-439, 453-456,
523-530): the keys are inserted one after the other. -/
def insertAll : List Key → List Key → List Key
  | [], interset => interset
  | key :: rest, interset => insertAll rest (setInsert key interset)

/-- The loop over the committed history of
`TxnProcessor::ExecuteTxnParallelBackwardValidation` (txn_processor.cc:440-451),
from index `occ_start_idx_ + 1` on and guarded by `isvalid`: the keys of
`past_txn->writes_` are searched in `interset`. -/
def scanCommittedWrites (heap : TxnPtr → Txn) (interset : List Key) :
    List TxnPtr → Bool → Bool
  | [], isvalid => isvalid
  | past_txn :: rest, isvalid =>
    if isvalid then
      scanCommittedWrites heap interset rest
        (scanWriteset interset ((heap past_txn).writes_.map (fun kv => kv.1)) isvalid)
    else isvalid

/-- The flag `isvalid` of `ExecuteTxnParallelBackwardValidation` after the loop
over the committed history (txn_processor.cc:434-451); `interset` holds the
read set. -/
def parallelBackwardCheck (s : TxnProcessor) (txn : TxnPtr) : Bool :=
  scanCommittedWrites s.heap (insertAll (s.heap txn).readset_ [])
    (s.committed_txns_.drop ((s.heap txn).occ_start_idx_ + 1)) true

/-- The loop over the snapshot `finish` of the active set
(txn_processor.cc:453-470 and 522-544), entered with `isvalid` true: `interset`
holds the read set and the write set, and the keys of `past_txn->writeset_`
are searched in it (`*it1 == *it2`, the operands of `scanReadset` swapped). -/
def finishCheck (s : TxnProcessor) (txn : TxnPtr) (finish : List TxnPtr) : Bool :=
  scanCommitted s.heap
    (insertAll (s.heap txn).writeset_ (insertAll (s.heap txn).readset_ [])) finish true

/-- The flag `isvalid` at line 472 of `ExecuteTxnParallelBackwardValidation`. -/
def parallelBackwardIsValid (s : TxnProcessor) (txn : TxnPtr) (finish : List TxnPtr) : Bool :=
  if parallelBackwardCheck s txn then finishCheck s txn finish else false

/-- The flag `isvalid` at line 546 of `ExecuteTxnParallelForwardValidation`. -/
def parallelForwardIsValid (s : TxnProcessor) (txn : TxnPtr) (finish : List TxnPtr) : Bool :=
  if SerialValidate s txn then finishCheck s txn finish else false

/-- The commit block of the parallel executors (txn_processor.cc:473-476 and
547-550): `ApplyWrites(txn); txn->status_ = COMMITTED; txn_results_.Push(txn);
committed_txns_.Push(txn);`. -/
def commitParallel (s : TxnProcessor) (txn : TxnPtr) : TxnProcessor :=
  let s1 := ApplyWrites s txn
  let s2 := s1.setStatus txn TxnStatus.COMMITTED
  { s2 with
    txn_results_ := s2.txn_results_ ++ [txn]
    committed_txns_ := s2.committed_txns_ ++ [txn] }

/-- Lines 430-490 of `TxnProcessor::ExecuteTxnParallelBackwardValidation`, what
follows the body: the snapshot `finish` of the active set and the insertion of
`txn` (one critical section), the two checks, the commit or the re-admission,
and the removal of `txn` from the active set. -/
def ExecuteTxnParallelBackwardValidation_finish (s : TxnProcessor) (txn : TxnPtr) :
    TxnProcessor :=
  let finish := s.active_set_
  let s0 := { s with active_set_ := setInsert txn s.active_set_ }
  let s1 := if parallelBackwardIsValid s0 txn finish then commitParallel s0 txn
    else readmit s0 txn
  { s1 with active_set_ := s1.active_set_.erase txn }

/-- Embeds `TxnProcessor::ExecuteTxnParallelBackwardValidation`
(txn_processor.cc:407-491): the reads, the body `txn->Run()` given as the
function `Run`, then the validation. -/
def ExecuteTxnParallelBackwardValidation (s : TxnProcessor) (txn : TxnPtr) (uninit : Value)
    (Run : Txn → Txn) : TxnProcessor :=
  ExecuteTxnParallelBackwardValidation_finish
    ((ExecuteTxnParallelBackwardValidation_reads s txn uninit).setTxn txn
      (Run ((ExecuteTxnParallelBackwardValidation_reads s txn uninit).heap txn))) txn

/-- Lines 516-564 of `TxnProcessor::ExecuteTxnParallelForwardValidation`, what
follows the body. -/
def ExecuteTxnParallelForwardValidation_finish (s : TxnProcessor) (txn : TxnPtr) :
    TxnProcessor :=
  let finish := s.active_set_
  let s0 := { s with active_set_ := setInsert txn s.active_set_ }
  let s1 := if parallelForwardIsValid s0 txn finish then commitParallel s0 txn
    else readmit s0 txn
  { s1 with active_set_ := s1.active_set_.erase txn }

/-- Embeds `TxnProcessor::ExecuteTxnParallelForwardValidation`
(txn_processor.cc:494-565). -/
def ExecuteTxnParallelForwardValidation (s : TxnProcessor) (txn : TxnPtr) (now : Rat)
    (uninit : Value) (Run : Txn → Txn) : TxnProcessor :=
  ExecuteTxnParallelForwardValidation_finish
    ((ExecuteTxnParallelForwardValidation_reads s txn now uninit).setTxn txn
      (Run ((ExecuteTxnParallelForwardValidation_reads s txn now uninit).heap txn))) txn

/-- The admission step of `TxnProcessor::RunMVCCMV2PLScheduler`
(txn_processor.cc:647-674), the text of the admission step of
`RunLockingScheduler`. -/
def RunMVCCMV2PLScheduler_admit (s : TxnProcessor) : TxnProcessor :=
  match s.txn_requests_ with
  | [] => s
  | txn :: rest =>
    let r1 := lockLoop (lmReadLock s.mode_) txn (s.heap txn).readset_ s.lm_ false
    let r2 := lockLoop (lmWriteLock s.mode_) txn (s.heap txn).writeset_ r1.1 r1.2
    let lm3 :=
      if r2.2 = false then { r2.1 with ready_txns_ := r2.1.ready_txns_ ++ [txn] }
      else r2.1
    { s with txn_requests_ := rest, lm_ := lm3 }

/-- One pass through the completion loop of
`TxnProcessor::RunMVCCMV2PLScheduler` (txn_processor.cc:677-690). -/
def RunMVCCMV2PLScheduler_complete (s : TxnProcessor) : Except Failure TxnProcessor :=
  match s.completed_txns_ with
  | [] => .ok s
  | txn :: rest =>
    let s1 := { s with completed_txns_ := rest }
    match releaseLoop s1.mode_ txn (s1.heap txn).readset_ s1.lm_ with
    | none => .error Failure.undefinedBehaviour
    | some lm1 =>
      match releaseLoop s1.mode_ txn (s1.heap txn).writeset_ lm1 with
      | none => .error Failure.undefinedBehaviour
      | some lm2 => .ok ({ s1 with lm_ := lm2 }.publish txn)

/-- The calls `f(txn, key)` for the keys of `keys`, one after the other: the
returned flags in call order and the manager after the last call. -/
def lockCalls (f : LockManager → TxnPtr → Key → Bool × LockManager) (txn : TxnPtr) :
    List Key → LockManager → List Bool × LockManager
  | [], lm => ([], lm)
  | key :: rest, lm =>
    ((f lm txn key).1 :: (lockCalls f txn rest (f lm txn key).2).1,
      (lockCalls f txn rest (f lm txn key).2).2)

/-- The state in which `MVCCMVTOExecuteTxn` runs its write checks: after the
reads and the body (txn_processor.cc:584-594). -/
def MVCCMVTOExecuteTxn_run (s : TxnProcessor) (txn : TxnPtr) (uninit : Value)
    (Run : Txn → Txn) : TxnProcessor :=
  (MVCCMVTOExecuteTxn_reads s txn uninit).setTxn txn
    (Run ((MVCCMVTOExecuteTxn_reads s txn uninit).heap txn))

end TxnProcessor

/-! ## Pending counters of `LockManagerA` -/

/-- The number of requests of the transaction `t` that are queued on a key
below `n` and are not at the head of the queue of that key. -/
def LockManager.waitingBelow (lm : LockManager) (t : TxnPtr) : Nat → Nat
  | 0 => 0
  | n + 1 =>
    LockManager.waitingBelow lm t n +
      (lm.queue n).tail.countP (fun r => decide (r.txn_ = t))

/-- The states of `LockManagerA` reached from the empty manager by `ReadLock`
and `WriteLock` calls and by `Release(txn, key)` calls for a request present
in the queue of `key`, made while the pending counter of `txn` is 0 (the
scheduler releases the locks of transactions that have run). -/
inductive LockManagerA.Reachable : LockManager → Prop where
  | empty : LockManagerA.Reachable LockManager.empty
  | readLock (lm : LockManager) (txn : TxnPtr) (key : Key) :
      LockManagerA.Reachable lm → LockManagerA.Reachable (LockManagerA.ReadLock lm txn key).2
  | writeLock (lm : LockManager) (txn : TxnPtr) (key : Key) :
      LockManagerA.Reachable lm → LockManagerA.Reachable (LockManagerA.WriteLock lm txn key).2
  | release (lm lm1 : LockManager) (txn : TxnPtr) (key : Key) :
      LockManagerA.Reachable lm → (∃ r ∈ lm.queue key, r.txn_ = txn) → lm.counter txn = 0 →
      LockManagerA.Release lm txn key = some lm1 → LockManagerA.Reachable lm1

/-! ## The calls on a processor and the ids they hand out -/

namespace TxnProcessor

/-- The state in which `ExecuteTxnParallelBackwardValidation` starts its
validation: after the reads and the body (txn_processor.cc:409-428). -/
def ExecuteTxnParallelBackwardValidation_run (s : TxnProcessor) (txn : TxnPtr)
    (uninit : Value) (Run : Txn → Txn) : TxnProcessor :=
  (ExecuteTxnParallelBackwardValidation_reads s txn uninit).setTxn txn
    (Run ((ExecuteTxnParallelBackwardValidation_reads s txn uninit).heap txn))

/-- The state in which `ExecuteTxnParallelForwardValidation` starts its
validation: after the reads and the body (txn_processor.cc:496-515). -/
def ExecuteTxnParallelForwardValidation_run (s : TxnProcessor) (txn : TxnPtr) (now : Rat)
    (uninit : Value) (Run : Txn → Txn) : TxnProcessor :=
  (ExecuteTxnParallelForwardValidation_reads s txn now uninit).setTxn txn
    (Run ((ExecuteTxnParallelForwardValidation_reads s txn now uninit).heap txn))

/-- One pass of the dispatch loop of the locking schedulers
(txn_processor.cc:238-246 and 692-699): the front of the ready queue is taken
off and handed to a worker; `none` when the queue is empty. -/
def popReady (s : TxnProcessor) : Option (TxnPtr × TxnProcessor) :=
  match s.lm_.ready_txns_ with
  | [] => none
  | txn :: rest => some (txn, { s with lm_ := { s.lm_ with ready_txns_ := rest } })

/-- Embeds `TxnProcessor::GetTxnResult` (txn_processor.cc:86-96): the front of the
result queue is taken off and returned; `none` while the queue is empty (the
caller keeps polling). -/
def GetTxnResult (s : TxnProcessor) : Option (TxnPtr × TxnProcessor) :=
  match s.txn_results_ with
  | [] => none
  | txn :: rest => some (txn, { s with txn_results_ := rest })

end TxnProcessor

/-- The calls that change the state of a processor: the client's
`NewTxnRequest` and `GetTxnResult`, the steps of the scheduler loops and the
tasks the workers run. `now` is the value `GetTime()` returns, `uninit` the indeterminate
content of the local `result`, `Run` the body of the transaction. -/
inductive Call where
  /-- The call `NewTxnRequest(txn)`. -/
  | submit (txn : TxnPtr)
  /-- The scheduler pops the next request and hands it to a worker. -/
  | pop
  /-- One pass of the loop of `RunSerialScheduler`. -/
  | serialStep (now : Rat) (uninit : Value) (Run : Txn → Txn)
  /-- The admission step of `RunLockingScheduler`. -/
  | lockingAdmission
  /-- One pass of the completion loop of `RunLockingScheduler`. -/
  | lockingCompletion
  /-- A worker runs `ExecuteTxn(txn)`. -/
  | execute (txn : TxnPtr) (now : Rat) (uninit : Value) (Run : Txn → Txn)
  /-- One pass of the completion loop of `RunOCCSerialSchedulerForwardValidation`. -/
  | forwardCompletion
  /-- One pass of the completion loop of `RunOCCSerialSchedulerBackwardValidation`. -/
  | backwardCompletion
  /-- A worker runs `ExecuteTxnParallelBackwardValidation(txn)`. -/
  | parallelBackward (txn : TxnPtr) (uninit : Value) (Run : Txn → Txn)
  /-- A worker runs `ExecuteTxnParallelForwardValidation(txn)`. -/
  | parallelForward (txn : TxnPtr) (now : Rat) (uninit : Value) (Run : Txn → Txn)
  /-- A worker runs `MVCCMVTOExecuteTxn(txn)`. -/
  | mvto (txn : TxnPtr) (uninit : Value) (Run : Txn → Txn)
  /-- The admission step of `RunMVCCMV2PLScheduler`. -/
  | mv2plAdmission
  /-- One pass of the completion loop of `RunMVCCMV2PLScheduler`. -/
  | mv2plCompletion
  /-- A worker runs `MVCC2PLExecuteTxn(txn)`. -/
  | mv2pl (txn : TxnPtr) (Run : Txn → Txn)
  /-- The scheduler takes the next ready transaction off the ready queue. -/
  | dispatch
  /-- The call `GetTxnResult()`. -/
  | getResult

namespace Call

/-- The state a call leaves, or the failure it ends in. -/
def apply : Call → TxnProcessor → Except Failure TxnProcessor
  | submit txn, s => .ok (s.NewTxnRequest txn)
  | pop, s =>
    match s.popRequest with
    | some p => .ok p.2
    | none => .ok s
  | serialStep now uninit Run, s => s.RunSerialScheduler_step now uninit Run
  | lockingAdmission, s => .ok (TxnProcessor.RunLockingScheduler_admit s)
  | lockingCompletion, s => s.RunLockingScheduler_complete
  | execute txn now uninit Run, s => .ok (s.ExecuteTxn txn now uninit Run)
  | forwardCompletion, s => .ok s.RunOCCSerialSchedulerForwardValidation_complete
  | backwardCompletion, s => .ok s.RunOCCSerialSchedulerBackwardValidation_complete
  | parallelBackward txn uninit Run, s =>
    .ok (s.ExecuteTxnParallelBackwardValidation txn uninit Run)
  | parallelForward txn now uninit Run, s =>
    .ok (s.ExecuteTxnParallelForwardValidation txn now uninit Run)
  | mvto txn uninit Run, s => .ok (s.MVCCMVTOExecuteTxn txn uninit Run)
  | mv2plAdmission, s => .ok (TxnProcessor.RunMVCCMV2PLScheduler_admit s)
  | mv2plCompletion, s => s.RunMVCCMV2PLScheduler_complete
  | mv2pl txn Run, s => .ok (s.MVCC2PLExecuteTxn txn Run)
  | dispatch, s =>
    match s.popReady with
    | some p => .ok p.2
    | none => .ok s
  | getResult, s =>
    match s.GetTxnResult with
    | some p => .ok p.2
    | none => .ok s

/-- The transaction to which a call hands out an id, if it hands out one: the
argument of `NewTxnRequest`, or the transaction whose validation fails (the
re-admission block then assigns `txn->unique_id_`). No other call assigns
`unique_id_`. -/
def assignee : Call → TxnProcessor → Option TxnPtr
  | submit txn, _ => some txn
  | forwardCompletion, s =>
    match s.completed_txns_ with
    | [] => none
    | txn :: _ => if s.SerialValidate txn then none else some txn
  | backwardCompletion, s =>
    match s.completed_txns_ with
    | [] => none
    | txn :: _ => if s.backwardIsValid txn then none else some txn
  | parallelBackward txn uninit Run, s =>
    if (s.ExecuteTxnParallelBackwardValidation_run txn uninit Run).parallelBackwardIsValid txn
        s.active_set_ then none
    else some txn
  | parallelForward txn now uninit Run, s =>
    if (s.ExecuteTxnParallelForwardValidation_run txn now uninit Run).parallelForwardIsValid txn
        s.active_set_ then none
    else some txn
  | mvto txn uninit Run, s =>
    if (s.MVCCMVTOExecuteTxn_run txn uninit Run).MVCCCheckWrites txn then none else some txn
  | _, _ => none

/-- The ids handed out along a sequence of calls started in the state `s`, in
the order in which they are handed out: for every call that hands out an id,
the `unique_id_` its transaction has right after the call. The sequence ends
at a call that fails. -/
def idLog : List Call → TxnProcessor → List Int
  | [], _ => []
  | c :: rest, s =>
    match c.apply s with
    | .error _ => []
    | .ok s1 =>
      match c.assignee s with
      | some txn => (s1.heap txn).unique_id_ :: idLog rest s1
      | none => idLog rest s1

/-- The body that a call runs, if it runs one. -/
def body : Call → Option (Txn → Txn)
  | serialStep _ _ Run => some Run
  | execute _ _ _ Run => some Run
  | parallelBackward _ _ Run => some Run
  | parallelForward _ _ _ Run => some Run
  | mvto _ _ Run => some Run
  | mv2pl _ Run => some Run
  | _ => none

/-- The body that the call runs, if it runs one, leaves `unique_id_` as it
finds it. The processor assigns `txn->unique_id_` in `NewTxnRequest` and in
the re-admission blocks and nowhere else in `txn_processor.cc`; a body
(`Txn::Run`, in the absent `txn.h` and `txn_types.h`) is taken here to read
`reads_` and to write `writes_` and `status_`, as the scheduler code assumes
when it uses `unique_id_` after the body has run (txn_processor.cc:284). -/
def KeepsIds (c : Call) : Prop :=
  ∀ Run, c.body = some Run → ∀ t : Txn, (Run t).unique_id_ = t.unique_id_

/-- The state after a sequence of calls started in the state `s`; a call that
fails ends the run with its failure. -/
def runAll : List Call → TxnProcessor → Except Failure TxnProcessor
  | [], s => .ok s
  | c :: rest, s =>
    match c.apply s with
    | .error e => .error e
    | .ok s1 => runAll rest s1

/-- The transactions to which the calls of a sequence started in the state
`s` hand out an id, in the order of the calls. The sequence ends at a call
that fails. -/
def assignees : List Call → TxnProcessor → List TxnPtr
  | [], _ => []
  | c :: rest, s =>
    match c.apply s with
    | .error _ => []
    | .ok s1 =>
      match c.assignee s with
      | some txn => txn :: assignees rest s1
      | none => assignees rest s1

end Call

/-! ## `LockManagerA::Status` and the storage states reached from the empty storage -/

/-- Embeds `LockManagerA::Status` (lock_manager.cc:66-79). The argument `owners` is
the content of `*owners` before the call; the result is the returned mode and
the content of `*owners` after the call. A key without entry
(`lock_table_.find(key) == lock_table_.end()`) is UNLOCKED and `*owners` is
left alone. `none`: the entry is a null pointer or an empty deque, and
`queue->front()` is evaluated on it. The call leaves the lock table and the
counters as they are (`lock_table_[key]` is evaluated only on a key that
`find` found). -/
def LockManagerA.Status (lm : LockManager) (key : Key) (owners : List TxnPtr) :
    Option (LockMode × List TxnPtr) :=
  match lm.lock_table_ key with
  | .absent => some (LockMode.UNLOCKED, owners)
  | .null => none
  | .deque [] => none
  | .deque (r :: _) => some (LockMode.EXCLUSIVE, [r.txn_])

/-- The storage states reached from the empty storage by `Write` and `Read`
calls with arbitrary arguments. -/
inductive MVCCStorage.ReachableFromEmpty : MVCCStorage → Prop where
  | empty : MVCCStorage.ReachableFromEmpty MVCCStorage.empty
  | read (s : MVCCStorage) (key : Key) (result : Value) (txn_unique_id : Int) :
      MVCCStorage.ReachableFromEmpty s →
      MVCCStorage.ReachableFromEmpty (s.Read key result txn_unique_id).2.2
  | write (s : MVCCStorage) (key : Key) (value : Value) (txn_unique_id : Int) :
      MVCCStorage.ReachableFromEmpty s →
      MVCCStorage.ReachableFromEmpty (s.Write key value txn_unique_id)

/-! ## The states of a completion step of the locking scheduler -/

namespace TxnProcessor

/-- The lock managers that a release loop of the completion step
(txn_processor.cc:222-225, 227-230) leaves after each of its calls
`lm_->Release(txn, key)`, in call order; `none` when a call is undefined. -/
def releaseStates (mode : CCMode) (txn : TxnPtr) :
    List Key → LockManager → Option (List LockManager)
  | [], _ => some []
  | key :: rest, lm =>
    match lmRelease mode lm txn key with
    | some lm1 =>
      match releaseStates mode txn rest lm1 with
      | some lms => some (lm1 :: lms)
      | none => none
    | none => none

/-- The states that one pass through the completion loop of
`TxnProcessor::RunLockingScheduler` (txn_processor.cc:202-234) goes through,
in program order: the state after the commit-or-abort block (lines 205-219),
the state after each call `lm_->Release(txn, key)` of the loop over the read
set (lines 222-225) and then of the loop over the write set (lines 227-230),
and the state after `txn_results_.Push(txn)` (line 233). With an empty
completion queue the loop body is not entered and no state is listed. The
commit block and the release loops change different members of the processor,
so the state `RunLockingScheduler_complete` returns, which is the last of
these states, does not tell in which order they ran; this list does. -/
def RunLockingScheduler_complete_states (s : TxnProcessor) :
    Except Failure (List TxnProcessor) :=
  match s.completed_txns_ with
  | [] => .ok []
  | txn :: rest =>
    match commitOrAbort { s with completed_txns_ := rest } txn with
    | .error e => .error e
    | .ok s1 =>
      match releaseStates s1.mode_ txn (s1.heap txn).readset_ s1.lm_ with
      | none => .error Failure.undefinedBehaviour
      | some lms1 =>
        match releaseStates s1.mode_ txn (s1.heap txn).writeset_ (lms1.getLastD s1.lm_) with
        | none => .error Failure.undefinedBehaviour
        | some lms2 =>
          .ok (s1 :: (lms1 ++ lms2).map (fun lm => { s1 with lm_ := lm }) ++
            [{ s1 with lm_ := (lms1 ++ lms2).getLastD s1.lm_ }.publish txn])

end TxnProcessor

/-! ## Predicates used in the statements -/

/-- A lock-request function `f` that appends one request of mode `m`, leaves
the other queues and the ready queue alone, never lowers a pending counter and
raises the caller's counter by 1 whenever it refuses. -/
def LockManager.IsLockRequest (m : LockMode)
    (f : LockManager → TxnPtr → Key → Bool × LockManager) : Prop :=
  ∀ lm txn key,
    (f lm txn key).2.queue key = lm.queue key ++ [⟨m, txn⟩] ∧
    (∀ k, k ≠ key → (f lm txn key).2.lock_table_ k = lm.lock_table_ k) ∧
    (f lm txn key).2.ready_txns_ = lm.ready_txns_ ∧
    (∀ t, lm.counter t ≤ (f lm txn key).2.counter t) ∧
    ((f lm txn key).1 = false → (f lm txn key).2.counter txn = lm.counter txn + 1)

/-- The mode of the request that `lm_->ReadLock` enqueues: EXCLUSIVE under
`LockManagerA`, SHARED under `LockManagerB`. -/
def TxnProcessor.readLockMode (mode : CCMode) : LockMode :=
  if TxnProcessor.isLockManagerA mode then LockMode.EXCLUSIVE else LockMode.SHARED

/-- The transaction `txn` has, in the queue of every key, at least as many
requests as the key has occurrences in `keys`: what holds of the read set
followed by the write set of a transaction that the locking scheduler
admitted and has not yet released. -/
def LockManager.HoldsRequests (lm : LockManager) (txn : TxnPtr) (keys : List Key) : Prop :=
  ∀ k, keys.count k ≤ (lm.queue k).countP (fun r => decide (r.txn_ = txn))

/-- The invariant of the version chains: every chain that exists is non-empty,
its write timestamps are non-increasing from head to tail, and no version has
a read mark below its write timestamp. -/
def MVCCStorage.WellFormed (s : MVCCStorage) : Prop :=
  ∀ key chain, s.mvcc_data_ key = some chain →
    chain ≠ [] ∧ MVCCStorage.chainWeaklySorted chain ∧
    ∀ v ∈ chain, v.version_id_ ≤ v.max_read_id_

/-- What a failed validation leaves behind, `s` being the state in which the
validation starts and `s1` the state after it: storage, committed history and
result queue are as before; the transaction has no reads and no writes, the
status INCOMPLETE and the id that `next_unique_id_` had, which is larger than
its old id when that one was below `next_unique_id_`; `next_unique_id_` was
incremented (a 32-bit increment: it went up by 1 unless it was `2^31 - 1`) and
the transaction was pushed once onto the request queue. -/
def TxnProcessor.Readmitted (s s1 : TxnProcessor) (txn : TxnPtr) : Prop :=
  s1.storage_ = s.storage_ ∧
  s1.committed_txns_ = s.committed_txns_ ∧
  s1.txn_results_ = s.txn_results_ ∧
  (∀ k, (s1.heap txn).reads_ k = none) ∧
  (s1.heap txn).writes_ = [] ∧
  (s1.heap txn).status_ = TxnStatus.INCOMPLETE ∧
  (s1.heap txn).unique_id_ = s.next_unique_id_ ∧
  ((s.heap txn).unique_id_ < s.next_unique_id_ →
    (s.heap txn).unique_id_ < (s1.heap txn).unique_id_) ∧
  s1.next_unique_id_ = intSucc s.next_unique_id_ ∧
  (-2147483648 ≤ s.next_unique_id_ → s.next_unique_id_ < 2147483647 →
    s1.next_unique_id_ = s.next_unique_id_ + 1) ∧
  s1.txn_requests_ = s.txn_requests_ ++ [txn]

/-- What a commit leaves behind, `s` being the state in which the validation
starts and `s1` the state after it: the writes of the transaction are applied
to storage with its id, the transaction is appended to the committed history
and to the result queue and has status COMMITTED. -/
def TxnProcessor.CommittedBy (s s1 : TxnProcessor) (txn : TxnPtr) : Prop :=
  s1.storage_ =
    TxnProcessor.applyWritesLoop (s.heap txn).unique_id_ (s.heap txn).writes_ s.storage_ ∧
  s1.committed_txns_ = s.committed_txns_ ++ [txn] ∧
  s1.txn_results_ = s.txn_results_ ++ [txn] ∧
  (s1.heap txn).status_ = TxnStatus.COMMITTED

/-- The lock calls of an admission step for the transaction `txn` with
descriptor `t`, started on the manager `lm`: `ReadLock(txn, k)` for the keys of
the read set in order, then `WriteLock(txn, k)` for the keys of the write set
in order. The result lists the returned flags in call order and the manager
after the last call. -/
def TxnProcessor.admissionCalls (mode : CCMode) (txn : TxnPtr) (t : Txn) (lm : LockManager) :
    List Bool × LockManager :=
  ((TxnProcessor.lockCalls (TxnProcessor.lmReadLock mode) txn t.readset_ lm).1 ++
      (TxnProcessor.lockCalls (TxnProcessor.lmWriteLock mode) txn t.writeset_
        (TxnProcessor.lockCalls (TxnProcessor.lmReadLock mode) txn t.readset_ lm).2).1,
    (TxnProcessor.lockCalls (TxnProcessor.lmWriteLock mode) txn t.writeset_
      (TxnProcessor.lockCalls (TxnProcessor.lmReadLock mode) txn t.readset_ lm).2).2)

/-- The transaction `txn` has, in the queue of every key, exactly as many
requests as the key has occurrences in `keys`: what holds of the read set
followed by the write set of a transaction that was admitted once and has
released nothing. -/
def LockManager.HoldsExactly (lm : LockManager) (txn : TxnPtr) (keys : List Key) : Prop :=
  ∀ k, (lm.queue k).countP (fun r => decide (r.txn_ = txn)) = keys.count k

/-- The pending counters are exact up to the bound `n`: no key from `n` on has
a queued request, and the counter of every transaction is the number of its
queued requests that are not at the head of their queue. -/
def LockManager.CountersExact (lm : LockManager) (n : Nat) : Prop :=
  (∀ k, n ≤ k → lm.queue k = []) ∧ ∀ t, lm.counter t = (lm.waitingBelow t n : Int)

/-! ## Scenarios -/

namespace Scenario

/-- A body that buffers the writes `kvs` and asks to commit. -/
def writeAndCommit (kvs : List (Key × Value)) (t : Txn) : Txn :=
  { t with writes_ := kvs, status_ := TxnStatus.COMPLETED_C }

/-- A fresh transaction object with the given read and write sets. -/
def newTxn (readset writeset : List Key) : Txn :=
  { readset_ := readset
    writeset_ := writeset
    reads_ := fun _ => none
    writes_ := []
    status_ := TxnStatus.INCOMPLETE
    unique_id_ := 0
    occ_start_time_ := 0
    occ_start_idx_ := 0 }

/-- A processor right after construction: no transaction admitted, empty
queues, `next_unique_id_ = 1` (txn_processor.cc:16). -/
def newProcessor (mode : CCMode) (storage : StorageImpl) (heap : TxnPtr → Txn) :
    TxnProcessor :=
  { mode_ := mode
    storage_ := storage
    next_unique_id_ := 1
    txn_requests_ := []
    completed_txns_ := []
    committed_txns_ := []
    txn_results_ := []
    active_set_ := []
    lm_ := LockManager.empty
    heap := heap }

/-- Scenario S5. Transaction 1 reads key 9 and writes key 8; transaction 2
writes key 9. Both are submitted to a processor in mode
OCC_SERIAL_BACKWARD_VALIDATION whose committed history is empty. -/
def s5Start : TxnProcessor :=
  let p := newProcessor CCMode.OCC_SERIAL_BACKWARD_VALIDATION
    (StorageImpl.sv ((Storage.empty.Write 8 0 0).Write 9 0 0))
    (fun p => if p = 1 then newTxn [9] [8] else newTxn [] [9])
  (p.NewTxnRequest 1).NewTxnRequest 2

/-- Scenario S5, continued: both requests are popped; a worker starts
transaction 1 (start index 0, it reads key 9) and is still inside
`ExecuteTxn` when transaction 2 is executed and handed back. -/
def s5BothStarted : TxnProcessor :=
  let s1 := { s5Start with txn_requests_ := [] }
  let s2 := TxnProcessor.ExecuteTxn_run s1 1 10 0 (writeAndCommit [(8, 111)])
  TxnProcessor.ExecuteTxn s2 2 11 0 (writeAndCommit [(9, 222)])

/-- Scenario S5, continued: transaction 2 is validated and commits. -/
def s5OtherCommitted : TxnProcessor :=
  TxnProcessor.RunOCCSerialSchedulerBackwardValidation_complete s5BothStarted

/-- Scenario S5, end: transaction 1 is handed back and validated. -/
def s5End : TxnProcessor :=
  TxnProcessor.RunOCCSerialSchedulerBackwardValidation_complete
    (TxnProcessor.ExecuteTxn_push s5OtherCommitted 1)

/-- A transaction with key 5 in its read set and in its write set is the next
request of a processor in mode `mode` whose lock table is empty. -/
def overlapStart (mode : CCMode) : TxnProcessor :=
  (newProcessor mode (StorageImpl.sv Storage.empty) (fun _ => newTxn [5] [5])).NewTxnRequest 1

/-- State of `LockManagerA` after transaction 1 requested key 7 twice (a read lock and
a write lock). -/
def doubleRequest : LockManager :=
  (LockManagerA.WriteLock (LockManagerA.ReadLock LockManager.empty 1 7).2 1 7).2

/-- A processor in mode MVCC_MV2PL whose storage holds key 1 (value 0, written
by id 0 as `InitStorage` does); transaction 1 has read set {1}. -/
def mv2plStart : TxnProcessor :=
  (newProcessor CCMode.MVCC_MV2PL (StorageImpl.mv (MVCCStorage.empty.Write 1 0 0))
    (fun _ => newTxn [1] [])).NewTxnRequest 1

/-- A processor in mode MVCC_MVTO whose storage holds key 1 (value 0, written
by id 0 as `InitStorage` does); transaction 1 has write set {1}. -/
def mvtoStart : TxnProcessor :=
  (newProcessor CCMode.MVCC_MVTO (StorageImpl.mv (MVCCStorage.empty.Write 1 0 0))
    (fun _ => newTxn [] [1])).NewTxnRequest 1

/-- A processor in mode SERIAL whose storage holds key 5 with value 0; the
request queue holds transaction 1 (write set {5}) and then transaction 2 (read
set {5}). -/
def s1Start : TxnProcessor :=
  let p := newProcessor CCMode.SERIAL (StorageImpl.sv (Storage.empty.Write 5 0 0))
    (fun p => if p = 1 then newTxn [] [5] else newTxn [5] [])
  (p.NewTxnRequest 1).NewTxnRequest 2

/-- A processor under `LockManagerB` in which transaction 1 (read set {3},
write set {4}) was admitted, dispatched and has completed with the verdict
`status`, buffering the write 4 ↦ 40. -/
def lockingCompleted (mode : CCMode) (status : TxnStatus) : TxnProcessor :=
  let p := newProcessor mode (StorageImpl.sv ((Storage.empty.Write 3 0 0).Write 4 0 0))
    (fun _ => newTxn [3] [4])
  let s1 := TxnProcessor.RunLockingScheduler_admit (p.NewTxnRequest 1)
  let s2 := { s1 with lm_ := { s1.lm_ with ready_txns_ := [] } }
  TxnProcessor.ExecuteTxn s2 1 10 0 (fun t => { t with writes_ := [(4, 40)], status_ := status })

/-- The version chain of key 1 after `Write(1, 0, 0)` (as `InitStorage` does)
and `Write(1, 10, 5)`: newest first. -/
def chainAfterTwoWrites : List Version := [⟨10, 5, 5⟩, ⟨0, 0, 0⟩]

/-- The storage after `Write(1, 0, 0)` and `Write(1, 10, 5)` on an empty
`MVCCStorage`. -/
def storageAfterTwoWrites : MVCCStorage := (MVCCStorage.empty.Write 1 0 0).Write 1 10 5

/-- State of `LockManagerB` after `WriteLock(t1, key)` on the empty manager. -/
def writeLocked (t1 : TxnPtr) (key : Key) : LockManager :=
  (LockManagerB.WriteLock LockManager.empty t1 key).2

/-- `LockManagerB` after `WriteLock(1, 7)`, `WriteLock(9, 7)`, `ReadLock(2, 7)`
and `ReadLock(2, 7)` on the empty manager: transaction 2 waits twice behind
the two writers. -/
def twoReadsQueued : LockManager :=
  (LockManagerB.ReadLock (LockManagerB.ReadLock (LockManagerB.WriteLock
    (LockManagerB.WriteLock LockManager.empty 1 7).2 9 7).2 2 7).2 2 7).2

/-- The manager `twoReadsQueued` after `Release(9, 7)`, the withdrawal of the
waiting writer: the queue of key 7 is `[EXCLUSIVE 1, SHARED 2, SHARED 2]`. -/
def twoReadsBehindWriter : Option LockManager :=
  LockManagerB.Release twoReadsQueued 9 7

/-- `LockManagerB` after `ReadLock(1, 7)`, `WriteLock(2, 7)` and
`ReadLock(3, 7)` on the empty manager: the queue of key 7 is
`[SHARED 1, EXCLUSIVE 2, SHARED 3]`, transactions 2 and 3 wait. -/
def readerWriterReader : LockManager :=
  (LockManagerB.ReadLock (LockManagerB.WriteLock
    (LockManagerB.ReadLock LockManager.empty 1 7).2 2 7).2 3 7).2

/-- The storage `storageAfterTwoWrites` after a first read of key 1 with the
largest `int` as reader id. -/
def afterMaxIntRead : MVCCStorage :=
  (storageAfterTwoWrites.Read 1 77 2147483647).2.2

/-- Scenario S4. A processor in mode MVCC_MVTO whose storage holds key 3
(value 0, written by id 0 as `InitStorage` does). Transaction 1 (write set
{3}) is submitted first and gets id 1, transaction 2 (read set {3}) gets
id 2; both requests are popped. -/
def s4Start : TxnProcessor :=
  let p := newProcessor CCMode.MVCC_MVTO (StorageImpl.mv (MVCCStorage.empty.Write 3 0 0))
    (fun p => if p = 1 then newTxn [] [3] else newTxn [3] [])
  { (p.NewTxnRequest 1).NewTxnRequest 2 with txn_requests_ := [] }

/-- Scenario S4, continued: a worker has executed transaction 2, which has read
key 3 and committed. -/
def s4ReaderDone : TxnProcessor :=
  TxnProcessor.MVCCMVTOExecuteTxn s4Start 2 0 (writeAndCommit [])

/-- A processor in mode OCC_SERIAL_BACKWARD_VALIDATION whose committed history
is `[2, 3]`; transaction 2 wrote key 1, transaction 3 wrote key 9. Transaction
1 (read set {9}, start index 0) has completed and waits for validation. -/
def conflictAfterStart : TxnProcessor :=
  { newProcessor CCMode.OCC_SERIAL_BACKWARD_VALIDATION (StorageImpl.sv Storage.empty)
      (fun p => if p = 1 then newTxn [9] [] else if p = 2 then newTxn [] [1]
        else newTxn [] [9]) with
    committed_txns_ := [2, 3]
    completed_txns_ := [1] }

/-- Scenario S6. Transaction 1 (write set {1}) and transaction 2 (read set {1})
were submitted to a processor in mode `mode` and have run; transaction 1 is
validating, it is in the active set, when transaction 2 starts its
validation. -/
def s6Validating (mode : CCMode) : TxnProcessor :=
  { ((newProcessor mode (StorageImpl.sv (Storage.empty.Write 1 0 0))
      (fun p => if p = 1 then newTxn [] [1] else newTxn [1] [])).NewTxnRequest 1).NewTxnRequest
      2 with
    txn_requests_ := []
    active_set_ := [1] }

/-- A transaction with empty read set and empty write set is the next request
of a processor in mode `mode`. -/
def emptySets (mode : CCMode) : TxnProcessor :=
  (newProcessor mode (StorageImpl.sv Storage.empty) (fun _ => newTxn [] [])).NewTxnRequest 1

/-- `LockManagerA` after `WriteLock(1, 1)`, `WriteLock(2, 1)` and
`WriteLock(2, 2)` on the empty manager: transaction 2 waits behind
transaction 1 on key 1 and is at the head of the queue of key 2. -/
def waitingHolder : LockManager :=
  (LockManagerA.WriteLock (LockManagerA.WriteLock
    (LockManagerA.WriteLock LockManager.empty 1 1).2 2 1).2 2 2).2

/-- The manager `waitingHolder` after `Release(2, 2)`. -/
def waitingHolderReleased : Option LockManager :=
  LockManagerA.Release waitingHolder 2 2

/-- `LockManagerA` after `WriteLock(1, 1)`, `WriteLock(2, 1)` and
`Release(1, 1)` on the empty manager: transaction 1 has handed key 1 over to
transaction 2. -/
def handedOver : LockManager :=
  (LockManagerA.Release (LockManagerA.WriteLock
    (LockManagerA.WriteLock LockManager.empty 1 1).2 2 1).2 1 1).getD LockManager.empty

/-- A new processor in mode OCC_SERIAL_BACKWARD_VALIDATION; transaction 2 has
read set {5}, the transactions 1 and 3 have write set {5}. -/
def idStart : TxnProcessor :=
  newProcessor CCMode.OCC_SERIAL_BACKWARD_VALIDATION
    (StorageImpl.sv (Storage.empty.Write 5 0 0))
    (fun p => if p = 2 then newTxn [5] [] else newTxn [] [5])

/-- The three transactions are submitted and popped, all are executed (start
index 0) and handed back in the order 1, 3, 2; then the three completions are
processed. -/
def idRun : List Call :=
  [Call.submit 1, Call.submit 2, Call.submit 3, Call.pop, Call.pop, Call.pop,
    Call.execute 1 10 0 (writeAndCommit [(5, 50)]),
    Call.execute 3 11 0 (writeAndCommit [(5, 70)]),
    Call.execute 2 12 0 (writeAndCommit []),
    Call.backwardCompletion, Call.backwardCompletion, Call.backwardCompletion]

/-- `LockManagerB` after `WriteLock(1, 7)`, `WriteLock(3, 8)`, `ReadLock(2, 7)`
and `WriteLock(2, 8)` on the empty manager: transaction 2 has a SHARED request
behind the EXCLUSIVE request of transaction 1 on key 7 and an EXCLUSIVE request
behind the one of transaction 3 on key 8. -/
def readerBehindTwoWriters : LockManager :=
  (LockManagerB.WriteLock (LockManagerB.ReadLock (LockManagerB.WriteLock
    (LockManagerB.WriteLock LockManager.empty 1 7).2 3 8).2 2 7).2 2 8).2

/-- A body that buffers the writes `kvs` and asks to abort. -/
def writeAndAbort (kvs : List (Key × Value)) (t : Txn) : Txn :=
  { t with writes_ := kvs, status_ := TxnStatus.COMPLETED_A }

/-- A processor in mode `mode` on a single-version storage that holds key 5
(value 0, written by id 0). Transaction 1 (write set {5}) was submitted (id 1),
popped and executed by `ExecuteTxn` at time 10; its body buffered the write
5 ↦ 50 and asked to abort. The transaction waits on the completion queue. -/
def abortingCompleted (mode : CCMode) : TxnProcessor :=
  let p := (newProcessor mode (StorageImpl.sv (Storage.empty.Write 5 0 0))
    (fun _ => newTxn [] [5])).NewTxnRequest 1
  TxnProcessor.ExecuteTxn { p with txn_requests_ := [] } 1 10 0 (writeAndAbort [(5, 50)])

/-- A processor in mode `mode` on a multi-version storage that holds key 5
(value 0, written by id 0). Transaction 1 (write set {5}) was submitted (id 1)
and popped. -/
def mvccPopped (mode : CCMode) : TxnProcessor :=
  let p := (newProcessor mode (StorageImpl.mv (MVCCStorage.empty.Write 5 0 0))
    (fun _ => newTxn [] [5])).NewTxnRequest 1
  { p with txn_requests_ := [] }

/-- A processor in mode `mode` on a single-version storage that holds key 5
(value 0, written by id 0). Transaction 1 (write set {5}) was submitted (id 1)
and popped. -/
def svPopped (mode : CCMode) : TxnProcessor :=
  let p := (newProcessor mode (StorageImpl.sv (Storage.empty.Write 5 0 0))
    (fun _ => newTxn [] [5])).NewTxnRequest 1
  { p with txn_requests_ := [] }

/-- A processor in mode MVCC_MV2PL on a multi-version storage that holds key 5.
Transaction 1 (write set {5}) was submitted, admitted (it holds the write lock
on key 5), taken off the ready queue and run by `MVCC2PLExecuteTxn` with a
body that buffered the write 5 ↦ 50 and asked to abort. -/
def mv2plAborting : TxnProcessor :=
  let p := (newProcessor CCMode.MVCC_MV2PL (StorageImpl.mv (MVCCStorage.empty.Write 5 0 0))
    (fun _ => newTxn [] [5])).NewTxnRequest 1
  let s1 := TxnProcessor.RunMVCCMV2PLScheduler_admit p
  let s2 := { s1 with lm_ := { s1.lm_ with ready_txns_ := [] } }
  TxnProcessor.MVCC2PLExecuteTxn s2 1 (writeAndAbort [(5, 50)])

/-- The calls that submit transaction `txn` and pop its request, `n` times
over. -/
def submitAndPop (txn : TxnPtr) (n : Nat) : List Call :=
  (List.replicate n [Call.submit txn, Call.pop]).flatten

/-- The processor `s` when its counter `next_unique_id_` has reached `n` by
submissions of transaction `txn`, each popped at once: transaction `txn` holds
the id `n - 1`, the last one handed out. -/
def counterAt (s : TxnProcessor) (txn : TxnPtr) (n : Int) : TxnProcessor :=
  { s with
    next_unique_id_ := n
    heap := Function.update s.heap txn { s.heap txn with unique_id_ := n - 1 } }

/-- A new processor in mode MVCC_MVTO whose storage holds key 3 (value 0,
written by id 0 as `InitStorage` does); transaction 1 has write set {3}, every
other transaction has read set {3}. -/
def mvtoNew : TxnProcessor :=
  newProcessor CCMode.MVCC_MVTO (StorageImpl.mv (MVCCStorage.empty.Write 3 0 0))
    (fun p => if p = 1 then newTxn [] [3] else newTxn [3] [])

/-- Transaction 1 and then transaction 2 are submitted, both are popped, and a
worker runs transaction 2, which reads key 3 and commits. -/
def mvtoRun : List Call :=
  [Call.submit 1, Call.submit 2, Call.pop, Call.pop, Call.mvto 2 0 (writeAndCommit [])]

/-- The state that the calls `mvtoRun` leave on the processor `s`. -/
def mvtoReaderDoneFrom (s : TxnProcessor) : TxnProcessor :=
  match Call.runAll mvtoRun s with
  | .ok s1 => s1
  | .error _ => s

end Scenario

/-! ## Transactions that hold an id of the processor -/

/-- The transaction `txn` holds an id that the processor handed out, and
`next_unique_id_` has stayed below `2^31 - 1`: the state `s` is reached from a
new processor by a sequence of calls whose bodies leave `unique_id_` alone,
one of these calls handed an id to `txn` (`NewTxnRequest(txn)` or a
re-admission of `txn`), and the calls handed out fewer than `2^31 - 2` ids in
all. -/
def TxnProcessor.IdHandedOut (s : TxnProcessor) (txn : TxnPtr) : Prop :=
  ∃ (cs : List Call) (mode : CCMode) (storage : StorageImpl) (heap : TxnPtr → Txn),
    Call.runAll cs (Scenario.newProcessor mode storage heap) = .ok s ∧
    (∀ c ∈ cs, c.KeepsIds) ∧
    (Call.idLog cs (Scenario.newProcessor mode storage heap)).length < 2147483646 ∧
    txn ∈ Call.assignees cs (Scenario.newProcessor mode storage heap)

/-! ## Theorems -/

/-! ### The 32-bit increment -/

/-- Inside the range of a 32-bit `int` and below its maximum, the increment adds
1. -/
theorem intSucc_eq (x : Int) (h1 : -2147483648 ≤ x) (h2 : x < 2147483647) :
    intSucc x = x + 1 := by
  unfold intSucc
  omega

/-- The increment stays inside the range of a 32-bit `int`. -/
theorem intSucc_range (x : Int) : -2147483648 ≤ intSucc x ∧ intSucc x ≤ 2147483647 := by
  unfold intSucc
  omega

/-- C1 (the code departs from the claim). After `Write(1, 0, 0)` and
`Write(1, 10, 5)` the chain of key 1 is
`[⟨value 10, max_read 5, version 5⟩, ⟨value 0, max_read 0, version 0⟩]`: it is
non-empty with strictly decreasing write timestamps. The newest version with
write timestamp at most 3 holds the value 0, but `MVCCStorage::Read` with
reader 3 returns true and leaves `*result` as it was, whatever it was. The
newest version with write timestamp at most 5 holds 10, but `Read` with
reader 5 yields 0. -/
theorem C1_read_selects_by_max_read_id (r0 : Value) :
    Scenario.storageAfterTwoWrites.mvcc_data_ 1 = some Scenario.chainAfterTwoWrites ∧
    MVCCStorage.chainSorted Scenario.chainAfterTwoWrites ∧
    MVCCStorage.newestVisible Scenario.chainAfterTwoWrites 3 = some 0 ∧
    (Scenario.storageAfterTwoWrites.Read 1 r0 3).1 = true ∧
    (Scenario.storageAfterTwoWrites.Read 1 r0 3).2.1 = r0 ∧
    MVCCStorage.newestVisible Scenario.chainAfterTwoWrites 5 = some 10 ∧
    (Scenario.storageAfterTwoWrites.Read 1 r0 5).1 = true ∧
    (Scenario.storageAfterTwoWrites.Read 1 r0 5).2.1 = 0 := by
  have hs : Scenario.storageAfterTwoWrites.mvcc_data_ 1 = some Scenario.chainAfterTwoWrites := by
    decide
  refine ⟨hs, ?_, by decide, ?_, ?_, by decide, ?_, ?_⟩
  · simp [MVCCStorage.chainSorted, Scenario.chainAfterTwoWrites]
  · simp [MVCCStorage.Read, hs, Scenario.chainAfterTwoWrites]
  · simp [MVCCStorage.Read, hs, Scenario.chainAfterTwoWrites, MVCCStorage.readScan]
  · simp [MVCCStorage.Read, hs, Scenario.chainAfterTwoWrites]
  · simp [MVCCStorage.Read, hs, Scenario.chainAfterTwoWrites, MVCCStorage.readScan]

/-! ### Lock manager: grant rules -/

theorem LockManager.queue_enqueue (lm : LockManager) (key : Key) (l : LockRequest) :
    (lm.enqueue key l).queue key = lm.queue key ++ [l] := by
  unfold LockManager.enqueue LockManager.queue
  cases h : lm.lock_table_ key <;> simp [Slot.reqs]

theorem LockManager.enqueue_other (lm : LockManager) (key k : Key) (l : LockRequest)
    (hk : k ≠ key) : (lm.enqueue key l).lock_table_ k = lm.lock_table_ k := by
  unfold LockManager.enqueue
  cases h : lm.lock_table_ key <;> simp [Function.update_noteq hk]

theorem LockManager.enqueue_waits (lm : LockManager) (key : Key) (l : LockRequest) :
    (lm.enqueue key l).txn_waits_ = lm.txn_waits_ := by
  unfold LockManager.enqueue
  cases h : lm.lock_table_ key <;> rfl

theorem LockManager.enqueue_ready (lm : LockManager) (key : Key) (l : LockRequest) :
    (lm.enqueue key l).ready_txns_ = lm.ready_txns_ := by
  unfold LockManager.enqueue
  cases h : lm.lock_table_ key <;> rfl

theorem LockManager.enqueue_counter (lm : LockManager) (key : Key) (l : LockRequest)
    (t : TxnPtr) : (lm.enqueue key l).counter t = lm.counter t := by
  simp [LockManager.counter, LockManager.enqueue_waits]

theorem LockManager.length_eq_one_iff (q : List LockRequest) (l : LockRequest) :
    (q ++ [l]).length = 1 ↔ q = [] := by
  cases q <;> simp

/-- The contract of an exclusive first-in-first-out lock request, shared by
`LockManagerA::WriteLock` and `LockManagerB::WriteLock`. -/
theorem LockManager.exclusive_request (lm : LockManager) (txn : TxnPtr) (key : Key) :
    let r := LockManagerA.WriteLock lm txn key
    r.2.queue key = lm.queue key ++ [⟨LockMode.EXCLUSIVE, txn⟩] ∧
    (r.1 = true ↔ lm.queue key = []) ∧
    (r.1 = false → r.2.counter txn = lm.counter txn + 1 ∧
      ∀ t, t ≠ txn → r.2.txn_waits_ t = lm.txn_waits_ t) ∧
    (r.1 = true → r.2.txn_waits_ = lm.txn_waits_) ∧
    (∀ k, k ≠ key → r.2.lock_table_ k = lm.lock_table_ k) ∧
    r.2.ready_txns_ = lm.ready_txns_ := by
  intro r
  have hlen := LockManager.length_eq_one_iff (lm.queue key) ⟨LockMode.EXCLUSIVE, txn⟩
  by_cases hq : lm.queue key = []
  · have hr : r = (true, lm.enqueue key ⟨LockMode.EXCLUSIVE, txn⟩) := by
      simp [r, LockManagerA.WriteLock, LockManager.queue_enqueue, hq]
    rw [hr]
    refine ⟨LockManager.queue_enqueue _ _ _, by simp [hq], by simp, ?_, ?_, ?_⟩
    · intro _; exact LockManager.enqueue_waits _ _ _
    · intro k hk; exact LockManager.enqueue_other _ _ _ _ hk
    · exact LockManager.enqueue_ready _ _ _
  · have hr : r = (false, (lm.enqueue key ⟨LockMode.EXCLUSIVE, txn⟩).incr txn) := by
      simp [r, LockManagerA.WriteLock, LockManager.queue_enqueue, hq]
    rw [hr]
    refine ⟨?_, by simp [hq], ?_, by simp, ?_, ?_⟩
    · simpa [LockManager.incr, LockManager.queue] using LockManager.queue_enqueue lm key _
    · intro _
      refine ⟨?_, ?_⟩
      · simp [LockManager.incr, LockManager.counter, LockManager.enqueue_waits]
      · intro t ht
        simp [LockManager.incr, Function.update_noteq ht, LockManager.enqueue_waits]
    · intro k hk
      simpa [LockManager.incr] using LockManager.enqueue_other _ _ _ _ hk
    · simpa [LockManager.incr] using LockManager.enqueue_ready _ _ _

theorem LockManagerB.WriteLock_eq : LockManagerB.WriteLock = LockManagerA.WriteLock := rfl

/-- C9. `LockManagerA::WriteLock`, `LockManagerA::ReadLock` and
`LockManagerB::WriteLock` each append one EXCLUSIVE request of `txn` at the
tail of the queue of `key`; they return true exactly when that queue was empty
before the call; on false the caller's pending counter grows by exactly 1 and
no other counter changes, on true no counter changes; no other key's queue
(and not the ready queue) is touched. -/
theorem C9_exclusive_lock_requests (lm : LockManager) (txn : TxnPtr) (key : Key) :
    ∀ f ∈ [LockManagerA.WriteLock, LockManagerA.ReadLock, LockManagerB.WriteLock],
      (f lm txn key).2.queue key = lm.queue key ++ [⟨LockMode.EXCLUSIVE, txn⟩] ∧
      ((f lm txn key).1 = true ↔ lm.queue key = []) ∧
      ((f lm txn key).1 = false →
        (f lm txn key).2.counter txn = lm.counter txn + 1 ∧
        ∀ t, t ≠ txn → (f lm txn key).2.txn_waits_ t = lm.txn_waits_ t) ∧
      ((f lm txn key).1 = true → (f lm txn key).2.txn_waits_ = lm.txn_waits_) ∧
      (∀ k, k ≠ key → (f lm txn key).2.lock_table_ k = lm.lock_table_ k) ∧
      (f lm txn key).2.ready_txns_ = lm.ready_txns_ := by
  intro f hf
  have hf1 : f = LockManagerA.WriteLock := by
    simp only [List.mem_cons, List.mem_singleton, List.not_mem_nil, or_false] at hf
    rcases hf with h | h | h
    · exact h
    · rw [h]; rfl
    · rw [h]; rfl
  rw [hf1]
  exact LockManager.exclusive_request lm txn key

/-- C9, at a concrete input: transaction 2 asks `LockManagerB` for the write
lock on key 7 while transaction 1 holds it. -/
theorem C9_exclusive_lock_requests_witness :
    (LockManagerB.WriteLock (Scenario.writeLocked 1 7) 2 7).2.queue 7 =
      [⟨LockMode.EXCLUSIVE, 1⟩, ⟨LockMode.EXCLUSIVE, 2⟩] ∧
    ((LockManagerB.WriteLock (Scenario.writeLocked 1 7) 2 7).1 = true ↔
      (Scenario.writeLocked 1 7).queue 7 = []) ∧
    (LockManagerB.WriteLock (Scenario.writeLocked 1 7) 2 7).2.counter 2 = 1 :=
  have h := C9_exclusive_lock_requests (Scenario.writeLocked 1 7) 2 7 LockManagerB.WriteLock
    (by simp)
  ⟨h.1, h.2.1, (h.2.2.1 (by decide)).1⟩

/-- C2 (the code departs from the claim). For all transactions `t1`, `t2` and
every key: after `WriteLock(t1, key)` on the empty manager the queue of `key`
is exactly `[EXCLUSIVE t1]`; `LockManagerB::ReadLock(t2, key)` then returns
true although the queue holds an EXCLUSIVE request (at its head), and it
changes no pending counter. -/
theorem C2_readlock_granted_behind_exclusive_head (t1 t2 : TxnPtr) (key : Key) :
    (Scenario.writeLocked t1 key).queue key = [⟨LockMode.EXCLUSIVE, t1⟩] ∧
    (LockManagerB.ReadLock (Scenario.writeLocked t1 key) t2 key).1 = true ∧
    (LockManagerB.ReadLock (Scenario.writeLocked t1 key) t2 key).2.txn_waits_ =
      (Scenario.writeLocked t1 key).txn_waits_ ∧
    (LockManagerB.ReadLock (Scenario.writeLocked t1 key) t2 key).2.queue key =
      [⟨LockMode.EXCLUSIVE, t1⟩, ⟨LockMode.SHARED, t2⟩] := by
  simp [Scenario.writeLocked, LockManagerB.WriteLock, LockManagerB.ReadLock,
    LockManager.enqueue, LockManager.empty, LockManager.queue, Slot.reqs, LockManager.incr]

/-- C3 (the code departs from the claim). Transaction 1 takes the write lock on
key 7 of the empty `LockManagerB`; `ReadLock(2, 7)` then returns true (the
claim: false) and the pending counter of transaction 2 is 0 (the claim: 1).
After `Release(1, 7)` the counter of transaction 2 is -1 (the claim: 0) and
the ready queue is still empty (the claim: transaction 2 appended once). -/
theorem C3_reader_not_blocked_by_writer :
    (LockManagerB.WriteLock LockManager.empty 1 7).1 = true ∧
    (Scenario.writeLocked 1 7).queue 7 = [⟨LockMode.EXCLUSIVE, 1⟩] ∧
    (LockManagerB.ReadLock (Scenario.writeLocked 1 7) 2 7).1 = true ∧
    (LockManagerB.ReadLock (Scenario.writeLocked 1 7) 2 7).2.counter 2 = 0 ∧
    (LockManagerB.Release (LockManagerB.ReadLock (Scenario.writeLocked 1 7) 2 7).2 1 7).map
      (fun lm => (lm.counter 2, lm.ready_txns_, lm.queue 7)) =
        some (-1, [], [⟨LockMode.SHARED, 2⟩]) := by
  decide

/-! ### `LockManagerA::Release` -/

/-- C10 (the claim as stated fails). Transaction 1 has two requests on key 7
and pending counter 1; its first request is at the head. `Release(1, 7)`
leaves the queue non-empty with transaction 1 again at the head, whose counter
is now -1: it went down by 2, not by 1. -/
theorem C10_release_counterexample :
    Scenario.doubleRequest.queue 7 = [⟨LockMode.EXCLUSIVE, 1⟩, ⟨LockMode.EXCLUSIVE, 1⟩] ∧
    Scenario.doubleRequest.counter 1 = 1 ∧
    (LockManagerA.Release Scenario.doubleRequest 1 7).map (fun lm => lm.queue 7) =
      some [⟨LockMode.EXCLUSIVE, 1⟩] ∧
    (LockManagerA.Release Scenario.doubleRequest 1 7).map (fun lm => lm.counter 1) = some (-1) ∧
    ¬ ((LockManagerA.Release Scenario.doubleRequest 1 7).map (fun lm => lm.counter 1) =
      some (Scenario.doubleRequest.counter 1 - 1)) := by
  decide

/-- C10 (amended). When the head of the queue of `key` is a request of `txn`,
`LockManagerA::Release(txn, key)` removes exactly that request and keeps the
rest in order, and touches no other queue. If the queue is then empty, the
ready queue is unchanged. If it is non-empty and its new head belongs to a
transaction other than `txn`, that transaction's pending counter goes down by
exactly 1, it is appended to the ready queue if and only if its counter is
now 0, and the counters of the transactions other than it and `txn` are
unchanged. In every case the ready queue is unchanged or extended by the new
head's transaction only. -/
theorem C10_release_head (lm : LockManager) (txn : TxnPtr) (key : Key)
    (r : LockRequest) (rest : List LockRequest)
    (hq : lm.queue key = r :: rest) (hr : r.txn_ = txn) :
    ∃ lm1, LockManagerA.Release lm txn key = some lm1 ∧
      lm1.queue key = rest ∧
      (∀ k, k ≠ key → lm1.lock_table_ k = lm.lock_table_ k) ∧
      (rest = [] → lm1.ready_txns_ = lm.ready_txns_) ∧
      (∀ r1 rest1, rest = r1 :: rest1 → r1.txn_ ≠ txn →
        lm1.counter r1.txn_ = lm.counter r1.txn_ - 1 ∧
        lm1.ready_txns_ =
          (if lm1.counter r1.txn_ = 0 then lm.ready_txns_ ++ [r1.txn_] else lm.ready_txns_) ∧
        ∀ t, t ≠ txn → t ≠ r1.txn_ → lm1.txn_waits_ t = lm.txn_waits_ t) ∧
      (lm1.ready_txns_ = lm.ready_txns_ ∨
        ∃ r1 rest1, rest = r1 :: rest1 ∧ lm1.ready_txns_ = lm.ready_txns_ ++ [r1.txn_]) := by
  have hslot : lm.lock_table_ key = Slot.deque (r :: rest) := by
    unfold LockManager.queue at hq
    cases h : lm.lock_table_ key with
    | absent => simp [h, Slot.reqs] at hq
    | null => simp [h, Slot.reqs] at hq
    | deque q => simp [h, Slot.reqs] at hq; rw [hq]
  cases rest with
  | nil =>
    refine ⟨_, by simp [LockManagerA.Release, hslot, hr]; rfl, ?_, ?_, ?_, ?_, ?_⟩
    · simp [LockManager.queue, Slot.reqs]
    · intro k hk; simp [Function.update_noteq hk]
    · intro _; rfl
    · intro r1 rest1 h; cases h
    · left; rfl
  | cons r1 rest1 =>
    have hc : ∀ c : Int, r1.txn_ ≠ txn →
        ((Function.update lm.txn_waits_ txn none) r1.txn_).getD 0 = lm.counter r1.txn_ := by
      intro _ hne
      simp [LockManager.counter, Function.update_noteq hne]
    by_cases hz : ((Function.update lm.txn_waits_ txn none) r1.txn_).getD 0 - 1 = 0
    · refine ⟨_, by
        simp only [LockManagerA.Release, hslot, hr, if_true, LockManager.counter,
          Function.update_same, Option.getD_some]
        rw [if_pos hz], ?_, ?_, ?_, ?_, ?_⟩
      · simp [LockManager.queue, Slot.reqs]
      · intro k hk; simp [Function.update_noteq hk]
      · intro h; cases h
      · intro r2 rest2 h hne
        simp only [List.cons.injEq] at h
        obtain ⟨rfl, rfl⟩ := h
        rw [hc 0 hne] at hz
        refine ⟨?_, ?_, ?_⟩
        · simp [LockManager.counter, Function.update_apply, hne]
        · simp only [LockManager.counter, Function.update_same, Option.getD_some]
          rw [Function.update_noteq hne]
          rw [if_pos (by simpa [LockManager.counter] using hz)]
        · intro t ht1 ht2
          simp [Function.update_apply, ht1, ht2]
      · right; exact ⟨r1, rest1, rfl, rfl⟩
    · refine ⟨_, by
        simp only [LockManagerA.Release, hslot, hr, if_true, LockManager.counter,
          Function.update_same, Option.getD_some]
        rw [if_neg hz], ?_, ?_, ?_, ?_, ?_⟩
      · simp [LockManager.queue, Slot.reqs]
      · intro k hk; simp [Function.update_noteq hk]
      · intro h; cases h
      · intro r2 rest2 h hne
        simp only [List.cons.injEq] at h
        obtain ⟨rfl, rfl⟩ := h
        rw [hc 0 hne] at hz
        refine ⟨?_, ?_, ?_⟩
        · simp [LockManager.counter, Function.update_apply, hne]
        · simp only [LockManager.counter, Function.update_same, Option.getD_some]
          rw [Function.update_noteq hne]
          rw [if_neg (by simpa [LockManager.counter] using hz)]
        · intro t ht1 ht2
          simp [Function.update_apply, ht1, ht2]
      · left; rfl

/-- C10, at a concrete input: transaction 1 holds key 7, transaction 2 waits
behind it with pending counter 1. -/
theorem C10_release_head_witness :
    ∃ lm1, LockManagerA.Release (LockManagerA.WriteLock
        (LockManagerA.WriteLock LockManager.empty 1 7).2 2 7).2 1 7 = some lm1 ∧
      lm1.queue 7 = [⟨LockMode.EXCLUSIVE, 2⟩] ∧ lm1.counter 2 = 0 ∧
      lm1.ready_txns_ = [2] := by
  obtain ⟨lm1, h1, h2, _, _, h5, _⟩ :=
    C10_release_head
      (LockManagerA.WriteLock (LockManagerA.WriteLock LockManager.empty 1 7).2 2 7).2 1 7
      ⟨LockMode.EXCLUSIVE, 1⟩ [⟨LockMode.EXCLUSIVE, 2⟩] (by decide) rfl
  obtain ⟨h6, h7, _⟩ := h5 ⟨LockMode.EXCLUSIVE, 2⟩ [] rfl (by decide)
  have hc : (LockManagerA.WriteLock (LockManagerA.WriteLock LockManager.empty 1 7).2 2 7).2.counter 2
      = 1 := by decide
  have h8 : lm1.counter 2 = 0 := by
    have : lm1.counter 2 = 1 - 1 := by rw [← hc]; exact h6
    simpa using this
  refine ⟨lm1, h1, h2, h8, ?_⟩
  have h9 := h7
  simp only [h8, if_true] at h9
  rw [h9]
  decide

/-! ### OCC serial backward validation -/

/-- The backward validation never looks at the committed transaction at index
`occ_start_idx_`: when the committed history has at most `occ_start_idx_ + 1`
entries the transaction is declared valid and commits. -/
theorem TxnProcessor.backward_validation_skips_start_index (s : TxnProcessor) (txn : TxnPtr)
    (rest : List TxnPtr) (hc : s.completed_txns_ = txn :: rest)
    (hlen : s.committed_txns_.length ≤ (s.heap txn).occ_start_idx_ + 1) :
    TxnProcessor.RunOCCSerialSchedulerBackwardValidation_complete s =
      (({ TxnProcessor.ApplyWrites { s with completed_txns_ := rest } txn with
          committed_txns_ := s.committed_txns_ ++ [txn] }).setStatus txn
        TxnStatus.COMMITTED).publish txn := by
  unfold TxnProcessor.RunOCCSerialSchedulerBackwardValidation_complete
  rw [hc]
  simp only
  rw [List.drop_eq_nil_of_le hlen]
  simp [TxnProcessor.scanCommitted, TxnProcessor.ApplyWrites]

/-- C4 (the code departs from the claim). Transaction 1 (read set {9}) starts
executing when the committed history has length 0, so `ExecuteTxn` records
`occ_start_idx_ = 0`. Before it is validated, transaction 2 (write set {9})
commits: the committed history has length 1. The validation of transaction 1
then passes: its write 8 ↦ 111 is applied, it is appended to the committed
history and published as COMMITTED, it keeps its id 1 and it is not put back
on the request queue, although the value it read for key 9 (0) is no longer
the stored one (222). -/
theorem C4_backward_validation_misses_conflict :
    (Scenario.s5BothStarted.heap 1).occ_start_idx_ = 0 ∧
    Scenario.s5BothStarted.committed_txns_ = [] ∧
    9 ∈ (Scenario.s5BothStarted.heap 1).readset_ ∧
    Scenario.s5OtherCommitted.committed_txns_ = [2] ∧
    9 ∈ (Scenario.s5OtherCommitted.heap 2).writeset_ ∧
    (Scenario.s5OtherCommitted.storage_.Read 9 0 0).2.1 = 222 ∧
    (Scenario.s5End.heap 1).reads_ 9 = some 0 ∧
    (Scenario.s5End.storage_.Read 8 0 0).2.1 = 111 ∧
    Scenario.s5End.committed_txns_ = [2, 1] ∧
    Scenario.s5End.txn_results_ = [2, 1] ∧
    (Scenario.s5End.heap 1).status_ = TxnStatus.COMMITTED ∧
    (Scenario.s5End.heap 1).unique_id_ = 1 ∧
    Scenario.s5End.txn_requests_ = [] := by
  decide

/-! ### Admission under two-phase locking -/

theorem LockManager.counter_incr (lm : LockManager) (txn t : TxnPtr) :
    lm.counter t ≤ (lm.incr txn).counter t := by
  unfold LockManager.incr LockManager.counter
  by_cases h : t = txn
  · subst h; simp
  · simp [Function.update_noteq h]

theorem LockManagerA.WriteLock_isLockRequest :
    LockManager.IsLockRequest LockMode.EXCLUSIVE LockManagerA.WriteLock := by
  intro lm txn key
  obtain ⟨h1, h2, h3, h4, h5, h6⟩ := LockManager.exclusive_request lm txn key
  refine ⟨h1, h5, h6, ?_, fun h => (h3 h).1⟩
  intro t
  cases hb : (LockManagerA.WriteLock lm txn key).1 with
  | true => simp [LockManager.counter, h4 hb]
  | false =>
    by_cases ht : t = txn
    · subst ht; rw [(h3 hb).1]; omega
    · simp [LockManager.counter, (h3 hb).2 t ht]

theorem LockManagerB.ReadLock_isLockRequest :
    LockManager.IsLockRequest LockMode.SHARED LockManagerB.ReadLock := by
  intro lm txn key
  have hq := LockManager.queue_enqueue lm key ⟨LockMode.SHARED, txn⟩
  have ho := fun k hk => LockManager.enqueue_other lm key k ⟨LockMode.SHARED, txn⟩ hk
  have hr := LockManager.enqueue_ready lm key ⟨LockMode.SHARED, txn⟩
  have hc := fun t => LockManager.enqueue_counter lm key ⟨LockMode.SHARED, txn⟩ t
  unfold LockManagerB.ReadLock
  simp only
  split_ifs with h1 h2
  · exact ⟨hq, ho, hr, fun t => (hc t).ge, by simp⟩
  · refine ⟨by simpa [LockManager.incr, LockManager.queue] using hq, ?_, ?_, ?_, ?_⟩
    · intro k hk; simpa [LockManager.incr] using ho k hk
    · simpa [LockManager.incr] using hr
    · intro t
      have := LockManager.counter_incr (lm.enqueue key ⟨LockMode.SHARED, txn⟩) txn t
      rw [hc t] at this; exact this
    · intro _
      simp [LockManager.incr, LockManager.counter, LockManager.enqueue_waits]
  · exact ⟨hq, ho, hr, fun t => (hc t).ge, by simp⟩

theorem TxnProcessor.lmReadLock_isLockRequest (mode : CCMode) :
    LockManager.IsLockRequest (TxnProcessor.readLockMode mode) (TxnProcessor.lmReadLock mode) := by
  unfold TxnProcessor.readLockMode
  cases h : TxnProcessor.isLockManagerA mode with
  | true =>
    have : TxnProcessor.lmReadLock mode = LockManagerA.WriteLock := by
      funext lm txn key; simp [TxnProcessor.lmReadLock, h, LockManagerA.ReadLock]
    rw [this]; simpa using LockManagerA.WriteLock_isLockRequest
  | false =>
    have : TxnProcessor.lmReadLock mode = LockManagerB.ReadLock := by
      funext lm txn key; simp [TxnProcessor.lmReadLock, h]
    rw [this]; simpa using LockManagerB.ReadLock_isLockRequest

theorem TxnProcessor.lmWriteLock_eq (mode : CCMode) :
    TxnProcessor.lmWriteLock mode = LockManagerA.WriteLock := by
  funext lm txn key
  unfold TxnProcessor.lmWriteLock
  split_ifs <;> rfl

theorem LockManager.IsLockRequest.queue_other {m : LockMode}
    {f : LockManager → TxnPtr → Key → Bool × LockManager} (hf : LockManager.IsLockRequest m f)
    (lm : LockManager) (txn : TxnPtr) (key k : Key) (hk : k ≠ key) :
    (f lm txn key).2.queue k = lm.queue k := by
  unfold LockManager.queue
  rw [(hf lm txn key).2.1 k hk]

/-- What a lock-request loop does to the manager: the ready queue is
untouched, every key receives one request per occurrence in the list, no
counter goes down, and `blocked` never goes back to false. -/
theorem TxnProcessor.lockLoop_spec {m : LockMode}
    {f : LockManager → TxnPtr → Key → Bool × LockManager} (hf : LockManager.IsLockRequest m f)
    (txn : TxnPtr) (keys : List Key) :
    ∀ (lm : LockManager) (blocked : Bool),
      (TxnProcessor.lockLoop f txn keys lm blocked).1.ready_txns_ = lm.ready_txns_ ∧
      (∀ k, (TxnProcessor.lockLoop f txn keys lm blocked).1.queue k =
        lm.queue k ++ List.replicate (keys.count k) ⟨m, txn⟩) ∧
      (∀ t, lm.counter t ≤ (TxnProcessor.lockLoop f txn keys lm blocked).1.counter t) ∧
      (blocked = true → (TxnProcessor.lockLoop f txn keys lm blocked).2 = true) := by
  induction keys with
  | nil => intro lm blocked; simp [TxnProcessor.lockLoop]
  | cons key rest ih =>
    intro lm blocked
    obtain ⟨h1, h2, h3, h4⟩ :=
      ih (f lm txn key).2 (if (f lm txn key).1 then blocked else true)
    obtain ⟨g1, _, g3, g4, _⟩ := hf lm txn key
    simp only [TxnProcessor.lockLoop]
    refine ⟨h1.trans g3, ?_, fun t => (g4 t).trans (h3 t), ?_⟩
    · intro k
      rw [h2 k]
      by_cases hk : k = key
      · subst hk
        rw [g1]
        simp [List.count_cons_self, List.replicate_succ]
      · rw [hf.queue_other lm txn key k hk]
        have : ¬ (key == k) = true := by simpa using fun h => hk h.symm
        simp [List.count_cons, this]
    · intro hb
      apply h4
      subst hb
      simp

/-- A write-lock loop that meets a key whose queue is not empty ends blocked
and has raised the caller's pending counter. -/
theorem TxnProcessor.lockLoop_write_blocked (txn : TxnPtr) (x : Key) (keys : List Key) :
    ∀ (lm : LockManager) (blocked : Bool), x ∈ keys → lm.queue x ≠ [] →
      (TxnProcessor.lockLoop LockManagerA.WriteLock txn keys lm blocked).2 = true ∧
      lm.counter txn + 1 ≤
        (TxnProcessor.lockLoop LockManagerA.WriteLock txn keys lm blocked).1.counter txn := by
  induction keys with
  | nil => intro lm blocked hx; simp at hx
  | cons key rest ih =>
    intro lm blocked hx hne
    have hf := LockManagerA.WriteLock_isLockRequest
    simp only [TxnProcessor.lockLoop]
    by_cases hk : x = key
    · subst hk
      have hfalse : (LockManagerA.WriteLock lm txn x).1 = false := by
        have := (LockManager.exclusive_request lm txn x).2.1
        cases hb : (LockManagerA.WriteLock lm txn x).1 with
        | false => rfl
        | true => exact absurd (this.mp hb) hne
      obtain ⟨_, _, h3, h4⟩ := TxnProcessor.lockLoop_spec hf txn rest
        (LockManagerA.WriteLock lm txn x).2 (if (LockManagerA.WriteLock lm txn x).1 then blocked else true)
      refine ⟨h4 (by simp [hfalse]), ?_⟩
      have := (hf lm txn x).2.2.2.2 hfalse
      have h5 := h3 txn
      omega
    · have hx1 : x ∈ rest := by
        rcases List.mem_cons.mp hx with h | h
        · exact absurd h hk
        · exact h
      have hq : (LockManagerA.WriteLock lm txn key).2.queue x ≠ [] := by
        rw [hf.queue_other lm txn key x hk]; exact hne
      obtain ⟨h1, h2⟩ := ih (LockManagerA.WriteLock lm txn key).2
        (if (LockManagerA.WriteLock lm txn key).1 then blocked else true) hx1 hq
      refine ⟨h1, ?_⟩
      have := (hf lm txn key).2.2.2.1 txn
      omega

/-- C6 (the claim as stated fails). A processor with an empty lock table admits
transaction 1, which has key 5 in its read set and in its write set. Under
`LockManagerA` (mode LOCKING_EXCLUSIVE_ONLY) and under `LockManagerB` (mode
LOCKING) alike the step leaves the ready queue empty and the pending counter
of transaction 1 at 1: the write-lock request waits behind the transaction's
own read request. -/
theorem C6_overlap_counterexample :
    ((Scenario.overlapStart CCMode.LOCKING_EXCLUSIVE_ONLY).txn_requests_ = [1] ∧
      (Scenario.overlapStart CCMode.LOCKING_EXCLUSIVE_ONLY).lm_.queue 5 = [] ∧
      5 ∈ ((Scenario.overlapStart CCMode.LOCKING_EXCLUSIVE_ONLY).heap 1).readset_ ∧
      5 ∈ ((Scenario.overlapStart CCMode.LOCKING_EXCLUSIVE_ONLY).heap 1).writeset_ ∧
      (TxnProcessor.RunLockingScheduler_admit
        (Scenario.overlapStart CCMode.LOCKING_EXCLUSIVE_ONLY)).lm_.ready_txns_ = [] ∧
      (TxnProcessor.RunLockingScheduler_admit
        (Scenario.overlapStart CCMode.LOCKING_EXCLUSIVE_ONLY)).lm_.counter 1 = 1 ∧
      (TxnProcessor.RunLockingScheduler_admit
        (Scenario.overlapStart CCMode.LOCKING_EXCLUSIVE_ONLY)).lm_.queue 5 =
          [⟨LockMode.EXCLUSIVE, 1⟩, ⟨LockMode.EXCLUSIVE, 1⟩]) ∧
    ((Scenario.overlapStart CCMode.LOCKING).txn_requests_ = [1] ∧
      (Scenario.overlapStart CCMode.LOCKING).lm_.queue 5 = [] ∧
      5 ∈ ((Scenario.overlapStart CCMode.LOCKING).heap 1).readset_ ∧
      5 ∈ ((Scenario.overlapStart CCMode.LOCKING).heap 1).writeset_ ∧
      (TxnProcessor.RunLockingScheduler_admit
        (Scenario.overlapStart CCMode.LOCKING)).lm_.ready_txns_ = [] ∧
      (TxnProcessor.RunLockingScheduler_admit
        (Scenario.overlapStart CCMode.LOCKING)).lm_.counter 1 = 1 ∧
      (TxnProcessor.RunLockingScheduler_admit
        (Scenario.overlapStart CCMode.LOCKING)).lm_.queue 5 =
          [⟨LockMode.SHARED, 1⟩, ⟨LockMode.EXCLUSIVE, 1⟩]) := by
  decide

/-- C6 (amended). Under 2PL with either lock manager, whatever the lock table
holds, the admission of a transaction that has some key `x` in both its read
set and its write set enqueues all its requests (one per key of the read set,
then one EXCLUSIVE request per key of the write set), is refused the write
lock on `x`, raises the transaction's pending counter by at least 1 and does
not place the transaction on the ready queue, which is unchanged. -/
theorem C6_overlapping_key_blocks (s : TxnProcessor) (txn : TxnPtr) (rest : List TxnPtr)
    (x : Key) (hreq : s.txn_requests_ = txn :: rest)
    (hr : x ∈ (s.heap txn).readset_) (hw : x ∈ (s.heap txn).writeset_) :
    (TxnProcessor.RunLockingScheduler_admit s).txn_requests_ = rest ∧
    (TxnProcessor.RunLockingScheduler_admit s).lm_.ready_txns_ = s.lm_.ready_txns_ ∧
    s.lm_.counter txn + 1 ≤ (TxnProcessor.RunLockingScheduler_admit s).lm_.counter txn ∧
    (∀ k, (TxnProcessor.RunLockingScheduler_admit s).lm_.queue k =
      s.lm_.queue k ++
        List.replicate ((s.heap txn).readset_.count k) ⟨TxnProcessor.readLockMode s.mode_, txn⟩ ++
        List.replicate ((s.heap txn).writeset_.count k) ⟨LockMode.EXCLUSIVE, txn⟩) := by
  have hfr := TxnProcessor.lmReadLock_isLockRequest s.mode_
  have hfw := LockManagerA.WriteLock_isLockRequest
  obtain ⟨a1, a2, a3, _⟩ :=
    TxnProcessor.lockLoop_spec hfr txn (s.heap txn).readset_ s.lm_ false
  generalize hR : TxnProcessor.lockLoop (TxnProcessor.lmReadLock s.mode_) txn
    (s.heap txn).readset_ s.lm_ false = R at a1 a2 a3
  obtain ⟨b1, b2, _, _⟩ :=
    TxnProcessor.lockLoop_spec hfw txn (s.heap txn).writeset_ R.1 R.2
  have hne : R.1.queue x ≠ [] := by
    rw [a2 x]
    have : 0 < (s.heap txn).readset_.count x := List.count_pos_iff.mpr hr
    obtain ⟨n, hn⟩ := Nat.exists_eq_succ_of_ne_zero (Nat.pos_iff_ne_zero.mp this)
    rw [hn]
    simp [List.replicate_succ]
  obtain ⟨c1, c2⟩ :=
    TxnProcessor.lockLoop_write_blocked txn x (s.heap txn).writeset_ R.1 R.2 hw hne
  generalize hW : TxnProcessor.lockLoop LockManagerA.WriteLock txn
    (s.heap txn).writeset_ R.1 R.2 = W at b1 b2 c1 c2
  have hstep : TxnProcessor.RunLockingScheduler_admit s =
      { s with txn_requests_ := rest, lm_ := W.1 } := by
    unfold TxnProcessor.RunLockingScheduler_admit
    rw [hreq]
    simp only [TxnProcessor.lmWriteLock_eq, hR, hW, c1]
    simp
  rw [hstep]
  refine ⟨rfl, ?_, ?_, ?_⟩
  · exact b1.trans a1
  · have := a3 txn
    simp only at c2 ⊢
    omega
  · intro k
    simp only
    rw [b2 k, a2 k]

/-- C6, at a concrete input: the transaction of `Scenario.overlapStart` under
`LockManagerB`. -/
theorem C6_overlapping_key_blocks_witness :
    (TxnProcessor.RunLockingScheduler_admit
      (Scenario.overlapStart CCMode.LOCKING)).lm_.ready_txns_ = [] ∧
    (Scenario.overlapStart CCMode.LOCKING).lm_.counter 1 + 1 ≤
      (TxnProcessor.RunLockingScheduler_admit (Scenario.overlapStart CCMode.LOCKING)).lm_.counter 1 :=
  have h := C6_overlapping_key_blocks (Scenario.overlapStart CCMode.LOCKING) 1 [] 5
    (by decide) (by decide) (by decide)
  ⟨h.2.1, h.2.2.1⟩

/-! ### Reads before the body -/

/-- On single-version storage a read loop leaves the storage alone, stores the
value of every listed key that has a record, and changes no other entry of
`reads_`. -/
theorem TxnProcessor.readKeys_sv (st : Storage) (uninit : Value) (id : Int) (keys : List Key) :
    ∀ reads : Key → Option Value,
      (TxnProcessor.readKeys uninit id keys (StorageImpl.sv st) reads).1 = StorageImpl.sv st ∧
      (∀ k v ts, k ∈ keys → st.data_ k = some (v, ts) →
        (TxnProcessor.readKeys uninit id keys (StorageImpl.sv st) reads).2 k = some v) ∧
      (∀ k, k ∉ keys ∨ st.data_ k = none →
        (TxnProcessor.readKeys uninit id keys (StorageImpl.sv st) reads).2 k = reads k) := by
  induction keys with
  | nil => intro reads; simp [TxnProcessor.readKeys]
  | cons key rest ih =>
    intro reads
    simp only [TxnProcessor.readKeys, StorageImpl.Read]
    obtain ⟨h1, h2, h3⟩ := ih
      (if (st.Read key uninit).1 then Function.update reads key (some (st.Read key uninit).2)
        else reads)
    refine ⟨h1, ?_, ?_⟩
    · intro k v ts hk hd
      by_cases hr : k ∈ rest
      · exact h2 k v ts hr hd
      · have hkey : k = key := by
          rcases List.mem_cons.mp hk with h | h
          · exact h
          · exact absurd h hr
        subst hkey
        rw [h3 k (Or.inl hr)]
        simp [Storage.Read, hd]
    · intro k hk
      have hk1 : k ∉ rest ∨ st.data_ k = none := by
        rcases hk with h | h
        · exact Or.inl (fun hm => h (List.mem_cons_of_mem _ hm))
        · exact Or.inr h
      rw [h3 k hk1]
      by_cases hkey : k = key
      · subst hkey
        rcases hk with h | h
        · exact absurd (List.mem_cons_self _ _) h
        · simp [Storage.Read, h]
      · split_ifs
        · exact Function.update_noteq hkey _ _
        · rfl

/-- Two read loops in a row on single-version storage (read set, then write
set): the storage is unchanged and `reads_` holds the stored value of every
key of either list that has a record. -/
theorem TxnProcessor.readKeys_twice_sv (st : Storage) (uninit : Value) (id : Int)
    (readset writeset : List Key) (reads : Key → Option Value) :
    (TxnProcessor.readKeys uninit id writeset
      (TxnProcessor.readKeys uninit id readset (StorageImpl.sv st) reads).1
      (TxnProcessor.readKeys uninit id readset (StorageImpl.sv st) reads).2).1 =
        StorageImpl.sv st ∧
    ∀ k v ts, k ∈ readset ∨ k ∈ writeset → st.data_ k = some (v, ts) →
      (TxnProcessor.readKeys uninit id writeset
        (TxnProcessor.readKeys uninit id readset (StorageImpl.sv st) reads).1
        (TxnProcessor.readKeys uninit id readset (StorageImpl.sv st) reads).2).2 k = some v := by
  obtain ⟨a1, a2, _⟩ := TxnProcessor.readKeys_sv st uninit id readset reads
  rw [a1]
  obtain ⟨b1, b2, b3⟩ := TxnProcessor.readKeys_sv st uninit id writeset
    (TxnProcessor.readKeys uninit id readset (StorageImpl.sv st) reads).2
  refine ⟨b1, ?_⟩
  intro k v ts hk hd
  by_cases hw : k ∈ writeset
  · exact b2 k v ts hw hd
  · rw [b3 k (Or.inl hw)]
    rcases hk with h | h
    · exact a2 k v ts h hd
    · exact absurd h hw

/-- The read phase of `ExecuteTxn` on single-version storage. -/
theorem TxnProcessor.ExecuteTxn_reads_sv (s : TxnProcessor) (st : Storage) (txn : TxnPtr)
    (now : Rat) (uninit : Value) (hst : s.storage_ = StorageImpl.sv st) :
    (TxnProcessor.ExecuteTxn_reads s txn now uninit).storage_ = s.storage_ ∧
    ∀ k v ts, k ∈ (s.heap txn).readset_ ∨ k ∈ (s.heap txn).writeset_ →
      st.data_ k = some (v, ts) →
      ((TxnProcessor.ExecuteTxn_reads s txn now uninit).heap txn).reads_ k = some v := by
  obtain ⟨h1, h2⟩ := TxnProcessor.readKeys_twice_sv st uninit 0 (s.heap txn).readset_
    (s.heap txn).writeset_ (s.heap txn).reads_
  simp only [TxnProcessor.ExecuteTxn_reads, hst, Function.update_same]
  exact ⟨h1, h2⟩

/-- C5 (the claim as stated fails). In mode MVCC_MV2PL, with key 1 present in
storage (value 0) and in the read set of transaction 1, the body is invoked on
a transaction object whose `reads_` has no entry for key 1. In mode MVCC_MVTO,
with key 1 present in storage and in the write set of transaction 1, `reads_`
has no entry for key 1 either when the body is invoked. -/
theorem C5_mvcc_counterexample :
    ((Scenario.mv2plStart.storage_.Read 1 7 1).1 = true ∧
      (Scenario.mv2plStart.storage_.Read 1 7 1).2.1 = 0 ∧
      1 ∈ (Scenario.mv2plStart.heap 1).readset_ ∧
      (∀ Run, TxnProcessor.MVCC2PLExecuteTxn Scenario.mv2plStart 1 Run =
        TxnProcessor.MVCC2PLExecuteTxn_finish
          (Scenario.mv2plStart.setTxn 1 (Run (Scenario.mv2plStart.heap 1))) 1) ∧
      (Scenario.mv2plStart.heap 1).reads_ 1 = none) ∧
    ((Scenario.mvtoStart.storage_.Read 1 7 1).1 = true ∧
      (Scenario.mvtoStart.storage_.Read 1 7 1).2.1 = 0 ∧
      1 ∈ (Scenario.mvtoStart.heap 1).writeset_ ∧
      ((TxnProcessor.MVCCMVTOExecuteTxn_reads Scenario.mvtoStart 1 7).heap 1).reads_ 1 = none) := by
  refine ⟨⟨by decide, by decide, by decide, fun _ => rfl, by decide⟩,
    by decide, by decide, by decide, by decide⟩

/-- C5 (amended). In the modes that run on single-version storage (serial,
locking A/B and the four OCC variants), whose executors are `ExecuteTxn` and
the two parallel OCC executors: the body is invoked on the transaction object
that the read phase produced; at that moment the storage is as before the
read phase and `reads_` contains the stored value of every key of
`read_set ∪ write_set` that exists in storage. -/
theorem C5_reads_before_body (s : TxnProcessor) (st : Storage) (txn : TxnPtr) (now : Rat)
    (uninit : Value) (hst : s.storage_ = StorageImpl.sv st) :
    (∀ Run, TxnProcessor.ExecuteTxn s txn now uninit Run =
      TxnProcessor.ExecuteTxn_push
        ((TxnProcessor.ExecuteTxn_reads s txn now uninit).setTxn txn
          (Run ((TxnProcessor.ExecuteTxn_reads s txn now uninit).heap txn))) txn) ∧
    ∀ s1 ∈ [TxnProcessor.ExecuteTxn_reads s txn now uninit,
        TxnProcessor.ExecuteTxnParallelBackwardValidation_reads s txn uninit,
        TxnProcessor.ExecuteTxnParallelForwardValidation_reads s txn now uninit],
      s1.storage_ = s.storage_ ∧
      ∀ k v ts, k ∈ (s.heap txn).readset_ ∨ k ∈ (s.heap txn).writeset_ →
        st.data_ k = some (v, ts) → (s1.heap txn).reads_ k = some v := by
  refine ⟨fun _ => rfl, ?_⟩
  obtain ⟨h1, h2⟩ := TxnProcessor.readKeys_twice_sv st uninit 0 (s.heap txn).readset_
    (s.heap txn).writeset_ (s.heap txn).reads_
  intro s1 hs1
  simp only [List.mem_cons, List.mem_singleton, List.not_mem_nil, or_false] at hs1
  rcases hs1 with h | h | h
  · subst h
    simp only [TxnProcessor.ExecuteTxn_reads, hst, Function.update_same]
    exact ⟨h1, h2⟩
  · subst h
    simp only [TxnProcessor.ExecuteTxnParallelBackwardValidation_reads, hst, Function.update_same]
    exact ⟨h1, h2⟩
  · subst h
    simp only [TxnProcessor.ExecuteTxnParallelForwardValidation_reads, hst, Function.update_same]
    exact ⟨h1, h2⟩

/-- C5, at a concrete input: transaction 2 of `Scenario.s1Start` (read set
{5}) on a storage that holds key 5 with value 0. -/
theorem C5_reads_before_body_witness :
    ((TxnProcessor.ExecuteTxn_reads Scenario.s1Start 2 10 7).heap 2).reads_ 5 = some 0 :=
  ((C5_reads_before_body Scenario.s1Start (Storage.empty.Write 5 0 0) 2 10 7 rfl).2 _
    (List.mem_cons_self _ _)).2 5 0 0 (Or.inl (by decide)) (by decide)

/-! ### Applying writes to single-version storage -/

/-- The effect of `ApplyWrites` on single-version storage, for a `writes_` map (pairwise
distinct keys): every written key then holds the written value with the
writer's id as timestamp, every other key is untouched. -/
theorem TxnProcessor.applyWritesLoop_sv (id : Int) (kvs : List (Key × Value)) :
    ∀ st : Storage, (kvs.map Prod.fst).Nodup →
      ∃ st1 : Storage, TxnProcessor.applyWritesLoop id kvs (StorageImpl.sv st) = StorageImpl.sv st1 ∧
        (∀ k v, (k, v) ∈ kvs → st1.data_ k = some (v, id)) ∧
        (∀ k, k ∉ kvs.map Prod.fst → st1.data_ k = st.data_ k) := by
  induction kvs with
  | nil => intro st _; exact ⟨st, rfl, by simp, by simp⟩
  | cons kv rest ih =>
    intro st hnd
    rw [List.map_cons, List.nodup_cons] at hnd
    obtain ⟨st1, h1, h2, h3⟩ := ih (st.Write kv.1 kv.2 id) hnd.2
    refine ⟨st1, by simpa [TxnProcessor.applyWritesLoop, StorageImpl.Write] using h1, ?_, ?_⟩
    · intro k v hkv
      rcases List.mem_cons.mp hkv with h | h
      · subst h
        rw [h3 _ hnd.1]
        simp [Storage.Write]
      · exact h2 k v h
    · intro k hk
      rw [List.map_cons, List.mem_cons, not_or] at hk
      rw [h3 k hk.2]
      simp [Storage.Write, Function.update_noteq hk.1]

theorem TxnProcessor.ExecuteTxn_sv (s : TxnProcessor) (st : Storage) (txn : TxnPtr)
    (now : Rat) (uninit : Value) (Run : Txn → Txn) (hst : s.storage_ = StorageImpl.sv st) :
    (TxnProcessor.ExecuteTxn s txn now uninit Run).storage_ = StorageImpl.sv st ∧
    (TxnProcessor.ExecuteTxn s txn now uninit Run).committed_txns_ = s.committed_txns_ ∧
    (TxnProcessor.ExecuteTxn s txn now uninit Run).txn_results_ = s.txn_results_ ∧
    (TxnProcessor.ExecuteTxn s txn now uninit Run).txn_requests_ = s.txn_requests_ ∧
    (TxnProcessor.ExecuteTxn s txn now uninit Run).lm_ = s.lm_ ∧
    (TxnProcessor.ExecuteTxn s txn now uninit Run).mode_ = s.mode_ ∧
    (∀ t, t ≠ txn → (TxnProcessor.ExecuteTxn s txn now uninit Run).heap t = s.heap t) := by
  have h := (TxnProcessor.readKeys_twice_sv st uninit 0 (s.heap txn).readset_
    (s.heap txn).writeset_ (s.heap txn).reads_).1
  refine ⟨?_, rfl, rfl, rfl, rfl, rfl, ?_⟩
  · simpa [TxnProcessor.ExecuteTxn, TxnProcessor.ExecuteTxn_push, TxnProcessor.ExecuteTxn_run,
      TxnProcessor.ExecuteTxn_reads, TxnProcessor.setTxn, hst] using h
  · intro t ht
    simp [TxnProcessor.ExecuteTxn, TxnProcessor.ExecuteTxn_push, TxnProcessor.ExecuteTxn_run,
      TxnProcessor.ExecuteTxn_reads, TxnProcessor.setTxn, Function.update_noteq ht]

/-- The outcome of the decision block on a transaction that asked to commit. -/
theorem TxnProcessor.commitOrAbort_commit (s : TxnProcessor) (txn : TxnPtr)
    (h : (s.heap txn).status_ = TxnStatus.COMPLETED_C) :
    TxnProcessor.commitOrAbort s txn = .ok (s.commit txn) ∧
    (s.commit txn).storage_ =
      TxnProcessor.applyWritesLoop (s.heap txn).unique_id_ (s.heap txn).writes_ s.storage_ ∧
    (s.commit txn).committed_txns_ = s.committed_txns_ ++ [txn] ∧
    ((s.commit txn).heap txn).status_ = TxnStatus.COMMITTED ∧
    (s.commit txn).txn_results_ = s.txn_results_ ∧
    (s.commit txn).txn_requests_ = s.txn_requests_ ∧
    (s.commit txn).lm_ = s.lm_ ∧ (s.commit txn).mode_ = s.mode_ ∧
    ((s.commit txn).heap txn).readset_ = (s.heap txn).readset_ ∧
    ((s.commit txn).heap txn).writeset_ = (s.heap txn).writeset_ ∧
    ((s.commit txn).heap txn).reads_ = (s.heap txn).reads_ ∧
    (∀ t, t ≠ txn → (s.commit txn).heap t = s.heap t) := by
  refine ⟨by simp [TxnProcessor.commitOrAbort, h], rfl, rfl, ?_, rfl, rfl, rfl, rfl, ?_, ?_, ?_, ?_⟩
  · simp [TxnProcessor.commit, TxnProcessor.setStatus, TxnProcessor.setTxn]
  · simp [TxnProcessor.commit, TxnProcessor.setStatus, TxnProcessor.setTxn, TxnProcessor.ApplyWrites]
  · simp [TxnProcessor.commit, TxnProcessor.setStatus, TxnProcessor.setTxn, TxnProcessor.ApplyWrites]
  · simp [TxnProcessor.commit, TxnProcessor.setStatus, TxnProcessor.setTxn, TxnProcessor.ApplyWrites]
  · intro t ht
    simp [TxnProcessor.commit, TxnProcessor.setStatus, TxnProcessor.setTxn, TxnProcessor.ApplyWrites,
      Function.update_noteq ht]

/-- The outcome of the decision block on a transaction that asked to abort. -/
theorem TxnProcessor.commitOrAbort_abort (s : TxnProcessor) (txn : TxnPtr)
    (h : (s.heap txn).status_ = TxnStatus.COMPLETED_A) :
    TxnProcessor.commitOrAbort s txn = .ok (s.setStatus txn TxnStatus.ABORTED) ∧
    (s.setStatus txn TxnStatus.ABORTED).storage_ = s.storage_ ∧
    (s.setStatus txn TxnStatus.ABORTED).committed_txns_ = s.committed_txns_ ∧
    ((s.setStatus txn TxnStatus.ABORTED).heap txn).status_ = TxnStatus.ABORTED ∧
    (s.setStatus txn TxnStatus.ABORTED).txn_results_ = s.txn_results_ ∧
    (s.setStatus txn TxnStatus.ABORTED).lm_ = s.lm_ ∧
    (s.setStatus txn TxnStatus.ABORTED).mode_ = s.mode_ ∧
    ((s.setStatus txn TxnStatus.ABORTED).heap txn).readset_ = (s.heap txn).readset_ ∧
    ((s.setStatus txn TxnStatus.ABORTED).heap txn).writeset_ = (s.heap txn).writeset_ ∧
    ((s.setStatus txn TxnStatus.ABORTED).heap txn).reads_ = (s.heap txn).reads_ := by
  refine ⟨by simp [TxnProcessor.commitOrAbort, h], rfl, rfl, ?_, rfl, rfl, rfl, ?_, ?_, ?_⟩ <;>
    simp [TxnProcessor.setStatus, TxnProcessor.setTxn]

/-- The decision block on any other status reaches `DIE`. -/
theorem TxnProcessor.commitOrAbort_die (s : TxnProcessor) (txn : TxnPtr)
    (hc : (s.heap txn).status_ ≠ TxnStatus.COMPLETED_C)
    (ha : (s.heap txn).status_ ≠ TxnStatus.COMPLETED_A) :
    TxnProcessor.commitOrAbort s txn = .error Failure.die := by
  unfold TxnProcessor.commitOrAbort
  cases h : (s.heap txn).status_ <;> simp_all

/-- C8. On single-version storage, after `ApplyWrites(T)` every key `k` of
`T.writes_` reads back `T.writes_[k]` with timestamp `T.unique_id_` and every
key not in `T.writes_` keeps its record. Hence under SERIAL: when `t1` is
processed and commits with `k ↦ v` among its writes and `t2`, with `k` in its
read set, is the next request, then the step that processes `t2` invokes the
body of `t2` on a transaction object with `reads_[k] = v`, and `reads_[k] = v`
still holds after that step for a body that leaves `reads_` alone and ends
with a verdict. -/
theorem C8_apply_writes_then_read :
    (∀ (s : TxnProcessor) (st : Storage) (txn : TxnPtr),
      s.storage_ = StorageImpl.sv st → ((s.heap txn).writes_.map Prod.fst).Nodup →
      ∃ st1 : Storage, (TxnProcessor.ApplyWrites s txn).storage_ = StorageImpl.sv st1 ∧
        (∀ k v, (k, v) ∈ (s.heap txn).writes_ →
          (∀ r0, st1.Read k r0 = (true, v)) ∧ st1.Timestamp k = (s.heap txn).unique_id_) ∧
        (∀ k, k ∉ (s.heap txn).writes_.map Prod.fst → st1.data_ k = st.data_ k)) ∧
    (∀ (s : TxnProcessor) (st : Storage) (t1 t2 : TxnPtr) (rest : List TxnPtr) (now : Rat)
      (uninit : Value) (Run1 : Txn → Txn) (k : Key) (v : Value),
      s.storage_ = StorageImpl.sv st → s.txn_requests_ = t1 :: t2 :: rest → t1 ≠ t2 →
      ((TxnProcessor.ExecuteTxn { s with txn_requests_ := t2 :: rest } t1 now uninit Run1).heap
        t1).status_ = TxnStatus.COMPLETED_C →
      (((TxnProcessor.ExecuteTxn { s with txn_requests_ := t2 :: rest } t1 now uninit Run1).heap
        t1).writes_.map Prod.fst).Nodup →
      (k, v) ∈ ((TxnProcessor.ExecuteTxn { s with txn_requests_ := t2 :: rest } t1 now uninit
        Run1).heap t1).writes_ →
      k ∈ (s.heap t2).readset_ →
      ∃ s1, TxnProcessor.RunSerialScheduler_step s now uninit Run1 = .ok s1 ∧
        s1.txn_requests_ = t2 :: rest ∧
        ∀ (now2 : Rat) (uninit2 : Value) (Run2 : Txn → Txn),
          ((TxnProcessor.ExecuteTxn_reads { s1 with txn_requests_ := rest } t2 now2
            uninit2).heap t2).reads_ k = some v ∧
          TxnProcessor.ExecuteTxn { s1 with txn_requests_ := rest } t2 now2 uninit2 Run2 =
            TxnProcessor.ExecuteTxn_push
              ((TxnProcessor.ExecuteTxn_reads { s1 with txn_requests_ := rest } t2 now2
                uninit2).setTxn t2
                (Run2 ((TxnProcessor.ExecuteTxn_reads { s1 with txn_requests_ := rest } t2 now2
                  uninit2).heap t2))) t2 ∧
          ((∀ t, (Run2 t).reads_ = t.reads_) →
            (∀ t, (Run2 t).status_ = TxnStatus.COMPLETED_C ∨
              (Run2 t).status_ = TxnStatus.COMPLETED_A) →
            ∃ s2, TxnProcessor.RunSerialScheduler_step s1 now2 uninit2 Run2 = .ok s2 ∧
              (s2.heap t2).reads_ k = some v)) := by
  constructor
  · intro s st txn hst hnd
    obtain ⟨st1, h1, h2, h3⟩ :=
      TxnProcessor.applyWritesLoop_sv (s.heap txn).unique_id_ (s.heap txn).writes_ st hnd
    refine ⟨st1, by simpa [TxnProcessor.ApplyWrites, hst] using h1, ?_, h3⟩
    intro k v hkv
    constructor
    · intro r0; simp [Storage.Read, h2 k v hkv]
    · simp [Storage.Timestamp, h2 k v hkv]
  · intro s st t1 t2 rest now uninit Run1 k v hst hreq hne hstat hnd hkv hk
    obtain ⟨e1, _, _, e4, _, _, e7⟩ := TxnProcessor.ExecuteTxn_sv
      { s with txn_requests_ := t2 :: rest } st t1 now uninit Run1 hst
    generalize hS : TxnProcessor.ExecuteTxn { s with txn_requests_ := t2 :: rest } t1 now uninit
      Run1 = S at e1 e4 e7 hstat hnd hkv
    obtain ⟨c1, c2, _, _, _, c6, _, _, _, _, _, c12⟩ := TxnProcessor.commitOrAbort_commit S t1 hstat
    obtain ⟨st1, a1, a2, _⟩ :=
      TxnProcessor.applyWritesLoop_sv (S.heap t1).unique_id_ (S.heap t1).writes_ st hnd
    have hstep : TxnProcessor.RunSerialScheduler_step s now uninit Run1 =
        .ok ((S.commit t1).publish t1) := by
      unfold TxnProcessor.RunSerialScheduler_step
      rw [hreq]
      simp only [hS, c1]
    have hsto : ((S.commit t1).publish t1).storage_ = StorageImpl.sv st1 := by
      show (S.commit t1).storage_ = _
      rw [c2, e1]; exact a1
    have hheap : ((S.commit t1).publish t1).heap t2 = s.heap t2 := by
      show (S.commit t1).heap t2 = _
      rw [c12 t2 (Ne.symm hne)]; exact e7 t2 (Ne.symm hne)
    refine ⟨_, hstep, ?_, ?_⟩
    · show (S.commit t1).txn_requests_ = _
      rw [c6, e4]
    · intro now2 uninit2 Run2
      generalize hP : (S.commit t1).publish t1 = P at hsto hheap
      have hreads : ((TxnProcessor.ExecuteTxn_reads { P with txn_requests_ := rest } t2 now2
          uninit2).heap t2).reads_ k = some v := by
        have := TxnProcessor.ExecuteTxn_reads_sv { P with txn_requests_ := rest } st1 t2 now2
          uninit2 hsto
        exact this.2 k v _ (Or.inl (by simpa [hheap] using hk)) (a2 k v hkv)
      refine ⟨hreads, rfl, ?_⟩
      intro hkeep hverdict
      have hE : TxnProcessor.ExecuteTxn { P with txn_requests_ := rest } t2 now2 uninit2 Run2 =
          TxnProcessor.ExecuteTxn_push
            ((TxnProcessor.ExecuteTxn_reads { P with txn_requests_ := rest } t2 now2
              uninit2).setTxn t2
              (Run2 ((TxnProcessor.ExecuteTxn_reads { P with txn_requests_ := rest } t2 now2
                uninit2).heap t2))) t2 := rfl
      have hreq2 : P.txn_requests_ = t2 :: rest := by
        rw [← hP]; show (S.commit t1).txn_requests_ = _; rw [c6, e4]
      generalize hT : (TxnProcessor.ExecuteTxn_reads { P with txn_requests_ := rest } t2 now2
        uninit2) = T at hreads hE
      have hheapE : (TxnProcessor.ExecuteTxn { P with txn_requests_ := rest } t2 now2 uninit2
          Run2).heap t2 = Run2 (T.heap t2) := by
        rw [hE]; simp [TxnProcessor.ExecuteTxn_push, TxnProcessor.setTxn]
      generalize hE2 : TxnProcessor.ExecuteTxn { P with txn_requests_ := rest } t2 now2 uninit2
        Run2 = E at hheapE
      have hr : (E.heap t2).reads_ k = some v := by
        rw [hheapE, hkeep]; exact hreads
      unfold TxnProcessor.RunSerialScheduler_step
      rw [hreq2]
      simp only [hE2]
      rcases hverdict (T.heap t2) with hv | hv
      · have hs : (E.heap t2).status_ = TxnStatus.COMPLETED_C := by rw [hheapE]; exact hv
        obtain ⟨d1, _, _, _, _, _, _, _, _, _, d11, _⟩ := TxnProcessor.commitOrAbort_commit E t2 hs
        refine ⟨(E.commit t2).publish t2, by simp only [d1], ?_⟩
        show ((E.commit t2).heap t2).reads_ k = _
        rw [d11]; exact hr
      · have hs : (E.heap t2).status_ = TxnStatus.COMPLETED_A := by rw [hheapE]; exact hv
        obtain ⟨d1, _, _, _, _, _, _, _, _, d10⟩ := TxnProcessor.commitOrAbort_abort E t2 hs
        refine ⟨(E.setStatus t2 TxnStatus.ABORTED).publish t2, by simp only [d1], ?_⟩
        show ((E.setStatus t2 TxnStatus.ABORTED).heap t2).reads_ k = _
        rw [d10]; exact hr


/-- C8, at a concrete input: under SERIAL transaction 1 commits the write
5 ↦ 100, then transaction 2 (read set {5}) is processed. -/
theorem C8_apply_writes_then_read_witness :
    ∃ s1, TxnProcessor.RunSerialScheduler_step Scenario.s1Start 10 7
        (Scenario.writeAndCommit [(5, 100)]) = .ok s1 ∧
      ((TxnProcessor.ExecuteTxn_reads { s1 with txn_requests_ := [] } 2 11 7).heap 2).reads_ 5 =
        some 100 := by
  obtain ⟨s1, h1, _, h3⟩ := C8_apply_writes_then_read.2 Scenario.s1Start
    (Storage.empty.Write 5 0 0) 1 2 [] 10 7 (Scenario.writeAndCommit [(5, 100)]) 5 100
    rfl rfl (by decide) (by decide) (by decide) (by decide) (by decide)
  exact ⟨s1, h1, (h3 11 7 id).1⟩

/-! ### Completion steps -/

theorem LockManager.countP_eraseFirst (txn : TxnPtr) (q : List LockRequest) :
    (LockManager.eraseFirst txn q).countP (fun r => decide (r.txn_ = txn)) =
      q.countP (fun r => decide (r.txn_ = txn)) - 1 := by
  induction q with
  | nil => rfl
  | cons r rest ih =>
    by_cases h : r.txn_ = txn
    · simp [LockManager.eraseFirst, h]
    · simp [LockManager.eraseFirst, h, List.countP_cons, ih]

theorem LockManager.queue_of_slot {lm : LockManager} {key : Key} {q : List LockRequest}
    (h : lm.lock_table_ key = Slot.deque q) : lm.queue key = q := by
  simp [LockManager.queue, h, Slot.reqs]

theorem LockManager.slot_of_queue_ne_nil {lm : LockManager} {key : Key}
    (h : lm.queue key ≠ []) : lm.lock_table_ key = Slot.deque (lm.queue key) := by
  unfold LockManager.queue at h ⊢
  cases hs : lm.lock_table_ key with
  | absent => simp [hs, Slot.reqs] at h
  | null => simp [hs, Slot.reqs] at h
  | deque q => simp [Slot.reqs]

/-- On a non-empty queue `LockManagerA::Release` is defined, erases the first
request of `txn` from the queue of `key` and touches no other queue. -/
theorem LockManagerA.releaseA_queue (lm : LockManager) (txn : TxnPtr) (key : Key)
    (h : lm.queue key ≠ []) :
    ∃ lm1, LockManagerA.Release lm txn key = some lm1 ∧
      lm1.queue key = LockManager.eraseFirst txn (lm.queue key) ∧
      ∀ k, k ≠ key → lm1.lock_table_ k = lm.lock_table_ k := by
  have hs := LockManager.slot_of_queue_ne_nil h
  have key1 : ∀ (lmx : LockManager) (q : List LockRequest),
      q = LockManager.eraseFirst txn (lm.queue key) →
      lmx.lock_table_ = Function.update lm.lock_table_ key (Slot.deque q) →
      lmx.queue key = LockManager.eraseFirst txn (lm.queue key) ∧
      ∀ k, k ≠ key → lmx.lock_table_ k = lm.lock_table_ k := by
    intro lmx q hq hx
    refine ⟨?_, ?_⟩
    · rw [LockManager.queue_of_slot (by rw [hx, Function.update_same]), hq]
    · intro k hk; rw [hx, Function.update_noteq hk]
  cases hq : lm.queue key with
  | nil => exact absurd hq h
  | cons r rest =>
    rw [hq] at hs key1
    unfold LockManagerA.Release
    rw [hs]
    by_cases hr : r.txn_ = txn
    · have he : rest = LockManager.eraseFirst txn (r :: rest) := by
        simp [LockManager.eraseFirst, hr]
      cases rest with
      | nil =>
        simp only [hr, if_true]
        exact ⟨_, rfl, key1 _ _ he rfl⟩
      | cons r1 rest1 =>
        simp only [hr, if_true]
        split_ifs
        · exact ⟨_, rfl, key1 _ _ he rfl⟩
        · exact ⟨_, rfl, key1 _ _ he rfl⟩
    · simp only [hr, if_false]
      exact ⟨_, rfl, key1 _ _ rfl rfl⟩

theorem LockManagerB.scan_queue (txn : TxnPtr) (q : List LockRequest) :
    ∀ (isA isB : Bool) (ct : Nat),
      (LockManagerB.scan txn q isA isB ct).queue = LockManager.eraseFirst txn q ∧
      (0 < q.countP (fun r => decide (r.txn_ = txn)) →
        (LockManagerB.scan txn q isA isB ct).lock_mode ≠ none) := by
  induction q with
  | nil => intro _ _ _; simp [LockManagerB.scan, LockManager.eraseFirst]
  | cons r rest ih =>
    intro isA isB ct
    by_cases h : r.txn_ = txn
    · simp [LockManagerB.scan, LockManager.eraseFirst, h]
    · simp only [LockManagerB.scan, LockManager.eraseFirst, h, if_false]
      refine ⟨by rw [(ih _ _ _).1], ?_⟩
      intro hc
      have : 0 < rest.countP (fun r => decide (r.txn_ = txn)) := by
        simpa [List.countP_cons, h] using hc
      exact (ih _ _ _).2 this

theorem LockManagerB.decr_lock_table (lm : LockManager) (t : TxnPtr) :
    (LockManagerB.decr lm t).lock_table_ = lm.lock_table_ := by
  unfold LockManagerB.decr
  split_ifs <;> rfl

theorem LockManagerB.wakeFront_lock_table (lm : LockManager) (q : List LockRequest) :
    (LockManagerB.wakeFront lm q).lock_table_ = lm.lock_table_ := by
  cases q with
  | nil => rfl
  | cons r rest =>
    simp only [LockManagerB.wakeFront]
    split_ifs
    · exact LockManagerB.decr_lock_table _ _
    · rfl

theorem LockManagerB.promote_lock_table (q : List LockRequest) :
    ∀ (lm : LockManager) (ct1 : Nat),
      (LockManagerB.promote lm q ct1).lock_table_ = lm.lock_table_ := by
  induction q with
  | nil => intro _ _; rfl
  | cons r rest ih =>
    intro lm ct1
    simp only [LockManagerB.promote]
    split_ifs
    · rw [ih, LockManagerB.decr_lock_table]
    · exact LockManagerB.decr_lock_table _ _
    · rfl

/-- For a transaction that has a request in the queue of `key`,
`LockManagerB::Release` is defined, erases the first request of `txn` from the queue of `key`
and touches no other queue. -/
theorem LockManagerB.releaseB_queue (lm : LockManager) (txn : TxnPtr) (key : Key)
    (h : 0 < (lm.queue key).countP (fun r => decide (r.txn_ = txn))) :
    ∃ lm1, LockManagerB.Release lm txn key = some lm1 ∧
      lm1.queue key = LockManager.eraseFirst txn (lm.queue key) ∧
      ∀ k, k ≠ key → lm1.lock_table_ k = lm.lock_table_ k := by
  have hne : lm.queue key ≠ [] := by
    intro h0; rw [h0] at h; simp at h
  have hs := LockManager.slot_of_queue_ne_nil hne
  obtain ⟨s1, s2⟩ := LockManagerB.scan_queue txn (lm.queue key) false false 0
  have s3 := s2 h
  have key1 : ∀ lmx : LockManager,
      lmx.lock_table_ = Function.update lm.lock_table_ key
        (Slot.deque (LockManagerB.scan txn (lm.queue key) false false 0).queue) →
      lmx.queue key = LockManager.eraseFirst txn (lm.queue key) ∧
      ∀ k, k ≠ key → lmx.lock_table_ k = lm.lock_table_ k := by
    intro lmx hx
    refine ⟨?_, ?_⟩
    · rw [LockManager.queue_of_slot (by rw [hx, Function.update_same]), s1]
    · intro k hk; rw [hx, Function.update_noteq hk]
  unfold LockManagerB.Release
  rw [hs]
  simp only
  cases hm : (LockManagerB.scan txn (lm.queue key) false false 0).lock_mode with
  | none => exact absurd hm s3
  | some lock_mode =>
    simp only
    split_ifs <;>
      exact ⟨_, rfl, key1 _ (by
        simp only [LockManagerB.promote_lock_table, LockManagerB.wakeFront_lock_table])⟩

/-- Releasing the first key of a list whose requests `txn` holds is defined
under either lock manager, and `txn` still holds the requests of the rest. -/
theorem TxnProcessor.lmRelease_holds (mode : CCMode) (lm : LockManager) (txn : TxnPtr)
    (key : Key) (rest : List Key) (h : lm.HoldsRequests txn (key :: rest)) :
    ∃ lm1, TxnProcessor.lmRelease mode lm txn key = some lm1 ∧ lm1.HoldsRequests txn rest := by
  have hpos : 0 < (lm.queue key).countP (fun r => decide (r.txn_ = txn)) := by
    have := h key
    simp only [List.count_cons_self] at this
    omega
  have hne : lm.queue key ≠ [] := by
    intro h0; rw [h0] at hpos; simp at hpos
  have hrel : ∃ lm1, TxnProcessor.lmRelease mode lm txn key = some lm1 ∧
      lm1.queue key = LockManager.eraseFirst txn (lm.queue key) ∧
      ∀ k, k ≠ key → lm1.lock_table_ k = lm.lock_table_ k := by
    unfold TxnProcessor.lmRelease
    split_ifs
    · exact LockManagerA.releaseA_queue lm txn key hne
    · exact LockManagerB.releaseB_queue lm txn key hpos
  obtain ⟨lm1, h1, h2, h3⟩ := hrel
  refine ⟨lm1, h1, ?_⟩
  intro k
  by_cases hk : k = key
  · subst hk
    rw [h2, LockManager.countP_eraseFirst]
    have := h k
    simp only [List.count_cons_self] at this
    omega
  · have hq : lm1.queue k = lm.queue k := by
      unfold LockManager.queue; rw [h3 k hk]
    rw [hq]
    have := h k
    have hb : ¬ (key == k) = true := by simpa using fun h => hk h.symm
    simpa [List.count_cons, hb] using this

/-- A release loop over keys whose requests `txn` holds is defined, and `txn`
still holds the requests of the keys that come after. -/
theorem TxnProcessor.releaseLoop_defined (mode : CCMode) (txn : TxnPtr) (keys extra : List Key) :
    ∀ lm : LockManager, lm.HoldsRequests txn (keys ++ extra) →
      ∃ lm1, TxnProcessor.releaseLoop mode txn keys lm = some lm1 ∧
        lm1.HoldsRequests txn extra := by
  induction keys with
  | nil => intro lm h; exact ⟨lm, rfl, by simpa using h⟩
  | cons key rest ih =>
    intro lm h
    obtain ⟨lm1, h1, h2⟩ := TxnProcessor.lmRelease_holds mode lm txn key (rest ++ extra) h
    obtain ⟨lm2, h3, h4⟩ := ih lm1 h2
    exact ⟨lm2, by simp only [TxnProcessor.releaseLoop, h1, h3], h4⟩

/-- The two release loops of the completion step are defined for a
transaction that holds its requests; they change nothing but the lock
manager. -/
theorem TxnProcessor.release_phase (s : TxnProcessor) (txn : TxnPtr)
    (h : s.lm_.HoldsRequests txn ((s.heap txn).readset_ ++ (s.heap txn).writeset_)) :
    ∃ lm2, (match TxnProcessor.releaseLoop s.mode_ txn (s.heap txn).readset_ s.lm_ with
        | none => (Except.error Failure.undefinedBehaviour : Except Failure TxnProcessor)
        | some lm1 =>
          match TxnProcessor.releaseLoop s.mode_ txn (s.heap txn).writeset_ lm1 with
          | none => Except.error Failure.undefinedBehaviour
          | some lm2 => Except.ok ({ s with lm_ := lm2 }.publish txn)) =
      Except.ok ({ s with lm_ := lm2 }.publish txn) := by
  obtain ⟨lm1, h1, h2⟩ := TxnProcessor.releaseLoop_defined s.mode_ txn (s.heap txn).readset_
    (s.heap txn).writeset_ s.lm_ h
  obtain ⟨lm2, h3, _⟩ := TxnProcessor.releaseLoop_defined s.mode_ txn (s.heap txn).writeset_ []
    lm1 (by simpa using h2)
  exact ⟨lm2, by simp only [h1, h3]⟩

theorem TxnProcessor.RunSerialScheduler_step_cons (s : TxnProcessor) (txn : TxnPtr)
    (rest : List TxnPtr) (now : Rat) (uninit : Value) (Run : Txn → Txn)
    (hreq : s.txn_requests_ = txn :: rest) :
    TxnProcessor.RunSerialScheduler_step s now uninit Run =
      (match TxnProcessor.commitOrAbort
          (TxnProcessor.ExecuteTxn { s with txn_requests_ := rest } txn now uninit Run) txn with
        | .ok s2 => .ok (s2.publish txn)
        | .error e => .error e) := by
  unfold TxnProcessor.RunSerialScheduler_step
  rw [hreq]

theorem TxnProcessor.RunLockingScheduler_complete_cons (s : TxnProcessor) (txn : TxnPtr)
    (rest : List TxnPtr) (hc : s.completed_txns_ = txn :: rest) :
    TxnProcessor.RunLockingScheduler_complete s =
      (match TxnProcessor.commitOrAbort { s with completed_txns_ := rest } txn with
        | .error e => .error e
        | .ok s1 =>
          match TxnProcessor.releaseLoop s1.mode_ txn (s1.heap txn).readset_ s1.lm_ with
          | none => .error Failure.undefinedBehaviour
          | some lm1 =>
            match TxnProcessor.releaseLoop s1.mode_ txn (s1.heap txn).writeset_ lm1 with
            | none => .error Failure.undefinedBehaviour
            | some lm2 => .ok ({ s1 with lm_ := lm2 }.publish txn)) := by
  unfold TxnProcessor.RunLockingScheduler_complete
  rw [hc]

/-- C7. In the serial scheduler (on its single-version storage) and in the
completion step of the locking scheduler (under either lock manager), with
`t` the completed transaction: if `t.status_` is COMPLETED_C, the step applies
all of `t.writes_` to storage with `t.unique_id_`, appends the transaction to
the committed history and publishes it with status COMMITTED; if it is
COMPLETED_A, the step publishes it with status ABORTED and leaves storage and
the committed history unchanged; for any other status the step ends in the
fatal error `DIE` and yields no state, so nothing is published. In the
locking scheduler the two first cases go through the release loops, which are
defined for a transaction that holds the lock requests of its read and write
sets. -/
theorem C7_completion_outcomes :
    (∀ (s : TxnProcessor) (st : Storage) (txn : TxnPtr) (rest : List TxnPtr) (now : Rat)
      (uninit : Value) (Run : Txn → Txn),
      s.txn_requests_ = txn :: rest → s.storage_ = StorageImpl.sv st →
      (((TxnProcessor.ExecuteTxn { s with txn_requests_ := rest } txn now uninit Run).heap
          txn).status_ = TxnStatus.COMPLETED_C →
        ∃ s1, TxnProcessor.RunSerialScheduler_step s now uninit Run = .ok s1 ∧
          s1.storage_ = TxnProcessor.applyWritesLoop
            ((TxnProcessor.ExecuteTxn { s with txn_requests_ := rest } txn now uninit Run).heap
              txn).unique_id_
            ((TxnProcessor.ExecuteTxn { s with txn_requests_ := rest } txn now uninit Run).heap
              txn).writes_ s.storage_ ∧
          s1.committed_txns_ = s.committed_txns_ ++ [txn] ∧
          s1.txn_results_ = s.txn_results_ ++ [txn] ∧
          (s1.heap txn).status_ = TxnStatus.COMMITTED) ∧
      (((TxnProcessor.ExecuteTxn { s with txn_requests_ := rest } txn now uninit Run).heap
          txn).status_ = TxnStatus.COMPLETED_A →
        ∃ s1, TxnProcessor.RunSerialScheduler_step s now uninit Run = .ok s1 ∧
          s1.storage_ = s.storage_ ∧
          s1.committed_txns_ = s.committed_txns_ ∧
          s1.txn_results_ = s.txn_results_ ++ [txn] ∧
          (s1.heap txn).status_ = TxnStatus.ABORTED) ∧
      (((TxnProcessor.ExecuteTxn { s with txn_requests_ := rest } txn now uninit Run).heap
          txn).status_ ≠ TxnStatus.COMPLETED_C →
        ((TxnProcessor.ExecuteTxn { s with txn_requests_ := rest } txn now uninit Run).heap
          txn).status_ ≠ TxnStatus.COMPLETED_A →
        TxnProcessor.RunSerialScheduler_step s now uninit Run = .error Failure.die)) ∧
    (∀ (s : TxnProcessor) (txn : TxnPtr) (rest : List TxnPtr),
      s.completed_txns_ = txn :: rest →
      (s.lm_.HoldsRequests txn ((s.heap txn).readset_ ++ (s.heap txn).writeset_) →
        ((s.heap txn).status_ = TxnStatus.COMPLETED_C →
          ∃ s1, TxnProcessor.RunLockingScheduler_complete s = .ok s1 ∧
            s1.storage_ = TxnProcessor.applyWritesLoop (s.heap txn).unique_id_
              (s.heap txn).writes_ s.storage_ ∧
            s1.committed_txns_ = s.committed_txns_ ++ [txn] ∧
            s1.txn_results_ = s.txn_results_ ++ [txn] ∧
            (s1.heap txn).status_ = TxnStatus.COMMITTED) ∧
        ((s.heap txn).status_ = TxnStatus.COMPLETED_A →
          ∃ s1, TxnProcessor.RunLockingScheduler_complete s = .ok s1 ∧
            s1.storage_ = s.storage_ ∧
            s1.committed_txns_ = s.committed_txns_ ∧
            s1.txn_results_ = s.txn_results_ ++ [txn] ∧
            (s1.heap txn).status_ = TxnStatus.ABORTED)) ∧
      ((s.heap txn).status_ ≠ TxnStatus.COMPLETED_C →
        (s.heap txn).status_ ≠ TxnStatus.COMPLETED_A →
        TxnProcessor.RunLockingScheduler_complete s = .error Failure.die)) := by
  constructor
  · intro s st txn rest now uninit Run hreq hst
    obtain ⟨e1, e2, e3, _, _, _, _⟩ := TxnProcessor.ExecuteTxn_sv
      { s with txn_requests_ := rest } st txn now uninit Run hst
    rw [TxnProcessor.RunSerialScheduler_step_cons s txn rest now uninit Run hreq]
    generalize TxnProcessor.ExecuteTxn { s with txn_requests_ := rest } txn now uninit Run = S
      at e1 e2 e3 ⊢
    have e1' : S.storage_ = s.storage_ := by rw [e1, hst]
    have e2' : S.committed_txns_ = s.committed_txns_ := e2
    have e3' : S.txn_results_ = s.txn_results_ := e3
    refine ⟨?_, ?_, ?_⟩
    · intro hc
      obtain ⟨c1, c2, c3, c4, c5, _⟩ := TxnProcessor.commitOrAbort_commit S txn hc
      refine ⟨(S.commit txn).publish txn, by rw [c1], ?_, ?_, ?_, c4⟩
      · show (S.commit txn).storage_ = _
        rw [c2, e1']
      · show (S.commit txn).committed_txns_ = _
        rw [c3, e2']
      · show (S.commit txn).txn_results_ ++ [txn] = _
        rw [c5, e3']
    · intro ha
      obtain ⟨c1, c2, c3, c4, c5, _⟩ := TxnProcessor.commitOrAbort_abort S txn ha
      refine ⟨(S.setStatus txn TxnStatus.ABORTED).publish txn, by rw [c1], ?_, ?_, ?_, c4⟩
      · show (S.setStatus txn TxnStatus.ABORTED).storage_ = _
        rw [c2, e1']
      · show (S.setStatus txn TxnStatus.ABORTED).committed_txns_ = _
        rw [c3, e2']
      · show (S.setStatus txn TxnStatus.ABORTED).txn_results_ ++ [txn] = _
        rw [c5, e3']
    · intro hc ha
      rw [TxnProcessor.commitOrAbort_die S txn hc ha]
  · intro s txn rest hcomp
    rw [TxnProcessor.RunLockingScheduler_complete_cons s txn rest hcomp]
    refine ⟨fun hold => ⟨?_, ?_⟩, ?_⟩
    · intro hc
      obtain ⟨c1, c2, c3, c4, c5, _, c7, _, c9, c10, _⟩ :=
        TxnProcessor.commitOrAbort_commit { s with completed_txns_ := rest } txn hc
      rw [c1]
      simp only
      generalize ({ s with completed_txns_ := rest } : TxnProcessor).commit txn = S
        at c2 c3 c4 c5 c7 c9 c10 ⊢
      obtain ⟨lm2, h2⟩ := TxnProcessor.release_phase S txn (by rw [c7, c9, c10]; exact hold)
      refine ⟨({ S with lm_ := lm2 } : TxnProcessor).publish txn, h2, c2, c3, ?_, c4⟩
      show S.txn_results_ ++ [txn] = _
      rw [c5]
    · intro ha
      obtain ⟨c1, c2, c3, c4, c5, c6, _, c8, c9, _⟩ :=
        TxnProcessor.commitOrAbort_abort { s with completed_txns_ := rest } txn ha
      rw [c1]
      simp only
      generalize ({ s with completed_txns_ := rest } : TxnProcessor).setStatus txn
        TxnStatus.ABORTED = S at c2 c3 c4 c5 c6 c8 c9 ⊢
      obtain ⟨lm2, h2⟩ := TxnProcessor.release_phase S txn (by rw [c6, c8, c9]; exact hold)
      refine ⟨({ S with lm_ := lm2 } : TxnProcessor).publish txn, h2, c2, c3, ?_, c4⟩
      show S.txn_results_ ++ [txn] = _
      rw [c5]
    · intro hc ha
      rw [TxnProcessor.commitOrAbort_die { s with completed_txns_ := rest } txn hc ha]

/-- C7, at concrete inputs: the serial step on `Scenario.s1Start` with a body
that commits the write 5 ↦ 100, and the completion step of the locking
scheduler (under `LockManagerB`) on a transaction that completed with
COMPLETED_A. -/
theorem C7_completion_outcomes_witness :
    (∃ s1, TxnProcessor.RunSerialScheduler_step Scenario.s1Start 10 7
        (Scenario.writeAndCommit [(5, 100)]) = .ok s1 ∧
      s1.committed_txns_ = [1] ∧ s1.txn_results_ = [1] ∧
      (s1.heap 1).status_ = TxnStatus.COMMITTED) ∧
    (∃ s1, TxnProcessor.RunLockingScheduler_complete
        (Scenario.lockingCompleted CCMode.LOCKING TxnStatus.COMPLETED_A) = .ok s1 ∧
      s1.committed_txns_ = [] ∧ s1.txn_results_ = [1] ∧
      (s1.heap 1).status_ = TxnStatus.ABORTED) := by
  constructor
  · obtain ⟨s1, h1, _, h3, h4, h5⟩ :=
      (C7_completion_outcomes.1 Scenario.s1Start (Storage.empty.Write 5 0 0) 1 [2] 10 7
        (Scenario.writeAndCommit [(5, 100)]) rfl rfl).1 (by decide)
    exact ⟨s1, h1, h3, h4, h5⟩
  · have hold : (Scenario.lockingCompleted CCMode.LOCKING TxnStatus.COMPLETED_A).lm_.HoldsRequests 1
        (((Scenario.lockingCompleted CCMode.LOCKING TxnStatus.COMPLETED_A).heap 1).readset_ ++
          ((Scenario.lockingCompleted CCMode.LOCKING TxnStatus.COMPLETED_A).heap 1).writeset_) := by
      intro k
      by_cases h3 : k = 3
      · subst h3; decide
      · by_cases h4 : k = 4
        · subst h4; decide
        · have hc : List.count k
              (((Scenario.lockingCompleted CCMode.LOCKING TxnStatus.COMPLETED_A).heap 1).readset_ ++
                ((Scenario.lockingCompleted CCMode.LOCKING TxnStatus.COMPLETED_A).heap 1).writeset_)
              = 0 := by
            apply List.count_eq_zero_of_not_mem
            show k ∉ [3, 4]
            simp [h3, h4]
          rw [hc]
          exact Nat.zero_le _
    obtain ⟨s1, h1, _, h3, h4, h5⟩ :=
      ((C7_completion_outcomes.2 (Scenario.lockingCompleted CCMode.LOCKING TxnStatus.COMPLETED_A)
        1 [] rfl).1 hold).2 (by decide)
    exact ⟨s1, h1, h3, h4, h5⟩

/-! ### `LockManagerB::Release` -/

theorem LockManagerB.decr_counter (lm : LockManager) (t : TxnPtr) :
    (LockManagerB.decr lm t).counter t = lm.counter t - 1 := by
  unfold LockManagerB.decr
  split_ifs with h
  · simp [LockManager.counter] at h ⊢
    omega
  · simp [LockManager.counter]

theorem LockManagerB.decr_waits_other (lm : LockManager) (t u : TxnPtr) (h : u ≠ t) :
    (LockManagerB.decr lm t).txn_waits_ u = lm.txn_waits_ u := by
  unfold LockManagerB.decr
  split_ifs <;> simp [Function.update_noteq h]

theorem LockManagerB.decr_ready (lm : LockManager) (t : TxnPtr) :
    (LockManagerB.decr lm t).ready_txns_ =
      lm.ready_txns_ ++ (if lm.counter t - 1 = 0 then [t] else []) := by
  unfold LockManagerB.decr
  split_ifs <;> simp

/-- The first loop of `LockManagerB::Release` on a queue in which the first
request of `txn` comes after the requests `pre`. -/
theorem LockManagerB.scan_split (txn : TxnPtr) (m : LockMode) (post : List LockRequest) :
    ∀ (pre : List LockRequest) (isA isB : Bool) (ct : Nat),
      (∀ r ∈ pre, r.txn_ ≠ txn) →
      LockManagerB.scan txn (pre ++ ⟨m, txn⟩ :: post) isA isB ct =
        ⟨some m,
          isA || pre.any (fun r => decide (r.mode_ = LockMode.EXCLUSIVE)),
          isB || pre.any (fun r => decide (r.mode_ = LockMode.SHARED)),
          ct + pre.length + 1, pre ++ post⟩ := by
  intro pre
  induction pre with
  | nil => intro isA isB ct _; simp [LockManagerB.scan]
  | cons r rest ih =>
    intro isA isB ct hno
    have hr : r.txn_ ≠ txn := hno r (List.mem_cons_self _ _)
    have hrest : ∀ r ∈ rest, r.txn_ ≠ txn := fun x hx => hno x (List.mem_cons_of_mem _ hx)
    simp only [List.cons_append, LockManagerB.scan, hr, if_false, List.append_eq]
    rw [ih _ _ _ hrest]
    cases hm : r.mode_ <;> cases isA <;> cases isB <;>
      simp [hm, Nat.add_assoc, Nat.add_comm 1]

/-- The second loop of `LockManagerB::Release` on a queue that is empty or
begins with a SHARED request (or once a SHARED request has been met): the
counters of the maximal leading run of SHARED requests are decremented in
queue order. -/
theorem LockManagerB.promote_run (q : List LockRequest) :
    ∀ (lm : LockManager) (ct1 : Nat),
      (0 < ct1 ∨ q = [] ∨ ∃ r rest, q = r :: rest ∧ r.mode_ = LockMode.SHARED) →
      LockManagerB.promote lm q ct1 =
        ((LockManagerB.sharedRun q).map (fun r => r.txn_)).foldl LockManagerB.decr lm := by
  induction q with
  | nil => intro lm ct1 _; rfl
  | cons r rest ih =>
    intro lm ct1 h
    by_cases hs : r.mode_ = LockMode.SHARED
    · have := ih (LockManagerB.decr lm r.txn_) (ct1 + 1) (Or.inl (Nat.succ_pos _))
      simp only [LockManagerB.sharedRun] at this ⊢
      simp [LockManagerB.promote, hs, this]
    · have hct : ct1 ≠ 0 := by
        rcases h with h | h | ⟨r1, rest1, h1, h2⟩
        · omega
        · cases h
        · simp only [List.cons.injEq] at h1
          rw [← h1.1] at h2
          exact absurd h2 hs
      simp [LockManagerB.promote, LockManagerB.sharedRun, hs, hct]

/-- Decrementing the counters of pairwise distinct transactions, in order:
each listed counter goes down by 1, no other entry of `txn_waits_` changes,
and the ready queue receives, in order, the transactions whose counter
reached 0. -/
theorem LockManagerB.decr_all (ts : List TxnPtr) :
    ∀ lm : LockManager, ts.Nodup →
      (∀ t ∈ ts, (ts.foldl LockManagerB.decr lm).counter t = lm.counter t - 1) ∧
      (∀ t, t ∉ ts → (ts.foldl LockManagerB.decr lm).txn_waits_ t = lm.txn_waits_ t) ∧
      (ts.foldl LockManagerB.decr lm).ready_txns_ =
        lm.ready_txns_ ++ ts.filter (fun t => decide (lm.counter t - 1 = 0)) ∧
      (ts.foldl LockManagerB.decr lm).lock_table_ = lm.lock_table_ := by
  induction ts with
  | nil => intro lm _; simp
  | cons t rest ih =>
    intro lm hnd
    rw [List.nodup_cons] at hnd
    obtain ⟨h1, h2, h3, h4⟩ := ih (LockManagerB.decr lm t) hnd.2
    have hother : ∀ u, u ∈ rest → (LockManagerB.decr lm t).counter u = lm.counter u := by
      intro u hu
      have hne : u ≠ t := fun h => hnd.1 (h ▸ hu)
      simp [LockManager.counter, LockManagerB.decr_waits_other lm t u hne]
    simp only [List.foldl_cons]
    refine ⟨?_, ?_, ?_, ?_⟩
    · intro u hu
      rcases List.mem_cons.mp hu with h | h
      · subst h
        have := h2 u hnd.1
        simp only [LockManager.counter] at this ⊢
        rw [this]
        exact LockManagerB.decr_counter lm u
      · rw [h1 u h, hother u h]
    · intro u hu
      rw [List.mem_cons, not_or] at hu
      rw [h2 u hu.2, LockManagerB.decr_waits_other lm t u hu.1]
    · rw [h3, LockManagerB.decr_ready, List.append_assoc]
      congr 1
      have hf : rest.filter (fun u => decide ((LockManagerB.decr lm t).counter u - 1 = 0)) =
          rest.filter (fun u => decide (lm.counter u - 1 = 0)) := by
        apply List.filter_congr
        intro u hu
        rw [hother u hu]
      rw [hf]
      by_cases hz : lm.counter t - 1 = 0
      · simp [List.filter_cons, hz]
      · simp [List.filter_cons, hz]
    · rw [h4, LockManagerB.decr_lock_table]

/-- `LockManagerB::Release` when the head of the queue of `key` is a request of
`txn`. -/
theorem LockManagerB.Release_head (lm : LockManager) (txn : TxnPtr) (key : Key)
    (m : LockMode) (rest : List LockRequest) (hq : lm.queue key = ⟨m, txn⟩ :: rest) :
    LockManagerB.Release lm txn key =
      some (if m = LockMode.EXCLUSIVE then
          LockManagerB.promote
            { lm with lock_table_ := Function.update lm.lock_table_ key (Slot.deque rest) } rest 0
        else if m = LockMode.SHARED then
          LockManagerB.wakeFront
            { lm with lock_table_ := Function.update lm.lock_table_ key (Slot.deque rest) } rest
        else { lm with lock_table_ := Function.update lm.lock_table_ key (Slot.deque rest) }) := by
  have hs : lm.lock_table_ key = Slot.deque (⟨m, txn⟩ :: rest) := by
    have := @LockManager.slot_of_queue_ne_nil lm key (by rw [hq]; simp)
    rw [this, hq]
  unfold LockManagerB.Release
  rw [hs]
  cases m <;> simp [LockManagerB.scan]

/-- C11 (the claim as stated fails). The queue of key 7 is
`[EXCLUSIVE 1, SHARED 2, SHARED 2]` and the pending counter of transaction 2
is 2. `Release(1, 7)` removes the EXCLUSIVE head; the remaining queue begins
with the SHARED run of transaction 2, whose counter goes down by 2 (to 0), not
by 1. -/
theorem C11_release_exclusive_counterexample :
    Scenario.twoReadsBehindWriter.map (fun lm => (lm.queue 7, lm.counter 2)) =
      some ([⟨LockMode.EXCLUSIVE, 1⟩, ⟨LockMode.SHARED, 2⟩, ⟨LockMode.SHARED, 2⟩], 2) ∧
    (Scenario.twoReadsBehindWriter.bind (fun lm => LockManagerB.Release lm 1 7)).map
      (fun lm => (lm.queue 7, lm.counter 2, lm.ready_txns_)) =
      some ([⟨LockMode.SHARED, 2⟩, ⟨LockMode.SHARED, 2⟩], 0, [2]) ∧
    ¬ ((Scenario.twoReadsBehindWriter.bind (fun lm => LockManagerB.Release lm 1 7)).map
        (fun lm => lm.counter 2) =
      Scenario.twoReadsBehindWriter.map (fun lm => lm.counter 2 - 1)) := by
  decide

/-- C11 (amended). `LockManagerB::Release(txn, key)` removes an EXCLUSIVE
request of `txn` at the head of the queue of `key` and keeps the rest in
order. If the remaining queue begins with SHARED requests and the
transactions of its maximal leading run of SHARED requests are pairwise
distinct, the counter of each of them goes down by 1, no other counter changes
and the ready queue receives exactly those of them whose counter reached 0, in
queue order. If the remaining queue begins with an EXCLUSIVE request, the
counter of that request's transaction goes down by 1, no other counter
changes, and that transaction is appended to the ready queue exactly when its
counter reached 0. -/
theorem C11_release_exclusive_head (lm : LockManager) (txn : TxnPtr) (key : Key)
    (rest : List LockRequest) (hq : lm.queue key = ⟨LockMode.EXCLUSIVE, txn⟩ :: rest)
    (hnd : ((LockManagerB.sharedRun rest).map (fun r => r.txn_)).Nodup) :
    ∃ lm1, LockManagerB.Release lm txn key = some lm1 ∧
      lm1.queue key = rest ∧
      ((∃ r rest1, rest = r :: rest1 ∧ r.mode_ = LockMode.SHARED) →
        (∀ t ∈ (LockManagerB.sharedRun rest).map (fun r => r.txn_),
          lm1.counter t = lm.counter t - 1) ∧
        (∀ t, t ∉ (LockManagerB.sharedRun rest).map (fun r => r.txn_) →
          lm1.txn_waits_ t = lm.txn_waits_ t) ∧
        lm1.ready_txns_ = lm.ready_txns_ ++
          ((LockManagerB.sharedRun rest).map (fun r => r.txn_)).filter
            (fun t => decide (lm.counter t - 1 = 0))) ∧
      (∀ r rest1, rest = r :: rest1 → r.mode_ = LockMode.EXCLUSIVE →
        lm1.counter r.txn_ = lm.counter r.txn_ - 1 ∧
        (∀ t, t ≠ r.txn_ → lm1.txn_waits_ t = lm.txn_waits_ t) ∧
        lm1.ready_txns_ =
          lm.ready_txns_ ++ (if lm.counter r.txn_ - 1 = 0 then [r.txn_] else [])) := by
  have hrel := LockManagerB.Release_head lm txn key LockMode.EXCLUSIVE rest hq
  simp only [if_true] at hrel
  refine ⟨_, hrel, ?_, ?_, ?_⟩
  · exact LockManager.queue_of_slot (by rw [LockManagerB.promote_lock_table]; simp)
  · intro hsh
    rw [LockManagerB.promote_run rest _ 0 (Or.inr (Or.inr hsh))]
    obtain ⟨h1, h2, h3, _⟩ := LockManagerB.decr_all
      ((LockManagerB.sharedRun rest).map (fun r => r.txn_))
      { lm with lock_table_ := Function.update lm.lock_table_ key (Slot.deque rest) } hnd
    exact ⟨h1, h2, h3⟩
  · intro r rest1 hr hm
    subst hr
    have hp : LockManagerB.promote
        { lm with lock_table_ := Function.update lm.lock_table_ key (Slot.deque (r :: rest1)) }
        (r :: rest1) 0 = LockManagerB.decr
        { lm with lock_table_ := Function.update lm.lock_table_ key (Slot.deque (r :: rest1)) }
        r.txn_ := by
      simp [LockManagerB.promote, hm]
    rw [hp]
    exact ⟨LockManagerB.decr_counter _ _, fun t ht => LockManagerB.decr_waits_other _ _ t ht,
      LockManagerB.decr_ready _ _⟩

/-- C11, at a concrete input: transaction 1 holds the write lock on key 7,
transaction 9 waits for it. -/
theorem C11_release_exclusive_head_witness :
    ∃ lm1, LockManagerB.Release (LockManagerB.WriteLock (Scenario.writeLocked 1 7) 9 7).2 1 7 =
        some lm1 ∧
      lm1.queue 7 = [⟨LockMode.EXCLUSIVE, 9⟩] ∧ lm1.counter 9 = 0 ∧ lm1.ready_txns_ = [9] := by
  obtain ⟨lm1, h1, h2, _, h4⟩ := C11_release_exclusive_head
    (LockManagerB.WriteLock (Scenario.writeLocked 1 7) 9 7).2 1 7 [⟨LockMode.EXCLUSIVE, 9⟩]
    (by decide) (by decide)
  obtain ⟨h5, _, h7⟩ := h4 ⟨LockMode.EXCLUSIVE, 9⟩ [] rfl rfl
  have hc : (LockManagerB.WriteLock (Scenario.writeLocked 1 7) 9 7).2.counter 9 = 1 := by decide
  refine ⟨lm1, h1, h2, ?_, ?_⟩
  · rw [h5, hc]; rfl
  · rw [h7, hc]; decide

/-- C12. `LockManagerB::Release(txn, key)` removes a SHARED request of `txn` at
the head of the queue of `key` and keeps the rest in order. If the head of the
remaining queue is EXCLUSIVE, the counter of that request's transaction goes
down by 1, no other counter changes, and that transaction is appended to the
ready queue exactly when its counter reached 0. If the remaining queue is
empty or its head is SHARED, no counter changes and the ready queue is
unchanged. -/
theorem C12_release_shared_head (lm : LockManager) (txn : TxnPtr) (key : Key)
    (rest : List LockRequest) (hq : lm.queue key = ⟨LockMode.SHARED, txn⟩ :: rest) :
    ∃ lm1, LockManagerB.Release lm txn key = some lm1 ∧
      lm1.queue key = rest ∧
      (∀ r rest1, rest = r :: rest1 → r.mode_ = LockMode.EXCLUSIVE →
        lm1.counter r.txn_ = lm.counter r.txn_ - 1 ∧
        (∀ t, t ≠ r.txn_ → lm1.txn_waits_ t = lm.txn_waits_ t) ∧
        lm1.ready_txns_ =
          lm.ready_txns_ ++ (if lm1.counter r.txn_ = 0 then [r.txn_] else [])) ∧
      ((rest = [] ∨ ∃ r rest1, rest = r :: rest1 ∧ r.mode_ = LockMode.SHARED) →
        lm1.txn_waits_ = lm.txn_waits_ ∧ lm1.ready_txns_ = lm.ready_txns_) := by
  have hrel := LockManagerB.Release_head lm txn key LockMode.SHARED rest hq
  simp only [if_true, reduceCtorEq, if_false] at hrel
  refine ⟨_, hrel, ?_, ?_, ?_⟩
  · exact LockManager.queue_of_slot (by rw [LockManagerB.wakeFront_lock_table]; simp)
  · intro r rest1 hr hm
    subst hr
    simp only [LockManagerB.wakeFront, hm, if_true]
    refine ⟨LockManagerB.decr_counter _ _, fun t ht => LockManagerB.decr_waits_other _ _ t ht, ?_⟩
    rw [LockManagerB.decr_ready, LockManagerB.decr_counter]
  · intro h
    rcases h with h | ⟨r, rest1, h, hm⟩
    · subst h; exact ⟨rfl, rfl⟩
    · subst h
      simp [LockManagerB.wakeFront, hm]

/-- C12, at a concrete input: transaction 1 holds a read lock on key 7 and
transaction 2 waits for the write lock. -/
theorem C12_release_shared_head_witness :
    ∃ lm1, LockManagerB.Release
        (LockManagerB.WriteLock (LockManagerB.ReadLock LockManager.empty 1 7).2 2 7).2 1 7 =
        some lm1 ∧
      lm1.queue 7 = [⟨LockMode.EXCLUSIVE, 2⟩] ∧ lm1.counter 2 = 0 ∧ lm1.ready_txns_ = [2] := by
  obtain ⟨lm1, h1, h2, h3, _⟩ := C12_release_shared_head
    (LockManagerB.WriteLock (LockManagerB.ReadLock LockManager.empty 1 7).2 2 7).2 1 7
    [⟨LockMode.EXCLUSIVE, 2⟩] (by decide)
  obtain ⟨h5, _, h7⟩ := h3 ⟨LockMode.EXCLUSIVE, 2⟩ [] rfl rfl
  have hc : (LockManagerB.WriteLock (LockManagerB.ReadLock LockManager.empty 1 7).2 2 7).2.counter
      2 = 1 := by decide
  have h8 : lm1.counter 2 = 0 := by rw [h5, hc]; rfl
  refine ⟨lm1, h1, h2, h8, ?_⟩
  rw [h7, h8]; decide

/-- C13 (the claim as stated fails). The queue of key 7 is
`[SHARED 1, EXCLUSIVE 2, SHARED 3]`; transactions 2 and 3 wait with pending
counter 1 each. `Release(2, 7)` removes the EXCLUSIVE request, which is not at
the head; the counter of transaction 3 goes from 1 to 0 and transaction 3 is
appended to the ready queue. -/
theorem C13_release_waiting_counterexample :
    Scenario.readerWriterReader.queue 7 =
      [⟨LockMode.SHARED, 1⟩, ⟨LockMode.EXCLUSIVE, 2⟩, ⟨LockMode.SHARED, 3⟩] ∧
    Scenario.readerWriterReader.counter 3 = 1 ∧
    Scenario.readerWriterReader.ready_txns_ = [] ∧
    (LockManagerB.Release Scenario.readerWriterReader 2 7).map
      (fun lm => (lm.queue 7, lm.counter 3, lm.ready_txns_)) =
      some ([⟨LockMode.SHARED, 1⟩, ⟨LockMode.SHARED, 3⟩], 0, [3]) := by
  decide

/-- C13 (amended). The first request of `txn` in the queue of `key` has mode `m`
and comes after the requests `pre` (not empty, all SHARED or EXCLUSIVE), so it
is not at the head. `LockManagerB::Release(txn, key)` erases that request and
keeps the other requests in order. When the removed request is SHARED, or
when it is EXCLUSIVE and an EXCLUSIVE request is ahead of it, no pending
counter changes and nothing is appended to the ready queue. -/
theorem C13_release_waiting (lm : LockManager) (txn : TxnPtr) (key : Key) (m : LockMode)
    (pre post : List LockRequest) (hq : lm.queue key = pre ++ ⟨m, txn⟩ :: post)
    (hpre : pre ≠ []) (hno : ∀ r ∈ pre, r.txn_ ≠ txn)
    (hwf : ∀ r ∈ pre, r.mode_ = LockMode.SHARED ∨ r.mode_ = LockMode.EXCLUSIVE)
    (hcase : m = LockMode.SHARED ∨
      (m = LockMode.EXCLUSIVE ∧ ∃ r ∈ pre, r.mode_ = LockMode.EXCLUSIVE)) :
    ∃ lm1, LockManagerB.Release lm txn key = some lm1 ∧
      lm1.queue key = pre ++ post ∧
      (∀ k, k ≠ key → lm1.lock_table_ k = lm.lock_table_ k) ∧
      lm1.txn_waits_ = lm.txn_waits_ ∧
      lm1.ready_txns_ = lm.ready_txns_ := by
  have hs : lm.lock_table_ key = Slot.deque (pre ++ ⟨m, txn⟩ :: post) := by
    have := @LockManager.slot_of_queue_ne_nil lm key (by rw [hq]; simp)
    rw [this, hq]
  have hsc := LockManagerB.scan_split txn m post pre false false 0 hno
  have hany : (pre.any (fun r => decide (r.mode_ = LockMode.EXCLUSIVE)) = true) ∨
      (pre.any (fun r => decide (r.mode_ = LockMode.SHARED)) = true) := by
    cases pre with
    | nil => exact absurd rfl hpre
    | cons r rest =>
      rcases hwf r (List.mem_cons_self _ _) with h | h
      · right; simp [h]
      · left; simp [h]
  refine ⟨{ lm with lock_table_ := Function.update lm.lock_table_ key (Slot.deque (pre ++ post)) },
    ?_, ?_, ?_, rfl, rfl⟩
  · unfold LockManagerB.Release
    rw [hs]
    simp only [hsc, Bool.false_or]
    rcases hcase with hm | ⟨hm, r, hr, hrm⟩
    · subst hm
      rcases hany with h | h
      · simp [h]
      · simp [h]
    · subst hm
      have hA : pre.any (fun r => decide (r.mode_ = LockMode.EXCLUSIVE)) = true := by
        rw [List.any_eq_true]
        exact ⟨r, hr, by simp [hrm]⟩
      simp [hA]
  · exact LockManager.queue_of_slot (by simp)
  · intro k hk
    simp [Function.update_noteq hk]

/-- C13, at a concrete input: transaction 3 withdraws its waiting SHARED request
from the queue `[SHARED 1, EXCLUSIVE 2, SHARED 3]` of key 7. -/
theorem C13_release_waiting_witness :
    ∃ lm1, LockManagerB.Release Scenario.readerWriterReader 3 7 = some lm1 ∧
      lm1.queue 7 = [⟨LockMode.SHARED, 1⟩, ⟨LockMode.EXCLUSIVE, 2⟩] ∧
      lm1.txn_waits_ = Scenario.readerWriterReader.txn_waits_ ∧
      lm1.ready_txns_ = [] := by
  obtain ⟨lm1, h1, h2, _, h4, h5⟩ := C13_release_waiting Scenario.readerWriterReader 3 7
    LockMode.SHARED [⟨LockMode.SHARED, 1⟩, ⟨LockMode.EXCLUSIVE, 2⟩] [] (by decide) (by decide)
    (by decide) (by decide) (Or.inl rfl)
  exact ⟨lm1, h1, h2, h4, h5⟩

/-! ### Shared owners -/

/-- `ReadLock` calls on a queue that holds SHARED requests only: every call is
granted, the requests are appended in call order and no counter changes. -/
theorem LockManagerB.readLockAll_shared (key : Key) (ts : List TxnPtr) :
    ∀ lm : LockManager, (∀ r ∈ lm.queue key, r.mode_ = LockMode.SHARED) →
      (LockManagerB.readLockAll key ts lm).1 = ts.map (fun _ => true) ∧
      (LockManagerB.readLockAll key ts lm).2.txn_waits_ = lm.txn_waits_ ∧
      (LockManagerB.readLockAll key ts lm).2.ready_txns_ = lm.ready_txns_ ∧
      (LockManagerB.readLockAll key ts lm).2.queue key =
        lm.queue key ++ ts.map (fun t => ⟨LockMode.SHARED, t⟩) := by
  induction ts with
  | nil => intro lm _; simp [LockManagerB.readLockAll]
  | cons t rest ih =>
    intro lm hsh
    have hq := LockManager.queue_enqueue lm key ⟨LockMode.SHARED, t⟩
    have hall : ∀ r ∈ (lm.enqueue key ⟨LockMode.SHARED, t⟩).queue key,
        r.mode_ = LockMode.SHARED := by
      intro r hr
      rw [hq, List.mem_append, List.mem_singleton] at hr
      rcases hr with h | h
      · exact hsh r h
      · rw [h]
    have hgrant : LockManagerB.ReadLock lm t key = (true, lm.enqueue key ⟨LockMode.SHARED, t⟩) := by
      unfold LockManagerB.ReadLock
      simp only
      split_ifs with h1 h2
      · rfl
      · exfalso
        rw [List.any_eq_true] at h2
        obtain ⟨r, hr, hm⟩ := h2
        have := hall r (List.mem_of_mem_tail hr)
        simp [this] at hm
      · rfl
    obtain ⟨h1, h2, h3, h4⟩ := ih (lm.enqueue key ⟨LockMode.SHARED, t⟩) hall
    simp only [LockManagerB.readLockAll, hgrant, List.map_cons]
    refine ⟨by rw [h1], ?_, ?_, ?_⟩
    · rw [h2, LockManager.enqueue_waits]
    · rw [h3, LockManager.enqueue_ready]
    · rw [h4, hq, List.append_assoc]; rfl

theorem LockManagerB.sharedOwners_map (ts : List TxnPtr) :
    LockManagerB.sharedOwners (ts.map (fun t => ⟨LockMode.SHARED, t⟩)) = ts := by
  induction ts with
  | nil => rfl
  | cons t rest ih => simp [LockManagerB.sharedOwners, ih]

/-- C14. Under `LockManagerB`, when the transactions `ts` (at least one) call
`ReadLock` one after the other on a key whose queue is empty, every call
returns true, no pending counter changes, and `Status(key, owners)` then
returns SHARED with `owners` equal to `ts` in request order, whatever `owners`
contained before the call. -/
theorem C14_readers_coexist (lm : LockManager) (key : Key) (ts : List TxnPtr)
    (owners : List TxnPtr) (hq : lm.queue key = []) (hne : ts ≠ []) :
    (LockManagerB.readLockAll key ts lm).1 = ts.map (fun _ => true) ∧
    (LockManagerB.readLockAll key ts lm).2.txn_waits_ = lm.txn_waits_ ∧
    LockManagerB.Status (LockManagerB.readLockAll key ts lm).2 key owners =
      some (LockMode.SHARED, ts) := by
  obtain ⟨h1, h2, _, h4⟩ := LockManagerB.readLockAll_shared key ts lm (by rw [hq]; simp)
  refine ⟨h1, h2, ?_⟩
  rw [hq, List.nil_append] at h4
  have hs := @LockManager.slot_of_queue_ne_nil (LockManagerB.readLockAll key ts lm).2 key
    (by rw [h4]; simpa using hne)
  rw [h4] at hs
  unfold LockManagerB.Status
  rw [hs]
  cases ts with
  | nil => exact absurd rfl hne
  | cons t rest =>
    have := LockManagerB.sharedOwners_map (t :: rest)
    simp only [List.map_cons] at this ⊢
    simp [this]

/-- C14, at a concrete input (scenario S2): transactions 1 and 2 request a read
lock on key 42 of the empty manager. -/
theorem C14_readers_coexist_witness :
    (LockManagerB.readLockAll 42 [1, 2] LockManager.empty).1 = [true, true] ∧
    LockManagerB.Status (LockManagerB.readLockAll 42 [1, 2] LockManager.empty).2 42 [5, 6] =
      some (LockMode.SHARED, [1, 2]) :=
  have h := C14_readers_coexist LockManager.empty 42 [1, 2] [5, 6] rfl (by decide)
  ⟨h.1, h.2.2⟩

/-! ### Multi-version storage -/

/-- C15. `MVCCStorage::CheckWrite(key, writer_id)` returns true if and only if
`key` has no version chain, or an empty one, or the head version's
`max_read_id_` is at most `writer_id`. The function reads the storage only
(`mvcc_data_[key]` is evaluated only for a key that `count` found) and
returns a flag: the storage is not modified. -/
theorem C15_check_write (s : MVCCStorage) (key : Key) (writer_id : Int) :
    s.CheckWrite key writer_id = true ↔
      (s.mvcc_data_ key = none ∨ s.mvcc_data_ key = some [] ∨
        ∃ v rest, s.mvcc_data_ key = some (v :: rest) ∧ v.max_read_id_ ≤ writer_id) := by
  unfold MVCCStorage.CheckWrite
  cases h : s.mvcc_data_ key with
  | none => simp
  | some chain =>
    cases chain with
    | nil => simp
    | cons v rest =>
      by_cases hv : v.max_read_id_ > writer_id
      · simp [hv]
      · simp [hv, not_lt.mp hv]

/-- C16. After `MVCCStorage::Write(key, value, id)` the version chain of `key` is
the new version `⟨value, max_read_id_ = id, version_id_ = id⟩` followed by the
previous chain of `key` unchanged (empty if `key` had none), so the chain is
longer by one; the chains of all other keys are unchanged. -/
theorem C16_write_prepends (s : MVCCStorage) (key : Key) (value : Value) (id : Int) :
    (s.Write key value id).mvcc_data_ key =
      some ({ value_ := value, max_read_id_ := id, version_id_ := id } :: s.chain key) ∧
    ((s.Write key value id).chain key).length = (s.chain key).length + 1 ∧
    ∀ k, k ≠ key → (s.Write key value id).mvcc_data_ k = s.mvcc_data_ k := by
  refine ⟨?_, ?_, ?_⟩
  · simp [MVCCStorage.Write, MVCCStorage.chain]
  · simp [MVCCStorage.Write, MVCCStorage.chain]
  · intro k hk
    simp [MVCCStorage.Write, Function.update_noteq hk]

/-- C18 (the code departs from the claim). After `Write(1, 0, 0)` and
`Write(1, 10, 5)` the chain of key 1 is `[⟨10, 5, 5⟩, ⟨0, 0, 0⟩]`. The reader
id 5 is at least every `version_id_` and every `max_read_id_` of the chain,
yet `Read(1, &result, 5)` returns true with `result = 0`, the value of the
oldest version, not the head's 10. With the largest `int` as reader id the
first `Read` yields 10 and marks the head; a second `Read` with the same
reader id yields 0. -/
theorem C18_read_at_maximum_returns_oldest :
    Scenario.storageAfterTwoWrites.chain 1 = [⟨10, 5, 5⟩, ⟨0, 0, 0⟩] ∧
    (∀ v ∈ Scenario.storageAfterTwoWrites.chain 1, v.version_id_ ≤ 5 ∧ v.max_read_id_ ≤ 5) ∧
    (Scenario.storageAfterTwoWrites.Read 1 77 5).1 = true ∧
    (Scenario.storageAfterTwoWrites.Read 1 77 5).2.1 = 0 ∧
    (Scenario.storageAfterTwoWrites.Read 1 77 2147483647).2.1 = 10 ∧
    Scenario.afterMaxIntRead.chain 1 = [⟨10, 2147483647, 5⟩, ⟨0, 0, 0⟩] ∧
    (∀ v ∈ Scenario.afterMaxIntRead.chain 1,
      v.version_id_ ≤ 2147483647 ∧ v.max_read_id_ ≤ 2147483647) ∧
    (Scenario.afterMaxIntRead.Read 1 77 2147483647).1 = true ∧
    (Scenario.afterMaxIntRead.Read 1 77 2147483647).2.1 = 0 := by
  decide

/-- The state the loop of `InitStorage` produces: one version `⟨0, 0, 0⟩` for
every key below the bound, no entry for the others. -/
theorem MVCCStorage.initLoop_data (n : Nat) :
    ∀ k : Key, (MVCCStorage.initLoop n MVCCStorage.empty).mvcc_data_ k =
      if k < n then some [⟨0, 0, 0⟩] else none := by
  induction n with
  | zero => intro k; simp [MVCCStorage.initLoop, MVCCStorage.empty]
  | succ n ih =>
    intro k
    simp only [MVCCStorage.initLoop, MVCCStorage.Write]
    by_cases hk : k = n
    · subst hk
      have hn : (MVCCStorage.initLoop k MVCCStorage.empty).mvcc_data_ k = none := by
        rw [ih k]; simp
      simp [hn]
    · rw [Function.update_noteq hk, ih k]
      by_cases hlt : k < n
      · have : k < n + 1 := Nat.lt_succ_of_lt hlt
        simp [hlt, this]
      · have : ¬ k < n + 1 := fun h =>
          (Nat.lt_succ_iff_lt_or_eq.mp h).elim hlt hk
        simp [hlt, this]

theorem MVCCStorage.InitStorage_data (k : Key) :
    MVCCStorage.InitStorage.mvcc_data_ k = if k < 1000000 then some [⟨0, 0, 0⟩] else none := by
  unfold MVCCStorage.InitStorage
  exact MVCCStorage.initLoop_data 1000000 k

/-- The chain of key 1 after `InitStorage`. -/
theorem MVCCStorage.InitStorage_key_one :
    MVCCStorage.InitStorage.mvcc_data_ 1 = some [⟨0, 0, 0⟩] := by
  rw [MVCCStorage.InitStorage_data]
  exact if_pos (by decide)

/-- A write on a key whose chain is the single version `⟨0, 0, 0⟩`: the write
check passes for every id from 0 on and the new version is put in front. -/
theorem MVCCStorage.write_on_initial (s : MVCCStorage) (key : Key) (value : Value) (id : Int)
    (hd : s.mvcc_data_ key = some [⟨0, 0, 0⟩]) (hid : 0 ≤ id) :
    s.CheckWrite key id = true ∧
    (s.Write key value id).mvcc_data_ key =
      some [{ value_ := value, max_read_id_ := id, version_id_ := id }, ⟨0, 0, 0⟩] := by
  constructor
  · unfold MVCCStorage.CheckWrite
    rw [hd]
    have : ¬ (0 : Int) > id := not_lt.mpr hid
    simp [this]
  · unfold MVCCStorage.Write
    rw [hd]
    simp

theorem MVCCStorage.wellFormed_init : MVCCStorage.InitStorage.WellFormed := by
  intro key chain h
  rw [MVCCStorage.InitStorage_data] at h
  by_cases hlt : key < 1000000
  · rw [if_pos hlt] at h
    simp only [Option.some.injEq] at h
    subst h
    simp [MVCCStorage.chainWeaklySorted]
  · rw [if_neg hlt] at h
    cases h

/-- What `MVCCStorage::Read` does to the storage: nothing, or the head of the
chain of `key` gets the reader's id as read mark, which is then larger than
the old one. -/
theorem MVCCStorage.Read_storage (s : MVCCStorage) (key : Key) (result : Value) (id : Int) :
    (s.Read key result id).2.2 = s ∨
    ∃ v rest, s.mvcc_data_ key = some (v :: rest) ∧ id > v.max_read_id_ ∧
      (s.Read key result id).2.2 =
        ⟨Function.update s.mvcc_data_ key (some ({ v with max_read_id_ := id } :: rest))⟩ := by
  unfold MVCCStorage.Read
  cases h : s.mvcc_data_ key with
  | none => left; rfl
  | some chain =>
    cases chain with
    | nil => left; rfl
    | cons v rest =>
      by_cases hv : id > v.max_read_id_
      · right; exact ⟨v, rest, rfl, hv, by simp [hv]⟩
      · left; simp [hv]

theorem MVCCStorage.wellFormed_read (s : MVCCStorage) (key : Key) (result : Value) (id : Int)
    (h : s.WellFormed) : (s.Read key result id).2.2.WellFormed := by
  rcases MVCCStorage.Read_storage s key result id with h1 | ⟨v, rest, hd, hv, h1⟩
  · rw [h1]; exact h
  · rw [h1]
    intro k chain hk
    by_cases hkk : k = key
    · subst hkk
      simp only [Function.update_same, Option.some.injEq] at hk
      subst hk
      obtain ⟨_, hsorted, hmarks⟩ := h k (v :: rest) hd
      refine ⟨by simp, ?_, ?_⟩
      · unfold MVCCStorage.chainWeaklySorted at hsorted ⊢
        rw [List.pairwise_cons] at hsorted ⊢
        exact hsorted
      · intro u hu
        rcases List.mem_cons.mp hu with hu | hu
        · subst hu
          have := hmarks v (List.mem_cons_self _ _)
          simp only
          omega
        · exact hmarks u (List.mem_cons_of_mem _ hu)
    · simp only [Function.update_noteq hkk] at hk
      exact h k chain hk

/-- A guarded write keeps the chain of its key non-increasing in write
timestamp, provided the old head's read mark is not below its write
timestamp; it keeps it strictly decreasing when the id differs from the old
head's write timestamp. -/
theorem MVCCStorage.write_keeps_order (s : MVCCStorage) (key : Key) (value : Value)
    (id : Int) (v : Version) (rest : List Version)
    (hd : s.mvcc_data_ key = some (v :: rest))
    (hmark : v.version_id_ ≤ v.max_read_id_) (hcw : s.CheckWrite key id = true) :
    (s.Write key value id).mvcc_data_ key =
      some ({ value_ := value, max_read_id_ := id, version_id_ := id } :: v :: rest) ∧
    (MVCCStorage.chainWeaklySorted (v :: rest) →
      MVCCStorage.chainWeaklySorted
        ({ value_ := value, max_read_id_ := id, version_id_ := id } :: v :: rest)) ∧
    (MVCCStorage.chainSorted (v :: rest) → id ≠ v.version_id_ →
      MVCCStorage.chainSorted
        ({ value_ := value, max_read_id_ := id, version_id_ := id } :: v :: rest)) := by
  have hle : v.max_read_id_ ≤ id := by
    unfold MVCCStorage.CheckWrite at hcw
    rw [hd] at hcw
    by_cases hv : v.max_read_id_ > id
    · simp [hv] at hcw
    · exact not_lt.mp hv
  refine ⟨by simp [MVCCStorage.Write, hd], ?_, ?_⟩
  · intro hs
    unfold MVCCStorage.chainWeaklySorted at hs ⊢
    rw [List.pairwise_cons] at hs ⊢
    refine ⟨?_, List.pairwise_cons.mpr hs⟩
    intro b hb
    rcases List.mem_cons.mp hb with hb | hb
    · subst hb; simp only; omega
    · have := hs.1 b hb
      simp only at this ⊢
      omega
  · intro hs hne
    unfold MVCCStorage.chainSorted at hs ⊢
    rw [List.pairwise_cons] at hs ⊢
    refine ⟨?_, List.pairwise_cons.mpr hs⟩
    intro b hb
    rcases List.mem_cons.mp hb with hb | hb
    · subst hb; simp only; omega
    · have := hs.1 b hb
      simp only at this ⊢
      omega

theorem MVCCStorage.wellFormed_write (s : MVCCStorage) (key : Key) (value : Value) (id : Int)
    (h : s.WellFormed) (hcw : s.CheckWrite key id = true) :
    (s.Write key value id).WellFormed := by
  intro k chain hk
  by_cases hkk : k = key
  · subst hkk
    cases hd : s.mvcc_data_ k with
    | none =>
      simp [MVCCStorage.Write, hd] at hk
      subst hk
      simp [MVCCStorage.chainWeaklySorted]
    | some old =>
      cases old with
      | nil => exact absurd rfl (h k [] hd).1
      | cons v rest =>
        obtain ⟨_, hsorted, hmarks⟩ := h k (v :: rest) hd
        obtain ⟨e1, e2, _⟩ := MVCCStorage.write_keeps_order s k value id v rest hd
          (hmarks v (List.mem_cons_self _ _)) hcw
        rw [e1] at hk
        simp only [Option.some.injEq] at hk
        subst hk
        refine ⟨by simp, e2 hsorted, ?_⟩
        intro u hu
        rcases List.mem_cons.mp hu with hu | hu
        · subst hu; simp
        · exact hmarks u hu
  · simp only [MVCCStorage.Write, Function.update_noteq hkk] at hk
    exact h k chain hk

/-- Every storage state reached from `InitStorage` by reads and guarded writes
is well formed. -/
theorem MVCCStorage.wellFormed_of_reachable (s : MVCCStorage) (h : MVCCStorage.Reachable s) :
    s.WellFormed := by
  induction h with
  | init => exact MVCCStorage.wellFormed_init
  | read s key result id _ ih => exact MVCCStorage.wellFormed_read s key result id ih
  | write s key value id _ hcw ih => exact MVCCStorage.wellFormed_write s key value id ih hcw

/-- C19 (the claim as stated fails). After `InitStorage` the chain of key 1 is
`[⟨0, 0, 0⟩]`, non-empty and strictly decreasing, and `CheckWrite(1, 0)`
returns true. After `Write(1, 5, 0)` the chain is `[⟨5, 0, 0⟩, ⟨0, 0, 0⟩]`, in
a state reached from `InitStorage` by a guarded write: two versions carry the
write timestamp 0, the chain is not strictly decreasing. -/
theorem C19_equal_timestamp_counterexample :
    MVCCStorage.InitStorage.mvcc_data_ 1 = some [⟨0, 0, 0⟩] ∧
    MVCCStorage.chainSorted [⟨0, 0, 0⟩] ∧
    MVCCStorage.InitStorage.CheckWrite 1 0 = true ∧
    MVCCStorage.Reachable (MVCCStorage.InitStorage.Write 1 5 0) ∧
    (MVCCStorage.InitStorage.Write 1 5 0).mvcc_data_ 1 = some [⟨5, 0, 0⟩, ⟨0, 0, 0⟩] ∧
    ¬ MVCCStorage.chainSorted [⟨5, 0, 0⟩, ⟨0, 0, 0⟩] :=
  have h := MVCCStorage.write_on_initial MVCCStorage.InitStorage 1 5 0
    MVCCStorage.InitStorage_key_one (le_refl 0)
  ⟨MVCCStorage.InitStorage_key_one, by simp [MVCCStorage.chainSorted], h.1,
    MVCCStorage.Reachable.write _ 1 5 0 MVCCStorage.Reachable.init h.1, h.2,
    by simp [MVCCStorage.chainSorted]⟩

/-- C19 (amended). If the version chain of `key` is non-empty with `version_id_`
non-increasing from head to tail, its head has `version_id_ ≤ max_read_id_`
and `CheckWrite(key, id)` returns true, then after
`MVCCStorage::Write(key, value, id)` the chain of `key` is the new version
followed by the old chain, still non-empty with `version_id_` non-increasing;
it is strictly decreasing if the old chain was and `id` differs from the old
head's `version_id_`. Starting from `InitStorage`, in every state reached by
`Read` and by `Write` calls guarded by `CheckWrite`, every chain is non-empty
with `version_id_` non-increasing from head to tail, and every version has
`version_id_ ≤ max_read_id_`. -/
theorem C19_chain_order_invariant :
    (∀ (s : MVCCStorage) (key : Key) (value : Value) (id : Int) (v : Version)
      (rest : List Version),
      s.mvcc_data_ key = some (v :: rest) → v.version_id_ ≤ v.max_read_id_ →
      s.CheckWrite key id = true →
      (s.Write key value id).mvcc_data_ key =
        some ({ value_ := value, max_read_id_ := id, version_id_ := id } :: v :: rest) ∧
      (MVCCStorage.chainWeaklySorted (v :: rest) →
        MVCCStorage.chainWeaklySorted
          ({ value_ := value, max_read_id_ := id, version_id_ := id } :: v :: rest)) ∧
      (MVCCStorage.chainSorted (v :: rest) → id ≠ v.version_id_ →
        MVCCStorage.chainSorted
          ({ value_ := value, max_read_id_ := id, version_id_ := id } :: v :: rest))) ∧
    (∀ s : MVCCStorage, MVCCStorage.Reachable s →
      ∀ key chain, s.mvcc_data_ key = some chain →
        chain ≠ [] ∧ MVCCStorage.chainWeaklySorted chain ∧
        ∀ v ∈ chain, v.version_id_ ≤ v.max_read_id_) :=
  ⟨fun s key value id v rest hd hmark hcw =>
      MVCCStorage.write_keeps_order s key value id v rest hd hmark hcw,
    fun s hs => MVCCStorage.wellFormed_of_reachable s hs⟩

/-- C19, at a concrete input: after `InitStorage`, the guarded `Write(1, 5, 3)`
gives the chain `[⟨5, 3, 3⟩, ⟨0, 0, 0⟩]` of key 1, strictly decreasing. -/
theorem C19_chain_order_invariant_witness :
    (MVCCStorage.InitStorage.Write 1 5 3).mvcc_data_ 1 = some [⟨5, 3, 3⟩, ⟨0, 0, 0⟩] ∧
    MVCCStorage.chainSorted [⟨5, 3, 3⟩, ⟨0, 0, 0⟩] :=
  have hw := MVCCStorage.write_on_initial MVCCStorage.InitStorage 1 5 3
    MVCCStorage.InitStorage_key_one (by decide)
  have h := C19_chain_order_invariant.1 MVCCStorage.InitStorage 1 5 3 ⟨0, 0, 0⟩ []
    MVCCStorage.InitStorage_key_one (by decide) hw.1
  ⟨h.1, h.2.2 (by simp [MVCCStorage.chainSorted]) (by decide)⟩

/-! ### MVCC timestamp ordering: a late writer -/

theorem MVCCStorage.checkWrite_false_iff (s : MVCCStorage) (key : Key) (w : Int) :
    s.CheckWrite key w = false ↔
      ∃ v rest, s.mvcc_data_ key = some (v :: rest) ∧ w < v.max_read_id_ := by
  unfold MVCCStorage.CheckWrite
  cases h : s.mvcc_data_ key with
  | none => simp
  | some chain =>
    cases chain with
    | nil => simp
    | cons v rest =>
      by_cases hv : v.max_read_id_ > w
      · simp [hv]
      · simp [hv, not_lt.mp hv]

/-- After a read of `key` by reader `r`, a write check on `key` with a smaller
id fails. -/
theorem MVCCStorage.checkWrite_after_read (s : MVCCStorage) (key : Key) (r0 : Value)
    (r w : Int) (hne : s.chain key ≠ []) (hlt : w < r) :
    (s.Read key r0 r).2.2.CheckWrite key w = false := by
  rw [MVCCStorage.checkWrite_false_iff]
  cases hd : s.mvcc_data_ key with
  | none => simp [MVCCStorage.chain, hd] at hne
  | some chain =>
    cases chain with
    | nil => simp [MVCCStorage.chain, hd] at hne
    | cons v rest =>
      by_cases hv : r > v.max_read_id_
      · exact ⟨{ v with max_read_id_ := r }, rest, by simp [MVCCStorage.Read, hd, hv], hlt⟩
      · exact ⟨v, rest, by simp [MVCCStorage.Read, hd, hv], by omega⟩

/-- A failing write check keeps failing after any read. -/
theorem MVCCStorage.checkWrite_false_read (s : MVCCStorage) (key k : Key) (w : Int)
    (r0 : Value) (id : Int) (h : s.CheckWrite key w = false) :
    (s.Read k r0 id).2.2.CheckWrite key w = false := by
  rcases MVCCStorage.Read_storage s k r0 id with h1 | ⟨v, rest, hd, hv, h1⟩
  · rw [h1]; exact h
  · rw [h1, MVCCStorage.checkWrite_false_iff]
    rw [MVCCStorage.checkWrite_false_iff] at h
    obtain ⟨u, urest, hu, hw⟩ := h
    by_cases hk : key = k
    · subst hk
      rw [hd] at hu
      simp only [Option.some.injEq, List.cons.injEq] at hu
      obtain ⟨rfl, rfl⟩ := hu
      exact ⟨{ v with max_read_id_ := id }, rest, by simp, by simp only; omega⟩
    · exact ⟨u, urest, by simpa [Function.update_noteq hk] using hu, hw⟩

/-- A failing write check keeps failing after any guarded write. -/
theorem MVCCStorage.checkWrite_false_write (s : MVCCStorage) (key k : Key) (w : Int)
    (value : Value) (id : Int) (h : s.CheckWrite key w = false)
    (hcw : s.CheckWrite k id = true) :
    (s.Write k value id).CheckWrite key w = false := by
  rw [MVCCStorage.checkWrite_false_iff] at h ⊢
  obtain ⟨u, urest, hu, hw⟩ := h
  by_cases hk : key = k
  · subst hk
    have hle : u.max_read_id_ ≤ id := by
      unfold MVCCStorage.CheckWrite at hcw
      rw [hu] at hcw
      by_cases hv : u.max_read_id_ > id
      · simp [hv] at hcw
      · exact not_lt.mp hv
    exact ⟨{ value_ := value, max_read_id_ := id, version_id_ := id }, u :: urest,
      by simp [MVCCStorage.Write, hu], lt_of_lt_of_le hw hle⟩
  · exact ⟨u, urest, by simpa [MVCCStorage.Write, Function.update_noteq hk] using hu, hw⟩

/-- A read adds no version and changes no value or write timestamp. -/
theorem MVCCStorage.versions_read (s : MVCCStorage) (k key : Key) (r0 : Value) (id : Int) :
    (s.Read k r0 id).2.2.versions key = s.versions key := by
  rcases MVCCStorage.Read_storage s k r0 id with h1 | ⟨v, rest, hd, _, h1⟩
  · rw [h1]
  · rw [h1]
    by_cases hk : key = k
    · subst hk
      simp [MVCCStorage.versions, MVCCStorage.chain, hd]
    · simp [MVCCStorage.versions, MVCCStorage.chain, Function.update_noteq hk]

/-- A read loop adds no version, and a write check that failed before it fails
after it. -/
theorem TxnProcessor.readKeys_mvcc (uninit : Value) (id : Int) (key : Key) (w : Int)
    (keys : List Key) :
    ∀ (st : StorageImpl) (reads : Key → Option Value),
      (∀ k, (TxnProcessor.readKeys uninit id keys st reads).1.versions k = st.versions k) ∧
      (st.CheckWrite key w = false →
        (TxnProcessor.readKeys uninit id keys st reads).1.CheckWrite key w = false) := by
  induction keys with
  | nil => intro st reads; exact ⟨fun _ => rfl, fun h => h⟩
  | cons k rest ih =>
    intro st reads
    simp only [TxnProcessor.readKeys]
    obtain ⟨h1, h2⟩ := ih (st.Read k uninit id).2.2
      (if (st.Read k uninit id).1 then Function.update reads k (some (st.Read k uninit id).2.1)
        else reads)
    have hstep : (∀ k1, (st.Read k uninit id).2.2.versions k1 = st.versions k1) ∧
        (st.CheckWrite key w = false → (st.Read k uninit id).2.2.CheckWrite key w = false) := by
      cases st with
      | sv s => exact ⟨fun _ => rfl, fun h => h⟩
      | mv m =>
        exact ⟨fun k1 => MVCCStorage.versions_read m k k1 uninit id,
          fun h => MVCCStorage.checkWrite_false_read m key k w uninit id h⟩
    exact ⟨fun k1 => (h1 k1).trans (hstep.1 k1), fun h => h2 (hstep.2 h)⟩

/-- The loop of `MVCCCheckWrites` ends with false as soon as the check of one
key of the write set fails. -/
theorem TxnProcessor.checkWritesLoop_false (st : StorageImpl) (id : Int) (key : Key)
    (hf : st.CheckWrite key id = false) (keys : List Key) :
    ∀ isvalid : Bool, key ∈ keys → TxnProcessor.checkWritesLoop st id keys isvalid = false := by
  have hfalse : ∀ ks : List Key, TxnProcessor.checkWritesLoop st id ks false = false := by
    intro ks; cases ks <;> simp [TxnProcessor.checkWritesLoop]
  induction keys with
  | nil => intro _ h; simp at h
  | cons k rest ih =>
    intro isvalid hmem
    cases isvalid with
    | false => exact hfalse _
    | true =>
      simp only [TxnProcessor.checkWritesLoop, if_true]
      rcases List.mem_cons.mp hmem with h | h
      · subst h; rw [hf]; exact hfalse _
      · exact ih _ h

/-- C17. For every key with a non-empty version chain and all ids `w < r`:
after `MVCCStorage::Read(key, &result, r)`, `CheckWrite(key, w)` returns
false, and it keeps returning false after any further `Read` and any further
`Write` guarded by `CheckWrite`. In a state in which `CheckWrite(key, w)`
returns false, the validation of `MVCCMVTOExecuteTxn` (what follows the body)
takes the re-admission branch for a transaction that has id `w` and `key` in
its write set, leaving the storage as it is; and the whole of
`MVCCMVTOExecuteTxn`, started in such a state, does not commit a transaction
that has id `w` and `key` in its write set when its write checks run: no
version is added to any chain, nothing is published or appended to the
committed history, and the transaction is re-admitted (reads and writes
cleared, status INCOMPLETE, the fresh id `next_unique_id_`, pushed on the
request queue; `next_unique_id_` is incremented, which adds 1 below
`2^31 - 1`). -/
theorem C17_late_writer_is_readmitted :
    (∀ (m : MVCCStorage) (key : Key) (r0 : Value) (r w : Int),
      m.chain key ≠ [] → w < r → (m.Read key r0 r).2.2.CheckWrite key w = false) ∧
    (∀ (m : MVCCStorage) (key : Key) (w : Int), m.CheckWrite key w = false →
      (∀ k r0 id, (m.Read k r0 id).2.2.CheckWrite key w = false) ∧
      (∀ k value id, m.CheckWrite k id = true →
        (m.Write k value id).CheckWrite key w = false)) ∧
    (∀ (s : TxnProcessor) (txn : TxnPtr) (key : Key),
      s.storage_.CheckWrite key (s.heap txn).unique_id_ = false →
      key ∈ (s.heap txn).writeset_ →
      TxnProcessor.MVCCMVTOExecuteTxn_finish s txn = TxnProcessor.readmit s txn ∧
      (TxnProcessor.MVCCMVTOExecuteTxn_finish s txn).storage_ = s.storage_) ∧
    (∀ (s : TxnProcessor) (txn : TxnPtr) (uninit : Value) (Run : Txn → Txn) (key : Key)
      (w : Int),
      s.storage_.CheckWrite key w = false →
      (Run ((TxnProcessor.MVCCMVTOExecuteTxn_reads s txn uninit).heap txn)).unique_id_ = w →
      key ∈ (Run ((TxnProcessor.MVCCMVTOExecuteTxn_reads s txn uninit).heap txn)).writeset_ →
      (∀ k, (TxnProcessor.MVCCMVTOExecuteTxn s txn uninit Run).storage_.versions k =
        s.storage_.versions k) ∧
      (TxnProcessor.MVCCMVTOExecuteTxn s txn uninit Run).committed_txns_ = s.committed_txns_ ∧
      (TxnProcessor.MVCCMVTOExecuteTxn s txn uninit Run).txn_results_ = s.txn_results_ ∧
      (TxnProcessor.MVCCMVTOExecuteTxn s txn uninit Run).txn_requests_ =
        s.txn_requests_ ++ [txn] ∧
      (TxnProcessor.MVCCMVTOExecuteTxn s txn uninit Run).next_unique_id_ =
        intSucc s.next_unique_id_ ∧
      (-2147483648 ≤ s.next_unique_id_ → s.next_unique_id_ < 2147483647 →
        (TxnProcessor.MVCCMVTOExecuteTxn s txn uninit Run).next_unique_id_ =
          s.next_unique_id_ + 1) ∧
      ((TxnProcessor.MVCCMVTOExecuteTxn s txn uninit Run).heap txn).unique_id_ =
        s.next_unique_id_ ∧
      ((TxnProcessor.MVCCMVTOExecuteTxn s txn uninit Run).heap txn).status_ =
        TxnStatus.INCOMPLETE ∧
      ((TxnProcessor.MVCCMVTOExecuteTxn s txn uninit Run).heap txn).writes_ = [] ∧
      ∀ k, ((TxnProcessor.MVCCMVTOExecuteTxn s txn uninit Run).heap txn).reads_ k = none) := by
  refine ⟨fun m key r0 r w hne hlt => MVCCStorage.checkWrite_after_read m key r0 r w hne hlt,
    fun m key w h => ⟨fun k r0 id => MVCCStorage.checkWrite_false_read m key k w r0 id h,
      fun k value id hcw => MVCCStorage.checkWrite_false_write m key k w value id h hcw⟩,
    ?_, ?_⟩
  · intro s txn key hcw hkey
    have hinv : TxnProcessor.MVCCCheckWrites s txn = false :=
      TxnProcessor.checkWritesLoop_false _ _ key hcw _ _ hkey
    have hfin : TxnProcessor.MVCCMVTOExecuteTxn_finish s txn = TxnProcessor.readmit s txn := by
      unfold TxnProcessor.MVCCMVTOExecuteTxn_finish
      rw [hinv]; simp
    exact ⟨hfin, by rw [hfin]; rfl⟩
  intro s txn uninit Run key w hcw hid hkey
  obtain ⟨hv, hc⟩ := TxnProcessor.readKeys_mvcc uninit (s.heap txn).unique_id_ key w
    (s.heap txn).readset_ s.storage_ (s.heap txn).reads_
  have hsto : (TxnProcessor.MVCCMVTOExecuteTxn_reads s txn uninit).storage_ =
      (TxnProcessor.readKeys uninit (s.heap txn).unique_id_ (s.heap txn).readset_ s.storage_
        (s.heap txn).reads_).1 := rfl
  generalize hS : TxnProcessor.MVCCMVTOExecuteTxn_reads s txn uninit = S at hid hkey hsto
  have hq : S.committed_txns_ = s.committed_txns_ ∧ S.txn_results_ = s.txn_results_ ∧
      S.txn_requests_ = s.txn_requests_ ∧ S.next_unique_id_ = s.next_unique_id_ := by
    rw [← hS]; exact ⟨rfl, rfl, rfl, rfl⟩
  have hinvalid : TxnProcessor.MVCCCheckWrites (S.setTxn txn (Run (S.heap txn))) txn = false := by
    unfold TxnProcessor.MVCCCheckWrites
    have hheap : (S.setTxn txn (Run (S.heap txn))).heap txn = Run (S.heap txn) := by
      simp [TxnProcessor.setTxn]
    rw [hheap, hid]
    apply TxnProcessor.checkWritesLoop_false _ _ key _ _ _ hkey
    show S.storage_.CheckWrite key w = false
    rw [hsto]; exact hc hcw
  have hE : TxnProcessor.MVCCMVTOExecuteTxn s txn uninit Run =
      TxnProcessor.readmit (S.setTxn txn (Run (S.heap txn))) txn := by
    unfold TxnProcessor.MVCCMVTOExecuteTxn TxnProcessor.MVCCMVTOExecuteTxn_finish
    rw [hS, hinvalid]
    simp
  rw [hE]
  refine ⟨?_, hq.1, hq.2.1, ?_, ?_, ?_, ?_, ?_, ?_, ?_⟩
  · intro k
    show S.storage_.versions k = _
    rw [hsto]; exact hv k
  · show S.txn_requests_ ++ [txn] = _
    rw [hq.2.2.1]
  · show intSucc S.next_unique_id_ = _
    rw [hq.2.2.2]
  · intro hlo hhi
    show intSucc S.next_unique_id_ = _
    rw [hq.2.2.2]
    exact intSucc_eq _ hlo hhi
  · simp [TxnProcessor.readmit, TxnProcessor.setTxn, hq.2.2.2]
  · simp [TxnProcessor.readmit, TxnProcessor.setTxn]
  · simp [TxnProcessor.readmit, TxnProcessor.setTxn]
  · intro k
    simp [TxnProcessor.readmit, TxnProcessor.setTxn]

/-- C17, at a concrete input (scenario S4): transaction 2 (id 2) has read key 3;
transaction 1 (id 1, write set {3}) then runs with a body that buffers the
write 3 ↦ 99 and is re-admitted with the fresh id 3. -/
theorem C17_late_writer_is_readmitted_witness :
    Scenario.s4ReaderDone.storage_.CheckWrite 3 1 = false ∧
    (TxnProcessor.MVCCMVTOExecuteTxn Scenario.s4ReaderDone 1 0
      (Scenario.writeAndCommit [(3, 99)])).txn_requests_ = [1] ∧
    ((TxnProcessor.MVCCMVTOExecuteTxn Scenario.s4ReaderDone 1 0
      (Scenario.writeAndCommit [(3, 99)])).heap 1).unique_id_ = 3 ∧
    (TxnProcessor.MVCCMVTOExecuteTxn Scenario.s4ReaderDone 1 0
      (Scenario.writeAndCommit [(3, 99)])).committed_txns_ = [2] :=
  have hcw : Scenario.s4ReaderDone.storage_.CheckWrite 3 1 = false := by decide
  have h := C17_late_writer_is_readmitted.2.2.2 Scenario.s4ReaderDone 1 0
    (Scenario.writeAndCommit [(3, 99)]) 3 1 hcw (by decide) (by decide)
  ⟨hcw, h.2.2.2.1, h.2.2.2.2.2.2.1, h.2.1⟩

/-! ### The rule of the serial backward validation -/

theorem TxnProcessor.scanReadset_true (key : Key) (readset : List Key) :
    ∀ isvalid : Bool,
      TxnProcessor.scanReadset key readset isvalid = true ↔ isvalid = true ∧ key ∉ readset := by
  induction readset with
  | nil => intro isvalid; simp [TxnProcessor.scanReadset]
  | cons k1 rest ih =>
    intro isvalid
    by_cases h : k1 = key
    · simp [TxnProcessor.scanReadset, h]
    · have h' : ¬ key = k1 := fun e => h e.symm
      simp [TxnProcessor.scanReadset, h, h', ih]

theorem TxnProcessor.scanWriteset_true (readset : List Key) (writeset : List Key) :
    ∀ isvalid : Bool,
      TxnProcessor.scanWriteset readset writeset isvalid = true ↔
        isvalid = true ∧ ∀ k ∈ writeset, k ∉ readset := by
  induction writeset with
  | nil => intro isvalid; simp [TxnProcessor.scanWriteset]
  | cons key rest ih =>
    intro isvalid
    cases isvalid with
    | false => simp [TxnProcessor.scanWriteset]
    | true =>
      simp only [TxnProcessor.scanWriteset, if_true, ih, TxnProcessor.scanReadset_true]
      simp

theorem TxnProcessor.scanCommitted_true (heap : TxnPtr → Txn) (readset : List Key)
    (past : List TxnPtr) :
    ∀ isvalid : Bool,
      TxnProcessor.scanCommitted heap readset past isvalid = true ↔
        isvalid = true ∧ ∀ p ∈ past, ∀ k ∈ (heap p).writeset_, k ∉ readset := by
  induction past with
  | nil => intro isvalid; simp [TxnProcessor.scanCommitted]
  | cons p rest ih =>
    intro isvalid
    cases isvalid with
    | false => simp [TxnProcessor.scanCommitted]
    | true =>
      simp only [TxnProcessor.scanCommitted, if_true, ih, TxnProcessor.scanWriteset_true]
      simp

theorem TxnProcessor.mem_drop_iff (l : List TxnPtr) (n : Nat) (p : TxnPtr) :
    p ∈ l.drop n ↔ ∃ i, n ≤ i ∧ l[i]? = some p := by
  rw [List.mem_iff_getElem?]
  constructor
  · rintro ⟨j, hj⟩
    rw [List.getElem?_drop] at hj
    exact ⟨n + j, Nat.le_add_right _ _, hj⟩
  · rintro ⟨i, hi, h⟩
    refine ⟨i - n, ?_⟩
    rw [List.getElem?_drop]
    have : n + (i - n) = i := by omega
    rw [this]; exact h

/-- C20. The serial backward validation declares a completed transaction valid
if and only if there is no index `i` with `occ_start_idx_ < i` and
`i < |committed history|` (that is, `committed[i]` exists) such that the write
set of `committed[i]` shares a key with the transaction's read set; the step
commits the transaction when the flag is true and re-admits it otherwise. -/
theorem C20_backward_validation_rule (s : TxnProcessor) (txn : TxnPtr) (rest : List TxnPtr)
    (hc : s.completed_txns_ = txn :: rest) :
    (TxnProcessor.backwardIsValid s txn = true ↔
      ¬ ∃ i past, (s.heap txn).occ_start_idx_ < i ∧ i < s.committed_txns_.length ∧
        s.committed_txns_[i]? = some past ∧
        ∃ k, k ∈ (s.heap past).writeset_ ∧ k ∈ (s.heap txn).readset_) ∧
    TxnProcessor.RunOCCSerialSchedulerBackwardValidation_complete s =
      (if TxnProcessor.backwardIsValid s txn = true then
        (({ TxnProcessor.ApplyWrites { s with completed_txns_ := rest } txn with
            committed_txns_ := s.committed_txns_ ++ [txn] }).setStatus txn
          TxnStatus.COMMITTED).publish txn
      else TxnProcessor.readmit { s with completed_txns_ := rest } txn) := by
  constructor
  · unfold TxnProcessor.backwardIsValid
    rw [TxnProcessor.scanCommitted_true]
    constructor
    · rintro ⟨_, h⟩ ⟨i, past, hi, _, hget, k, hk1, hk2⟩
      exact h past ((TxnProcessor.mem_drop_iff _ _ _).mpr ⟨i, hi, hget⟩) k hk1 hk2
    · intro h
      refine ⟨rfl, ?_⟩
      intro p hp k hk1 hk2
      obtain ⟨i, hi, hget⟩ := (TxnProcessor.mem_drop_iff _ _ _).mp hp
      have hlen : i < s.committed_txns_.length := by
        by_contra hcon
        rw [List.getElem?_eq_none (not_lt.mp hcon)] at hget
        cases hget
      exact h ⟨i, p, hi, hlen, hget, k, hk1, hk2⟩
  · unfold TxnProcessor.RunOCCSerialSchedulerBackwardValidation_complete
      TxnProcessor.backwardIsValid
    rw [hc]
    simp only [TxnProcessor.ApplyWrites]

/-- C20, at a concrete input: the committed history is `[2, 3]`, transaction 3
(index 1) wrote key 9, and transaction 1 with start index 0 read key 9: the
flag is not true. -/
theorem C20_backward_validation_rule_witness :
    ¬ TxnProcessor.backwardIsValid Scenario.conflictAfterStart 1 = true :=
  fun h => (C20_backward_validation_rule Scenario.conflictAfterStart 1 [] rfl).1.mp h
    ⟨1, 3, by decide, by decide, by decide, 9, by decide, by decide⟩

/-! ### Serial validation -/

/-- A loop of `SerialValidate` yields true exactly when no key has a timestamp
above the start time and the code after the loop yields true. -/
theorem TxnProcessor.timestampLoop_true (start : Rat) (st : StorageImpl) (keys : List Key)
    (after : Bool) :
    TxnProcessor.timestampLoop start st keys after = true ↔
      (∀ key ∈ keys, st.Timestamp key ≤ start) ∧ after = true := by
  induction keys with
  | nil => simp [TxnProcessor.timestampLoop]
  | cons k rest ih =>
    by_cases h : start < st.Timestamp k
    · simp [TxnProcessor.timestampLoop, h]
    · simp [TxnProcessor.timestampLoop, h, ih, not_lt.mp h]

/-- C21. `TxnProcessor::SerialValidate(txn)` returns true if and only if, for
every key of `txn.readset_` or `txn.writeset_`, the transaction's
`occ_start_time_` is at least `storage.Timestamp(key)`. The function reads the
transaction and the storage and returns a flag: neither is modified. -/
theorem C21_serial_validate (s : TxnProcessor) (txn : TxnPtr) :
    TxnProcessor.SerialValidate s txn = true ↔
      ∀ key, key ∈ (s.heap txn).readset_ ∨ key ∈ (s.heap txn).writeset_ →
        (s.heap txn).occ_start_time_ ≥ s.storage_.Timestamp key := by
  unfold TxnProcessor.SerialValidate
  rw [TxnProcessor.timestampLoop_true, TxnProcessor.timestampLoop_true]
  constructor
  · rintro ⟨h1, h2, _⟩ key (hk | hk)
    · exact h1 key hk
    · exact h2 key hk
  · intro h
    exact ⟨fun key hk => h key (Or.inl hk), fun key hk => h key (Or.inr hk), rfl⟩

/-! ### The storage effect of a read -/

/-- C30. `MVCCStorage::Read(key, &result, reader_id)` on a key whose chain is
`v :: rest` leaves a storage in which the chain of `key` is `v :: rest` with
the `max_read_id_` of the head `v` replaced by `max(v.max_read_id_,
reader_id)`: the head keeps its `value_` and `version_id_`, the versions after
the head, their order and the length of the chain are as before, and the
entry of every other key is unchanged. -/
theorem C30_read_marks_head_only (s : MVCCStorage) (key : Key) (result : Value)
    (reader_id : Int) (v : Version) (rest : List Version)
    (hd : s.mvcc_data_ key = some (v :: rest)) :
    (s.Read key result reader_id).2.2.mvcc_data_ key =
      some ({ value_ := v.value_, max_read_id_ := max v.max_read_id_ reader_id,
              version_id_ := v.version_id_ } :: rest) ∧
    ∀ k, k ≠ key → (s.Read key result reader_id).2.2.mvcc_data_ k = s.mvcc_data_ k := by
  unfold MVCCStorage.Read
  rw [hd]
  by_cases h : reader_id > v.max_read_id_
  · have hm : max v.max_read_id_ reader_id = reader_id := max_eq_right (le_of_lt h)
    simp only [h, if_true, hm]
    exact ⟨by simp, fun k hk => by simp [Function.update_noteq hk]⟩
  · have hm : max v.max_read_id_ reader_id = v.max_read_id_ := max_eq_left (not_lt.mp h)
    refine ⟨?_, fun k _ => ?_⟩
    · simp only [h, if_false, hm]
      exact hd
    · simp only [h, if_false]

/-- C30, at a concrete input: on the chain `[⟨10, 5, 5⟩, ⟨0, 0, 0⟩]` of key 1 a
read by 9 raises the read mark of the head to 9, a read by 3 leaves the chain
as it is. -/
theorem C30_read_marks_head_only_witness :
    (Scenario.storageAfterTwoWrites.Read 1 77 9).2.2.mvcc_data_ 1 =
      some [⟨10, 9, 5⟩, ⟨0, 0, 0⟩] ∧
    (Scenario.storageAfterTwoWrites.Read 1 77 3).2.2.mvcc_data_ 1 =
      some [⟨10, 5, 5⟩, ⟨0, 0, 0⟩] :=
  ⟨(C30_read_marks_head_only Scenario.storageAfterTwoWrites 1 77 9 ⟨10, 5, 5⟩ [⟨0, 0, 0⟩]
      (by decide)).1,
    (C30_read_marks_head_only Scenario.storageAfterTwoWrites 1 77 3 ⟨10, 5, 5⟩ [⟨0, 0, 0⟩]
      (by decide)).1⟩

/-! ### Failed validations -/

/-- The re-admission block leaves a re-admitted transaction behind, whatever
else of the state was prepared before it (the popped completion queue, the
active set). -/
theorem TxnProcessor.readmit_readmitted (s s0 : TxnProcessor) (txn : TxnPtr)
    (h1 : s0.storage_ = s.storage_) (h2 : s0.committed_txns_ = s.committed_txns_)
    (h3 : s0.txn_results_ = s.txn_results_)
    (h5 : s0.next_unique_id_ = s.next_unique_id_) (h6 : s0.txn_requests_ = s.txn_requests_) :
    TxnProcessor.Readmitted s (TxnProcessor.readmit s0 txn) txn := by
  unfold TxnProcessor.Readmitted TxnProcessor.readmit TxnProcessor.setTxn
  simp only [Function.update_same, h1, h2, h3, h5, h6]
  refine ⟨trivial, trivial, trivial, fun _ => trivial, trivial, trivial, trivial, ?_, trivial,
    ?_, trivial⟩
  · intro h
    exact h
  · intro hlo hhi
    exact intSucc_eq _ hlo hhi

/-- Removing a transaction from the active set changes nothing that
`Readmitted` speaks of. -/
theorem TxnProcessor.readmitted_active_set (s s1 : TxnProcessor) (txn : TxnPtr)
    (active : List TxnPtr) (h : TxnProcessor.Readmitted s s1 txn) :
    TxnProcessor.Readmitted s { s1 with active_set_ := active } txn := h

/-! ### The check against the active set -/

theorem TxnProcessor.mem_setInsert (a k : Nat) (l : List Nat) :
    a ∈ TxnProcessor.setInsert k l ↔ a = k ∨ a ∈ l := by
  induction l with
  | nil => simp [TxnProcessor.setInsert]
  | cons x rest ih =>
    unfold TxnProcessor.setInsert
    split_ifs with h1 h2
    · simp
    · subst h2; simp
    · simp only [List.mem_cons, ih]
      tauto

theorem TxnProcessor.mem_insertAll (a : Key) (keys : List Key) :
    ∀ interset : List Key,
      a ∈ TxnProcessor.insertAll keys interset ↔ a ∈ keys ∨ a ∈ interset := by
  induction keys with
  | nil => intro interset; simp [TxnProcessor.insertAll]
  | cons k rest ih =>
    intro interset
    simp only [TxnProcessor.insertAll, ih, TxnProcessor.mem_setInsert, List.mem_cons]
    tauto

/-- The loop over the committed history of the parallel backward executor
yields true exactly when no key of the `writes_` of a scanned transaction is
in `interset`. -/
theorem TxnProcessor.scanCommittedWrites_true (heap : TxnPtr → Txn) (interset : List Key)
    (past : List TxnPtr) :
    ∀ isvalid : Bool,
      TxnProcessor.scanCommittedWrites heap interset past isvalid = true ↔
        isvalid = true ∧ ∀ p ∈ past, ∀ kv ∈ (heap p).writes_, kv.1 ∉ interset := by
  induction past with
  | nil => intro isvalid; simp [TxnProcessor.scanCommittedWrites]
  | cons p rest ih =>
    intro isvalid
    cases isvalid with
    | false => simp [TxnProcessor.scanCommittedWrites]
    | true =>
      simp only [TxnProcessor.scanCommittedWrites, if_true, ih,
        TxnProcessor.scanWriteset_true]
      simp

/-- The check against the snapshot of the active set yields true exactly when
no transaction of the snapshot has a key of its write set in the read set or
the write set of the validating transaction. -/
theorem TxnProcessor.finishCheck_true (s : TxnProcessor) (txn : TxnPtr)
    (finish : List TxnPtr) :
    TxnProcessor.finishCheck s txn finish = true ↔
      ∀ t ∈ finish, ∀ k ∈ (s.heap t).writeset_,
        k ∉ (s.heap txn).readset_ ∧ k ∉ (s.heap txn).writeset_ := by
  unfold TxnProcessor.finishCheck
  rw [TxnProcessor.scanCommitted_true]
  simp only [TxnProcessor.mem_insertAll, List.not_mem_nil, or_false, true_and]
  constructor
  · intro h t ht k hk
    have := h t ht k hk
    tauto
  · intro h t ht k hk
    have := h t ht k hk
    tauto

/-- The commit block of the parallel executors commits the transaction,
whatever the active set was set to before it. -/
theorem TxnProcessor.commitParallel_committedBy (s s0 : TxnProcessor) (txn : TxnPtr)
    (h1 : s0.storage_ = s.storage_) (h2 : s0.committed_txns_ = s.committed_txns_)
    (h3 : s0.txn_results_ = s.txn_results_) (h4 : s0.heap = s.heap) :
    TxnProcessor.CommittedBy s (TxnProcessor.commitParallel s0 txn) txn := by
  unfold TxnProcessor.CommittedBy TxnProcessor.commitParallel TxnProcessor.setStatus
    TxnProcessor.setTxn TxnProcessor.ApplyWrites
  simp only [Function.update_same, h1, h2, h3, h4]
  exact ⟨trivial, trivial, trivial, trivial⟩

/-- C23. In both parallel OCC variants, with `s` the state in which the
validation starts and `finish` the snapshot of the active set taken there
(`s.active_set_`): if `finish` contains a transaction `t` whose write set
shares a key with the read set or the write set of the validating
transaction, the validating transaction is not committed: storage and
committed history are unchanged (its writes are not applied, it is not
appended) and it is re-admitted. When the backward check (in the forward
variant: `SerialValidate`) passes and `finish` contains no such `t`, the
transaction is committed: its writes are applied, it is appended to the
committed history and published with status COMMITTED. Each executor is its
validation applied to the state its reads and the body leave. -/
theorem C23_active_set_check :
    (∀ (s : TxnProcessor) (txn t : TxnPtr) (k : Key),
      t ∈ s.active_set_ → k ∈ (s.heap t).writeset_ →
      (k ∈ (s.heap txn).readset_ ∨ k ∈ (s.heap txn).writeset_) →
      TxnProcessor.Readmitted s
        (TxnProcessor.ExecuteTxnParallelBackwardValidation_finish s txn) txn ∧
      TxnProcessor.Readmitted s
        (TxnProcessor.ExecuteTxnParallelForwardValidation_finish s txn) txn) ∧
    (∀ (s : TxnProcessor) (txn : TxnPtr),
      (∀ t ∈ s.active_set_, ∀ k ∈ (s.heap t).writeset_,
        k ∉ (s.heap txn).readset_ ∧ k ∉ (s.heap txn).writeset_) →
      (TxnProcessor.parallelBackwardCheck s txn = true →
        TxnProcessor.CommittedBy s
          (TxnProcessor.ExecuteTxnParallelBackwardValidation_finish s txn) txn) ∧
      (TxnProcessor.SerialValidate s txn = true →
        TxnProcessor.CommittedBy s
          (TxnProcessor.ExecuteTxnParallelForwardValidation_finish s txn) txn)) ∧
    (∀ (s : TxnProcessor) (txn : TxnPtr) (now : Rat) (uninit : Value) (Run : Txn → Txn),
      TxnProcessor.ExecuteTxnParallelBackwardValidation s txn uninit Run =
        TxnProcessor.ExecuteTxnParallelBackwardValidation_finish
          (TxnProcessor.ExecuteTxnParallelBackwardValidation_run s txn uninit Run) txn ∧
      TxnProcessor.ExecuteTxnParallelForwardValidation s txn now uninit Run =
        TxnProcessor.ExecuteTxnParallelForwardValidation_finish
          (TxnProcessor.ExecuteTxnParallelForwardValidation_run s txn now uninit Run) txn) := by
  refine ⟨?_, ?_, fun _ _ _ _ _ => ⟨rfl, rfl⟩⟩
  · intro s txn t k ht hk hshare
    have hfin : TxnProcessor.finishCheck s txn s.active_set_ = false := by
      cases hf : TxnProcessor.finishCheck s txn s.active_set_ with
      | false => rfl
      | true =>
        have := (TxnProcessor.finishCheck_true s txn s.active_set_).mp hf t ht k hk
        tauto
    have hb : TxnProcessor.parallelBackwardIsValid
        { s with active_set_ := TxnProcessor.setInsert txn s.active_set_ } txn s.active_set_ =
        false := by
      show (if TxnProcessor.parallelBackwardCheck s txn then
        TxnProcessor.finishCheck s txn s.active_set_ else false) = false
      rw [hfin]; simp
    have hf : TxnProcessor.parallelForwardIsValid
        { s with active_set_ := TxnProcessor.setInsert txn s.active_set_ } txn s.active_set_ =
        false := by
      show (if TxnProcessor.SerialValidate s txn then
        TxnProcessor.finishCheck s txn s.active_set_ else false) = false
      rw [hfin]; simp
    constructor
    · unfold TxnProcessor.ExecuteTxnParallelBackwardValidation_finish
      simp only [hb]
      exact TxnProcessor.readmitted_active_set s _ txn _
        (TxnProcessor.readmit_readmitted s _ txn rfl rfl rfl rfl rfl)
    · unfold TxnProcessor.ExecuteTxnParallelForwardValidation_finish
      simp only [hf]
      exact TxnProcessor.readmitted_active_set s _ txn _
        (TxnProcessor.readmit_readmitted s _ txn rfl rfl rfl rfl rfl)
  · intro s txn hno
    have hfin : TxnProcessor.finishCheck s txn s.active_set_ = true :=
      (TxnProcessor.finishCheck_true s txn s.active_set_).mpr hno
    constructor
    · intro hchk
      have hb : TxnProcessor.parallelBackwardIsValid
          { s with active_set_ := TxnProcessor.setInsert txn s.active_set_ } txn s.active_set_ =
          true := by
        show (if TxnProcessor.parallelBackwardCheck s txn then
          TxnProcessor.finishCheck s txn s.active_set_ else false) = true
        rw [hchk, hfin]; rfl
      unfold TxnProcessor.ExecuteTxnParallelBackwardValidation_finish
      simp only [hb]
      exact TxnProcessor.commitParallel_committedBy s _ txn rfl rfl rfl rfl
    · intro hchk
      have hf : TxnProcessor.parallelForwardIsValid
          { s with active_set_ := TxnProcessor.setInsert txn s.active_set_ } txn s.active_set_ =
          true := by
        show (if TxnProcessor.SerialValidate s txn then
          TxnProcessor.finishCheck s txn s.active_set_ else false) = true
        rw [hchk, hfin]; rfl
      unfold TxnProcessor.ExecuteTxnParallelForwardValidation_finish
      simp only [hf]
      exact TxnProcessor.commitParallel_committedBy s _ txn rfl rfl rfl rfl

/-- C23, at a concrete input (scenario S6): transaction 1 (write set {1}) is in
the active set when transaction 2 (read set {1}) validates; transaction 2 is
re-admitted in both variants. -/
theorem C23_active_set_check_witness :
    TxnProcessor.Readmitted (Scenario.s6Validating CCMode.OCC_PARREL_BACKWARD_VALIDATION)
      (TxnProcessor.ExecuteTxnParallelBackwardValidation_finish
        (Scenario.s6Validating CCMode.OCC_PARREL_BACKWARD_VALIDATION) 2) 2 ∧
    TxnProcessor.Readmitted (Scenario.s6Validating CCMode.OCC_PARREL_FORWARD_VALIDATION)
      (TxnProcessor.ExecuteTxnParallelForwardValidation_finish
        (Scenario.s6Validating CCMode.OCC_PARREL_FORWARD_VALIDATION) 2) 2 :=
  ⟨(C23_active_set_check.1 (Scenario.s6Validating CCMode.OCC_PARREL_BACKWARD_VALIDATION) 2 1 1
      (by decide) (by decide) (Or.inl (by decide))).1,
    (C23_active_set_check.1 (Scenario.s6Validating CCMode.OCC_PARREL_FORWARD_VALIDATION) 2 1 1
      (by decide) (by decide) (Or.inl (by decide))).2⟩

/-! ### The lock calls of an admission step -/

/-- A lock-request loop makes the calls of `lockCalls`, all of them, and ends
with `blocked` false exactly when it started so and every call returned
true. -/
theorem TxnProcessor.lockLoop_calls (f : LockManager → TxnPtr → Key → Bool × LockManager)
    (txn : TxnPtr) (keys : List Key) :
    ∀ (lm : LockManager) (blocked : Bool),
      (TxnProcessor.lockCalls f txn keys lm).1.length = keys.length ∧
      (TxnProcessor.lockLoop f txn keys lm blocked).1 = (TxnProcessor.lockCalls f txn keys lm).2 ∧
      ((TxnProcessor.lockLoop f txn keys lm blocked).2 = false ↔
        blocked = false ∧ ∀ b ∈ (TxnProcessor.lockCalls f txn keys lm).1, b = true) := by
  induction keys with
  | nil => intro lm blocked; simp [TxnProcessor.lockLoop, TxnProcessor.lockCalls]
  | cons k rest ih =>
    intro lm blocked
    obtain ⟨h1, h2, h3⟩ := ih (f lm txn k).2 (if (f lm txn k).1 then blocked else true)
    simp only [TxnProcessor.lockLoop, TxnProcessor.lockCalls, List.length_cons, h1, h2, h3,
      List.mem_cons, forall_eq_or_imp]
    refine ⟨trivial, trivial, ?_⟩
    cases hb : (f lm txn k).1 <;> simp

/-- C26. In the admission step of the locking scheduler and in that of the
MVCC-2PL scheduler (the same text), for the popped transaction `txn`:
`ReadLock` is called for every key of the read set in order, then `WriteLock`
for every key of the write set in order, one call per key whatever the
earlier calls returned; the lock manager after the step is the one these calls
leave, with `txn` appended to the ready queue if and only if every call
returned true. -/
theorem C26_admission_requests_all_locks (s : TxnProcessor) (txn : TxnPtr)
    (rest : List TxnPtr) (hreq : s.txn_requests_ = txn :: rest) :
    (TxnProcessor.lockCalls (TxnProcessor.lmReadLock s.mode_) txn (s.heap txn).readset_
      s.lm_).1.length = (s.heap txn).readset_.length ∧
    (TxnProcessor.lockCalls (TxnProcessor.lmWriteLock s.mode_) txn (s.heap txn).writeset_
      (TxnProcessor.lockCalls (TxnProcessor.lmReadLock s.mode_) txn (s.heap txn).readset_
        s.lm_).2).1.length = (s.heap txn).writeset_.length ∧
    TxnProcessor.RunLockingScheduler_admit s =
      { s with
        txn_requests_ := rest
        lm_ :=
          if ∀ b ∈ (TxnProcessor.admissionCalls s.mode_ txn (s.heap txn) s.lm_).1, b = true then
            { (TxnProcessor.admissionCalls s.mode_ txn (s.heap txn) s.lm_).2 with
              ready_txns_ :=
                (TxnProcessor.admissionCalls s.mode_ txn (s.heap txn) s.lm_).2.ready_txns_ ++
                  [txn] }
          else (TxnProcessor.admissionCalls s.mode_ txn (s.heap txn) s.lm_).2 } ∧
    TxnProcessor.RunMVCCMV2PLScheduler_admit s = TxnProcessor.RunLockingScheduler_admit s := by
  obtain ⟨r1, r2, r3⟩ := TxnProcessor.lockLoop_calls (TxnProcessor.lmReadLock s.mode_) txn
    (s.heap txn).readset_ s.lm_ false
  obtain ⟨w1, w2, w3⟩ := TxnProcessor.lockLoop_calls (TxnProcessor.lmWriteLock s.mode_) txn
    (s.heap txn).writeset_
    (TxnProcessor.lockLoop (TxnProcessor.lmReadLock s.mode_) txn (s.heap txn).readset_ s.lm_
      false).1
    (TxnProcessor.lockLoop (TxnProcessor.lmReadLock s.mode_) txn (s.heap txn).readset_ s.lm_
      false).2
  rw [r2] at w1 w2 w3
  refine ⟨r1, w1, ?_, ?_⟩
  · unfold TxnProcessor.RunLockingScheduler_admit
    rw [hreq]
    simp only [r2, w2, TxnProcessor.admissionCalls]
    have hiff : ((TxnProcessor.lockLoop (TxnProcessor.lmWriteLock s.mode_) txn
        (s.heap txn).writeset_
        (TxnProcessor.lockCalls (TxnProcessor.lmReadLock s.mode_) txn (s.heap txn).readset_
          s.lm_).2
        (TxnProcessor.lockLoop (TxnProcessor.lmReadLock s.mode_) txn (s.heap txn).readset_ s.lm_
          false).2).2 = false) ↔
        ∀ b ∈ (TxnProcessor.lockCalls (TxnProcessor.lmReadLock s.mode_) txn
            (s.heap txn).readset_ s.lm_).1 ++
          (TxnProcessor.lockCalls (TxnProcessor.lmWriteLock s.mode_) txn (s.heap txn).writeset_
            (TxnProcessor.lockCalls (TxnProcessor.lmReadLock s.mode_) txn (s.heap txn).readset_
              s.lm_).2).1, b = true := by
      rw [w3, r3]
      simp only [true_and, List.mem_append]
      constructor
      · rintro ⟨h1, h2⟩ b (hb | hb)
        · exact h1 b hb
        · exact h2 b hb
      · intro h
        exact ⟨fun b hb => h b (Or.inl hb), fun b hb => h b (Or.inr hb)⟩
    by_cases hall : ∀ b ∈ (TxnProcessor.lockCalls (TxnProcessor.lmReadLock s.mode_) txn
            (s.heap txn).readset_ s.lm_).1 ++
          (TxnProcessor.lockCalls (TxnProcessor.lmWriteLock s.mode_) txn (s.heap txn).writeset_
            (TxnProcessor.lockCalls (TxnProcessor.lmReadLock s.mode_) txn (s.heap txn).readset_
              s.lm_).2).1, b = true
    · rw [if_pos (hiff.mpr hall), if_pos hall]
    · rw [if_neg (fun h => hall (hiff.mp h)), if_neg hall]
  · rfl

/-- C26, at a concrete input: a transaction with key 5 in its read set and in
its write set under `LockManagerB`. `ReadLock(1, 5)` returns true,
`WriteLock(1, 5)` is still called and returns false; the transaction is not
appended to the ready queue. -/
theorem C26_admission_requests_all_locks_witness :
    (TxnProcessor.admissionCalls CCMode.LOCKING 1 ((Scenario.overlapStart CCMode.LOCKING).heap 1)
      (Scenario.overlapStart CCMode.LOCKING).lm_).1 = [true, false] ∧
    (TxnProcessor.RunLockingScheduler_admit (Scenario.overlapStart CCMode.LOCKING)).lm_.queue 5 =
      [⟨LockMode.SHARED, 1⟩, ⟨LockMode.EXCLUSIVE, 1⟩] ∧
    (TxnProcessor.RunLockingScheduler_admit
      (Scenario.overlapStart CCMode.LOCKING)).lm_.ready_txns_ = [] := by
  have h := (C26_admission_requests_all_locks (Scenario.overlapStart CCMode.LOCKING) 1 [] rfl).2.2.1
  refine ⟨by decide, ?_, ?_⟩
  · rw [h]; decide
  · rw [h]; decide

/-! ### Transactions without keys -/

/-- C28. For a transaction whose read set and write set are both empty: the
admission step of the locking scheduler (and of the MVCC-2PL scheduler)
leaves the lock table and the pending counters as they are and appends the
transaction to the ready queue; `SerialValidate`, the serial backward check,
and the parallel backward and forward checks declare it valid, in any state
(any committed history, any start index) and for any snapshot `finish` of the
active set. -/
theorem C28_empty_sets_never_wait (s : TxnProcessor) (txn : TxnPtr)
    (rest finish : List TxnPtr)
    (hr : (s.heap txn).readset_ = []) (hw : (s.heap txn).writeset_ = []) :
    (s.txn_requests_ = txn :: rest →
      TxnProcessor.RunLockingScheduler_admit s =
        { s with
          txn_requests_ := rest
          lm_ := { s.lm_ with ready_txns_ := s.lm_.ready_txns_ ++ [txn] } } ∧
      TxnProcessor.RunMVCCMV2PLScheduler_admit s =
        { s with
          txn_requests_ := rest
          lm_ := { s.lm_ with ready_txns_ := s.lm_.ready_txns_ ++ [txn] } }) ∧
    TxnProcessor.SerialValidate s txn = true ∧
    TxnProcessor.backwardIsValid s txn = true ∧
    TxnProcessor.parallelBackwardIsValid s txn finish = true ∧
    TxnProcessor.parallelForwardIsValid s txn finish = true := by
  have hsv : TxnProcessor.SerialValidate s txn = true := by
    simp [TxnProcessor.SerialValidate, hr, hw, TxnProcessor.timestampLoop]
  have hfin : TxnProcessor.finishCheck s txn finish = true := by
    rw [TxnProcessor.finishCheck_true]
    intro t _ k _
    simp [hr, hw]
  have hpb : TxnProcessor.parallelBackwardCheck s txn = true := by
    unfold TxnProcessor.parallelBackwardCheck
    rw [TxnProcessor.scanCommittedWrites_true]
    simp [hr, TxnProcessor.insertAll]
  refine ⟨?_, hsv, ?_, ?_, ?_⟩
  · intro hreq
    constructor
    · unfold TxnProcessor.RunLockingScheduler_admit
      rw [hreq]
      simp [hr, hw, TxnProcessor.lockLoop]
    · unfold TxnProcessor.RunMVCCMV2PLScheduler_admit
      rw [hreq]
      simp [hr, hw, TxnProcessor.lockLoop]
  · unfold TxnProcessor.backwardIsValid
    rw [TxnProcessor.scanCommitted_true]
    simp [hr]
  · unfold TxnProcessor.parallelBackwardIsValid
    rw [hpb, hfin]; rfl
  · unfold TxnProcessor.parallelForwardIsValid
    rw [hsv, hfin]; rfl

/-- C28, at a concrete input: a transaction without keys is the next request
under `LockManagerB`; the admission step puts it on the ready queue, and it
is valid against a committed history and an active set that hold other
transactions. -/
theorem C28_empty_sets_never_wait_witness :
    (TxnProcessor.RunLockingScheduler_admit (Scenario.emptySets CCMode.LOCKING)).lm_.ready_txns_ =
      [1] ∧
    TxnProcessor.parallelBackwardIsValid
      { Scenario.emptySets CCMode.OCC_PARREL_BACKWARD_VALIDATION with committed_txns_ := [2, 3] }
      1 [4, 5] = true := by
  have h1 := (C28_empty_sets_never_wait (Scenario.emptySets CCMode.LOCKING) 1 [] [] rfl rfl).1 rfl
  have h2 := (C28_empty_sets_never_wait
    { Scenario.emptySets CCMode.OCC_PARREL_BACKWARD_VALIDATION with committed_txns_ := [2, 3] }
    1 [] [4, 5] rfl rfl).2.2.2.1
  exact ⟨by rw [h1.1]; rfl, h2⟩

/-! ### MVCC timestamp ordering: all or nothing -/

/-- The loop of `MVCCCheckWrites` yields true exactly when it was entered with
true and the write check of every key passes. -/
theorem TxnProcessor.checkWritesLoop_true (st : StorageImpl) (id : Int) (keys : List Key) :
    ∀ isvalid : Bool,
      TxnProcessor.checkWritesLoop st id keys isvalid = true ↔
        isvalid = true ∧ ∀ k ∈ keys, st.CheckWrite k id = true := by
  induction keys with
  | nil => intro isvalid; simp [TxnProcessor.checkWritesLoop]
  | cons k rest ih =>
    intro isvalid
    cases isvalid with
    | false => simp [TxnProcessor.checkWritesLoop]
    | true => simp [TxnProcessor.checkWritesLoop, ih]

/-- `ApplyWrites` on the multi-version storage, for writes with pairwise
distinct keys (`writes_` is a map): every written key gets the new version in
front of its old chain, every other key keeps its entry. -/
theorem TxnProcessor.applyWritesLoop_mv (id : Int) (kvs : List (Key × Value)) :
    ∀ m : MVCCStorage, (kvs.map (fun kv => kv.1)).Nodup →
      ∃ m1, TxnProcessor.applyWritesLoop id kvs (StorageImpl.mv m) = StorageImpl.mv m1 ∧
        (∀ kv ∈ kvs, m1.mvcc_data_ kv.1 =
          some ({ value_ := kv.2, max_read_id_ := id, version_id_ := id } :: m.chain kv.1)) ∧
        (∀ k, k ∉ kvs.map (fun kv => kv.1) → m1.mvcc_data_ k = m.mvcc_data_ k) := by
  induction kvs with
  | nil => intro m _; exact ⟨m, rfl, by simp, fun _ _ => rfl⟩
  | cons kv rest ih =>
    intro m hnd
    rw [List.map_cons, List.nodup_cons] at hnd
    obtain ⟨m1, e1, e2, e3⟩ := ih (m.Write kv.1 kv.2 id) hnd.2
    have hw1 : (m.Write kv.1 kv.2 id).mvcc_data_ kv.1 =
        some ({ value_ := kv.2, max_read_id_ := id, version_id_ := id } :: m.chain kv.1) := by
      simp [MVCCStorage.Write, MVCCStorage.chain]
    have hw2 : ∀ k, k ≠ kv.1 → (m.Write kv.1 kv.2 id).mvcc_data_ k = m.mvcc_data_ k := by
      intro k hk
      simp [MVCCStorage.Write, Function.update_noteq hk]
    refine ⟨m1, ?_, ?_, ?_⟩
    · simp only [TxnProcessor.applyWritesLoop, StorageImpl.Write]
      exact e1
    · intro kv1 hkv1
      rcases List.mem_cons.mp hkv1 with h | h
      · subst h
        rw [e3 kv1.1 hnd.1, hw1]
      · have hne : kv1.1 ≠ kv.1 := by
          intro heq
          exact hnd.1 (heq ▸ List.mem_map_of_mem (fun kv => kv.1) h)
        rw [e2 kv1 h]
        simp only [MVCCStorage.chain, hw2 kv1.1 hne]
    · intro k hk
      rw [List.map_cons, List.mem_cons, not_or] at hk
      rw [e3 k hk.2, hw2 k hk.1]

/-! ### Writes before releases -/

theorem LockManagerA.releaseA_ready (lm lm1 : LockManager) (txn : TxnPtr) (key : Key)
    (h : LockManagerA.Release lm txn key = some lm1) :
    ∃ woken, lm1.ready_txns_ = lm.ready_txns_ ++ woken := by
  unfold LockManagerA.Release at h
  cases hs : lm.lock_table_ key with
  | absent =>
    rw [hs] at h
    simp only [Option.some.injEq] at h
    subst h
    exact ⟨[], by simp [LockManager.touch, hs]⟩
  | null =>
    rw [hs] at h
    simp only [Option.some.injEq] at h
    subst h
    exact ⟨[], by simp⟩
  | deque q =>
    rw [hs] at h
    cases q with
    | nil => simp at h
    | cons r rest =>
      by_cases hr : r.txn_ = txn
      · cases rest with
        | nil =>
          simp only [hr, if_true, Option.some.injEq] at h
          subst h
          exact ⟨[], by simp⟩
        | cons r1 rest1 =>
          simp only [hr, if_true] at h
          split_ifs at h
          · simp only [Option.some.injEq] at h
            subst h
            exact ⟨[r1.txn_], rfl⟩
          · simp only [Option.some.injEq] at h
            subst h
            exact ⟨[], by simp⟩
      · simp only [hr, if_false, Option.some.injEq] at h
        subst h
        exact ⟨[], by simp⟩

theorem LockManagerB.promote_ready (q : List LockRequest) :
    ∀ (lm : LockManager) (ct1 : Nat),
      ∃ woken, (LockManagerB.promote lm q ct1).ready_txns_ = lm.ready_txns_ ++ woken := by
  induction q with
  | nil => intro lm _; exact ⟨[], by simp [LockManagerB.promote]⟩
  | cons r rest ih =>
    intro lm ct1
    simp only [LockManagerB.promote]
    split_ifs
    · obtain ⟨w, hw⟩ := ih (LockManagerB.decr lm r.txn_) (ct1 + 1)
      rw [hw, LockManagerB.decr_ready, List.append_assoc]
      exact ⟨_, rfl⟩
    · exact ⟨_, LockManagerB.decr_ready lm r.txn_⟩
    · exact ⟨[], by simp⟩

theorem LockManagerB.wakeFront_ready (lm : LockManager) (q : List LockRequest) :
    ∃ woken, (LockManagerB.wakeFront lm q).ready_txns_ = lm.ready_txns_ ++ woken := by
  cases q with
  | nil => exact ⟨[], by simp [LockManagerB.wakeFront]⟩
  | cons r rest =>
    simp only [LockManagerB.wakeFront]
    split_ifs
    · exact ⟨_, LockManagerB.decr_ready lm r.txn_⟩
    · exact ⟨[], by simp⟩

theorem LockManagerB.releaseB_ready (lm lm1 : LockManager) (txn : TxnPtr) (key : Key)
    (h : LockManagerB.Release lm txn key = some lm1) :
    ∃ woken, lm1.ready_txns_ = lm.ready_txns_ ++ woken := by
  unfold LockManagerB.Release at h
  cases hs : lm.lock_table_ key with
  | absent =>
    rw [hs] at h
    simp only [Option.some.injEq] at h
    subst h
    exact ⟨[], by simp [LockManager.touch, hs]⟩
  | null =>
    rw [hs] at h
    simp only [Option.some.injEq] at h
    subst h
    exact ⟨[], by simp⟩
  | deque q =>
    rw [hs] at h
    simp only at h
    generalize LockManagerB.scan txn q false false 0 = sc at h
    cases hm : sc.lock_mode with
    | none => rw [hm] at h; simp at h
    | some lock_mode =>
      rw [hm] at h
      simp only at h
      have hw : ∀ lmx : LockManager, lmx.ready_txns_ = lm.ready_txns_ →
          ∃ woken, (if lock_mode = LockMode.SHARED ∧ sc.isB = false ∧ sc.isA = false then
            LockManagerB.wakeFront lmx sc.queue else lmx).ready_txns_ =
              lm.ready_txns_ ++ woken := by
        intro lmx hx
        split_ifs
        · obtain ⟨w, hw⟩ := LockManagerB.wakeFront_ready lmx sc.queue
          exact ⟨w, by rw [hw, hx]⟩
        · exact ⟨[], by simp [hx]⟩
      obtain ⟨w2, hw2⟩ := hw
        { lm with lock_table_ := Function.update lm.lock_table_ key (Slot.deque sc.queue) } rfl
      by_cases hE : lock_mode = LockMode.EXCLUSIVE ∧ sc.isA = false
      · rw [if_pos hE] at h
        simp only [Option.some.injEq] at h
        subst h
        obtain ⟨w3, hw3⟩ := LockManagerB.promote_ready (sc.queue.drop (sc.ct - 1))
          (if lock_mode = LockMode.SHARED ∧ sc.isB = false ∧ sc.isA = false then
            LockManagerB.wakeFront
              { lm with lock_table_ := Function.update lm.lock_table_ key (Slot.deque sc.queue) }
              sc.queue
            else
              { lm with lock_table_ := Function.update lm.lock_table_ key (Slot.deque sc.queue) })
          0
        exact ⟨w2 ++ w3, by rw [hw3, hw2, List.append_assoc]⟩
      · rw [if_neg hE] at h
        simp only [Option.some.injEq] at h
        subst h
        exact ⟨w2, hw2⟩

/-- Releasing the first key of a list whose requests `txn` holds exactly is
defined under either lock manager; `txn` then holds exactly the requests of
the rest, and the ready queue has only grown at its end. -/
theorem TxnProcessor.lmRelease_exact (mode : CCMode) (lm : LockManager) (txn : TxnPtr)
    (key : Key) (rest : List Key) (h : lm.HoldsExactly txn (key :: rest)) :
    ∃ lm1, TxnProcessor.lmRelease mode lm txn key = some lm1 ∧ lm1.HoldsExactly txn rest ∧
      ∃ woken, lm1.ready_txns_ = lm.ready_txns_ ++ woken := by
  have hpos : 0 < (lm.queue key).countP (fun r => decide (r.txn_ = txn)) := by
    have := h key
    simp only [List.count_cons_self] at this
    omega
  have hne : lm.queue key ≠ [] := by
    intro h0; rw [h0] at hpos; simp at hpos
  have hrel : ∃ lm1, TxnProcessor.lmRelease mode lm txn key = some lm1 ∧
      lm1.queue key = LockManager.eraseFirst txn (lm.queue key) ∧
      ∀ k, k ≠ key → lm1.lock_table_ k = lm.lock_table_ k := by
    unfold TxnProcessor.lmRelease
    split_ifs
    · exact LockManagerA.releaseA_queue lm txn key hne
    · exact LockManagerB.releaseB_queue lm txn key hpos
  obtain ⟨lm1, h1, h2, h3⟩ := hrel
  have hready : ∃ woken, lm1.ready_txns_ = lm.ready_txns_ ++ woken := by
    unfold TxnProcessor.lmRelease at h1
    split_ifs at h1
    · exact LockManagerA.releaseA_ready lm lm1 txn key h1
    · exact LockManagerB.releaseB_ready lm lm1 txn key h1
  refine ⟨lm1, h1, ?_, hready⟩
  intro k
  by_cases hk : k = key
  · subst hk
    rw [h2, LockManager.countP_eraseFirst]
    have := h k
    simp only [List.count_cons_self] at this
    omega
  · have hq : lm1.queue k = lm.queue k := by
      unfold LockManager.queue; rw [h3 k hk]
    rw [hq]
    have := h k
    have hb : ¬ (key == k) = true := by simpa using fun h => hk h.symm
    simpa [List.count_cons, hb] using this

/-- A release loop over keys whose requests `txn` holds exactly is defined;
`txn` then holds exactly the requests of the keys that come after, and the
ready queue has only grown at its end. -/
theorem TxnProcessor.releaseLoop_exact (mode : CCMode) (txn : TxnPtr) (keys extra : List Key) :
    ∀ lm : LockManager, lm.HoldsExactly txn (keys ++ extra) →
      ∃ lm1, TxnProcessor.releaseLoop mode txn keys lm = some lm1 ∧
        lm1.HoldsExactly txn extra ∧
        ∃ woken, lm1.ready_txns_ = lm.ready_txns_ ++ woken := by
  induction keys with
  | nil => intro lm h; exact ⟨lm, rfl, by simpa using h, [], by simp⟩
  | cons key rest ih =>
    intro lm h
    obtain ⟨lm1, h1, h2, w1, hw1⟩ := TxnProcessor.lmRelease_exact mode lm txn key (rest ++ extra) h
    obtain ⟨lm2, h3, h4, w2, hw2⟩ := ih lm1 h2
    exact ⟨lm2, by simp only [TxnProcessor.releaseLoop, h1, h3], h4, w1 ++ w2,
      by rw [hw2, hw1, List.append_assoc]⟩

theorem TxnProcessor.lmRelease_ready (mode : CCMode) (lm lm1 : LockManager) (txn : TxnPtr)
    (key : Key) (h : TxnProcessor.lmRelease mode lm txn key = some lm1) :
    ∃ woken, lm1.ready_txns_ = lm.ready_txns_ ++ woken := by
  unfold TxnProcessor.lmRelease at h
  split_ifs at h
  · exact LockManagerA.releaseA_ready lm lm1 txn key h
  · exact LockManagerB.releaseB_ready lm lm1 txn key h

theorem TxnProcessor.getLastD_append (l1 l2 : List LockManager) :
    ∀ a : LockManager, (l1 ++ l2).getLastD a = l2.getLastD (l1.getLastD a) := by
  induction l1 with
  | nil => intro a; rfl
  | cons x rest ih => intro a; simp only [List.cons_append, List.getLastD_cons]; exact ih x

/-- The last of the lock managers that a release loop goes through is the one
the loop returns. -/
theorem TxnProcessor.releaseStates_loop (mode : CCMode) (txn : TxnPtr) (keys : List Key) :
    ∀ (lm : LockManager) (lms : List LockManager),
      TxnProcessor.releaseStates mode txn keys lm = some lms →
      TxnProcessor.releaseLoop mode txn keys lm = some (lms.getLastD lm) ∧
      lms.length = keys.length := by
  induction keys with
  | nil =>
    intro lm lms h
    simp only [TxnProcessor.releaseStates, Option.some.injEq] at h
    subst h
    exact ⟨rfl, rfl⟩
  | cons key rest ih =>
    intro lm lms h
    simp only [TxnProcessor.releaseStates] at h
    cases h1 : TxnProcessor.lmRelease mode lm txn key with
    | none => rw [h1] at h; simp at h
    | some lm1 =>
      rw [h1] at h
      simp only at h
      cases h2 : TxnProcessor.releaseStates mode txn rest lm1 with
      | none => rw [h2] at h; simp at h
      | some lms1 =>
        rw [h2] at h
        simp only [Option.some.injEq] at h
        subst h
        obtain ⟨e1, e2⟩ := ih lm1 lms1 h2
        refine ⟨?_, by simp [e2]⟩
        simp only [TxnProcessor.releaseLoop, h1, List.getLastD_cons]
        exact e1

/-- A release loop over keys whose requests `txn` holds exactly goes through
defined states; `txn` then holds exactly the requests of the keys that come
after. -/
theorem TxnProcessor.releaseStates_exact (mode : CCMode) (txn : TxnPtr)
    (keys extra : List Key) :
    ∀ lm : LockManager, lm.HoldsExactly txn (keys ++ extra) →
      ∃ lms, TxnProcessor.releaseStates mode txn keys lm = some lms ∧
        (lms.getLastD lm).HoldsExactly txn extra := by
  induction keys with
  | nil => intro lm h; exact ⟨[], rfl, by simpa using h⟩
  | cons key rest ih =>
    intro lm h
    obtain ⟨lm1, h1, h2, _⟩ := TxnProcessor.lmRelease_exact mode lm txn key (rest ++ extra) h
    obtain ⟨lms, h3, h4⟩ := ih lm1 h2
    exact ⟨lm1 :: lms, by simp only [TxnProcessor.releaseStates, h1, h3],
      by simpa only [List.getLastD_cons] using h4⟩

/-- The two release loops of the completion step, one after the other, go
through the states of one loop over the read set followed by the write set. -/
theorem TxnProcessor.releaseStates_append (mode : CCMode) (txn : TxnPtr) (k1 k2 : List Key) :
    ∀ (lm : LockManager) (lms1 lms2 : List LockManager),
      TxnProcessor.releaseStates mode txn k1 lm = some lms1 →
      TxnProcessor.releaseStates mode txn k2 (lms1.getLastD lm) = some lms2 →
      TxnProcessor.releaseStates mode txn (k1 ++ k2) lm = some (lms1 ++ lms2) := by
  induction k1 with
  | nil =>
    intro lm lms1 lms2 h1 h2
    simp only [TxnProcessor.releaseStates, Option.some.injEq] at h1
    subst h1
    exact h2
  | cons key rest ih =>
    intro lm lms1 lms2 h1 h2
    simp only [TxnProcessor.releaseStates] at h1
    cases e1 : TxnProcessor.lmRelease mode lm txn key with
    | none => rw [e1] at h1; simp at h1
    | some lm1 =>
      rw [e1] at h1
      simp only at h1
      cases e2 : TxnProcessor.releaseStates mode txn rest lm1 with
      | none => rw [e2] at h1; simp at h1
      | some lms =>
        rw [e2] at h1
        simp only [Option.some.injEq] at h1
        subst h1
        rw [List.getLastD_cons] at h2
        have := ih lm1 lms lms2 e2 h2
        show (TxnProcessor.releaseStates mode txn (key :: (rest ++ k2)) lm) = _
        simp only [TxnProcessor.releaseStates, e1, this, List.cons_append]

/-- The call number `i` of a release loop takes the lock manager from entry
`i` to entry `i + 1` of the list that starts with the lock manager the loop
is entered with and goes on with the states of the loop. -/
theorem TxnProcessor.releaseStates_step (mode : CCMode) (txn : TxnPtr) (keys : List Key) :
    ∀ (lm : LockManager) (lms : List LockManager),
      TxnProcessor.releaseStates mode txn keys lm = some lms →
      ∀ (i : Nat) (key : Key), keys[i]? = some key →
        ∃ a b, (lm :: lms)[i]? = some a ∧ (lm :: lms)[i + 1]? = some b ∧
          TxnProcessor.lmRelease mode a txn key = some b := by
  induction keys with
  | nil => intro lm lms _ i key hk; simp at hk
  | cons k rest ih =>
    intro lm lms h i key hk
    simp only [TxnProcessor.releaseStates] at h
    cases e1 : TxnProcessor.lmRelease mode lm txn k with
    | none => rw [e1] at h; simp at h
    | some lm1 =>
      rw [e1] at h
      simp only at h
      cases e2 : TxnProcessor.releaseStates mode txn rest lm1 with
      | none => rw [e2] at h; simp at h
      | some lms1 =>
        rw [e2] at h
        simp only [Option.some.injEq] at h
        subst h
        cases i with
        | zero =>
          simp only [List.getElem?_cons_zero, Option.some.injEq] at hk
          subst hk
          exact ⟨lm, lm1, rfl, by simp, e1⟩
        | succ j =>
          simp only [List.getElem?_cons_succ] at hk
          obtain ⟨a, b, ha, hb, hab⟩ := ih lm1 lms1 e2 j key hk
          exact ⟨a, b, by simpa using ha, by simpa using hb, hab⟩

/-- A release loop returns the last of the lock managers it goes through, and
is undefined when one of its calls is. -/
theorem TxnProcessor.releaseLoop_eq_last (mode : CCMode) (txn : TxnPtr) (keys : List Key) :
    ∀ lm : LockManager, TxnProcessor.releaseLoop mode txn keys lm =
      (TxnProcessor.releaseStates mode txn keys lm).map (fun lms => lms.getLastD lm) := by
  induction keys with
  | nil => intro lm; rfl
  | cons key rest ih =>
    intro lm
    simp only [TxnProcessor.releaseLoop, TxnProcessor.releaseStates]
    cases h1 : TxnProcessor.lmRelease mode lm txn key with
    | none => rfl
    | some lm1 =>
      simp only
      rw [ih lm1]
      cases TxnProcessor.releaseStates mode txn rest lm1 with
      | none => rfl
      | some lms =>
        show some (lms.getLastD lm1) = some ((lm1 :: lms).getLastD lm)
        rw [List.getLastD_cons]

theorem TxnProcessor.getLastD_concat (l : List TxnProcessor) (a : TxnProcessor) :
    ∀ d : TxnProcessor, (l ++ [a]).getLastD d = a := by
  induction l with
  | nil => intro d; rfl
  | cons x rest ih => intro d; simp only [List.cons_append, List.getLastD_cons]; exact ih x

/-- The completion step of the locking scheduler returns the last of the states
it goes through, the state it started in when the completion queue is empty,
and fails when going through them fails. -/
theorem TxnProcessor.RunLockingScheduler_complete_last (s : TxnProcessor) :
    TxnProcessor.RunLockingScheduler_complete s =
      match TxnProcessor.RunLockingScheduler_complete_states s with
      | .error e => .error e
      | .ok states => .ok (states.getLastD s) := by
  unfold TxnProcessor.RunLockingScheduler_complete
    TxnProcessor.RunLockingScheduler_complete_states
  cases hc : s.completed_txns_ with
  | nil => rfl
  | cons txn rest =>
    simp only
    cases h0 : TxnProcessor.commitOrAbort { s with completed_txns_ := rest } txn with
    | error e => rfl
    | ok s1 =>
      simp only
      rw [TxnProcessor.releaseLoop_eq_last]
      cases h1 : TxnProcessor.releaseStates s1.mode_ txn (s1.heap txn).readset_ s1.lm_ with
      | none => rfl
      | some lms1 =>
        simp only [Option.map_some']
        rw [TxnProcessor.releaseLoop_eq_last]
        cases h2 : TxnProcessor.releaseStates s1.mode_ txn (s1.heap txn).writeset_
            (lms1.getLastD s1.lm_) with
        | none => rfl
        | some lms2 =>
          simp only [Option.map_some']
          rw [TxnProcessor.getLastD_concat, TxnProcessor.getLastD_append]

/-- C27. The completion step of the locking scheduler, under either lock
manager, for a transaction `txn` that completed with COMPLETED_C, whose read
set and write set are disjoint, and that has exactly one request in the queue
of every key of these sets and none elsewhere (it was admitted and has
released nothing), goes through these states, in program order: first the
state the commit block leaves, in which the writes of `txn` are in storage
while the lock manager, ready queue included, is still the one from before
the step; then one state for each call `Release(txn, key)`, over the read set
and then the write set; last the state after the result is published, which
is the state the step returns. Every `Release` call is defined, starts in a
state of this list whose storage holds the writes of `txn`, changes the lock
manager only, and only appends to the ready queue, so every transaction that
the releases append to the ready queue is appended when the writes are in
storage. On single-version storage, with the keys of `writes_` distinct, the
storage of every state of the list holds `(v, id)` at `k` for every `(k, v)`
of `writes_`. After the step no queue holds a request of `txn`. -/
theorem C27_writes_before_releases (s : TxnProcessor) (txn : TxnPtr) (rest : List TxnPtr)
    (hc : s.completed_txns_ = txn :: rest)
    (hst : (s.heap txn).status_ = TxnStatus.COMPLETED_C)
    (hr : (s.heap txn).readset_.Nodup) (hw : (s.heap txn).writeset_.Nodup)
    (hdis : ∀ k ∈ (s.heap txn).readset_, k ∉ (s.heap txn).writeset_)
    (hheld : ∀ k, k ∈ (s.heap txn).readset_ ∨ k ∈ (s.heap txn).writeset_ →
      (s.lm_.queue k).countP (fun r => decide (r.txn_ = txn)) = 1)
    (hnone : ∀ k, k ∉ (s.heap txn).readset_ → k ∉ (s.heap txn).writeset_ →
      (s.lm_.queue k).countP (fun r => decide (r.txn_ = txn)) = 0) :
    ∃ (states : List TxnProcessor) (final : TxnProcessor),
      TxnProcessor.RunLockingScheduler_complete_states s = .ok states ∧
      TxnProcessor.RunLockingScheduler_complete s = .ok final ∧
      states.getLast? = some final ∧
      states.length = ((s.heap txn).readset_ ++ (s.heap txn).writeset_).length + 2 ∧
      states.head? = some (TxnProcessor.commit { s with completed_txns_ := rest } txn) ∧
      (TxnProcessor.commit { s with completed_txns_ := rest } txn).lm_ = s.lm_ ∧
      (∀ st ∈ states, st.storage_ =
        TxnProcessor.applyWritesLoop (s.heap txn).unique_id_ (s.heap txn).writes_ s.storage_) ∧
      (∀ (i : Nat) (key : Key),
        ((s.heap txn).readset_ ++ (s.heap txn).writeset_)[i]? = some key →
        ∃ a b, states[i]? = some a ∧ states[i + 1]? = some b ∧
          a.storage_ = TxnProcessor.applyWritesLoop (s.heap txn).unique_id_
            (s.heap txn).writes_ s.storage_ ∧
          TxnProcessor.lmRelease s.mode_ a.lm_ txn key = some b.lm_ ∧
          b = { a with lm_ := b.lm_ } ∧
          ∃ woken, b.lm_.ready_txns_ = a.lm_.ready_txns_ ++ woken) ∧
      (∀ st0 : Storage, s.storage_ = StorageImpl.sv st0 →
        ((s.heap txn).writes_.map Prod.fst).Nodup →
        ∃ st1 : Storage, (∀ st ∈ states, st.storage_ = StorageImpl.sv st1) ∧
          ∀ k v, (k, v) ∈ (s.heap txn).writes_ →
            st1.data_ k = some (v, (s.heap txn).unique_id_)) ∧
      ∀ k, ∀ r ∈ final.lm_.queue k, r.txn_ ≠ txn := by
  have hexact : s.lm_.HoldsExactly txn ((s.heap txn).readset_ ++ (s.heap txn).writeset_) := by
    intro k
    rw [List.count_append, List.count_eq_of_nodup hr, List.count_eq_of_nodup hw]
    by_cases h1 : k ∈ (s.heap txn).readset_
    · rw [hheld k (Or.inl h1), if_pos h1, if_neg (hdis k h1)]
    · by_cases h2 : k ∈ (s.heap txn).writeset_
      · rw [hheld k (Or.inr h2), if_neg h1, if_pos h2]
      · rw [hnone k h1 h2, if_neg h1, if_neg h2]
  obtain ⟨lms1, e1, e2⟩ := TxnProcessor.releaseStates_exact s.mode_ txn
    (s.heap txn).readset_ (s.heap txn).writeset_ s.lm_ hexact
  obtain ⟨lms2, e3, e4⟩ := TxnProcessor.releaseStates_exact s.mode_ txn
    (s.heap txn).writeset_ [] (lms1.getLastD s.lm_) (by simpa using e2)
  obtain ⟨l1, n1⟩ := TxnProcessor.releaseStates_loop s.mode_ txn _ _ _ e1
  obtain ⟨l2, n2⟩ := TxnProcessor.releaseStates_loop s.mode_ txn _ _ _ e3
  have e5 := TxnProcessor.releaseStates_append s.mode_ txn _ _ _ _ _ e1 e3
  obtain ⟨c1, c2, _, _, _, _, c7, _, c9, c10, _⟩ :=
    TxnProcessor.commitOrAbort_commit { s with completed_txns_ := rest } txn hst
  have m1 : (TxnProcessor.commit { s with completed_txns_ := rest } txn).mode_ = s.mode_ := rfl
  have hlast : (lms1 ++ lms2).getLastD s.lm_ = lms2.getLastD (lms1.getLastD s.lm_) :=
    TxnProcessor.getLastD_append lms1 lms2 s.lm_
  have hstates : TxnProcessor.RunLockingScheduler_complete_states s =
      .ok ((s.lm_ :: (lms1 ++ lms2)).map
          (fun lm => { TxnProcessor.commit { s with completed_txns_ := rest } txn with
            lm_ := lm }) ++
        [{ TxnProcessor.commit { s with completed_txns_ := rest } txn with
          lm_ := (lms1 ++ lms2).getLastD s.lm_ }.publish txn]) := by
    unfold TxnProcessor.RunLockingScheduler_complete_states
    rw [hc]
    simp only [c1]
    rw [m1, c9, c10, c7, e1]
    simp only
    rw [e3]
    rfl
  generalize hS1 : TxnProcessor.commit { s with completed_txns_ := rest } txn = S1
    at c1 c2 c7 c9 c10 m1 hstates
  have hfinal : TxnProcessor.RunLockingScheduler_complete s =
      .ok ({ S1 with lm_ := (lms1 ++ lms2).getLastD s.lm_ }.publish txn) := by
    rw [TxnProcessor.RunLockingScheduler_complete_cons s txn rest hc, c1]
    simp only
    rw [m1, c9, c10, c7, l1]
    simp only
    rw [l2, hlast]
  have hsto : ∀ st ∈ (s.lm_ :: (lms1 ++ lms2)).map (fun lm => { S1 with lm_ := lm }) ++
      [{ S1 with lm_ := (lms1 ++ lms2).getLastD s.lm_ }.publish txn],
      st.storage_ = S1.storage_ := by
    intro st hmem
    rw [List.mem_append, List.mem_map, List.mem_singleton] at hmem
    rcases hmem with ⟨lm, _, rfl⟩ | rfl
    · rfl
    · rfl
  refine ⟨_, _, hstates, hfinal, List.getLast?_concat _, ?_, ?_, c7, ?_, ?_, ?_, ?_⟩
  · simp only [List.length_append, List.length_map, List.length_cons, List.length_singleton,
      List.length_nil, n1, n2]
  · simp only [List.map_cons, List.cons_append, List.head?_cons, Option.some.injEq]
    rw [← c7]
  · intro st hmem
    rw [hsto st hmem, c2]
  · intro i key hk
    obtain ⟨a, b, ha, hb, hab⟩ := TxnProcessor.releaseStates_step s.mode_ txn _ _ _ e5 i key hk
    have hi : i < ((s.heap txn).readset_ ++ (s.heap txn).writeset_).length := by
      by_contra hcon
      rw [List.getElem?_eq_none (by omega)] at hk
      exact absurd hk (by simp)
    have hlen : ((s.lm_ :: (lms1 ++ lms2)).map (fun lm => { S1 with lm_ := lm })).length =
        ((s.heap txn).readset_ ++ (s.heap txn).writeset_).length + 1 := by
      simp only [List.length_append, List.length_map, List.length_cons, n1, n2]
    refine ⟨{ S1 with lm_ := a }, { S1 with lm_ := b }, ?_, ?_, c2, hab, rfl,
      TxnProcessor.lmRelease_ready s.mode_ a b txn key hab⟩
    · rw [List.getElem?_append_left (by rw [hlen]; omega), List.getElem?_map, ha]
      rfl
    · rw [List.getElem?_append_left (by rw [hlen]; omega), List.getElem?_map, hb]
      rfl
  · intro st0 hsv hnd
    obtain ⟨st1, a1, a2, _⟩ :=
      TxnProcessor.applyWritesLoop_sv (s.heap txn).unique_id_ (s.heap txn).writes_ st0 hnd
    refine ⟨st1, ?_, a2⟩
    intro st hmem
    rw [hsto st hmem, c2, hsv]
    exact a1
  · intro k r hr1 hr2
    have hq : ({ S1 with lm_ := (lms1 ++ lms2).getLastD s.lm_ }.publish txn).lm_ =
        lms2.getLastD (lms1.getLastD s.lm_) := hlast
    rw [hq] at hr1
    have := e4 k
    simp only [List.count_nil, List.countP_eq_zero] at this
    exact absurd hr2 (by simpa using this r hr1)

/-- The lock table of `Scenario.lockingCompleted` holds no queue for a key
other than 3 and 4. -/
theorem Scenario.lockingCompleted_queue (mode : CCMode) (status : TxnStatus) (k : Key)
    (h3 : k ≠ 3) (h4 : k ≠ 4) :
    (Scenario.lockingCompleted mode status).lm_.queue k = [] := by
  have hlm : (Scenario.lockingCompleted mode status).lm_.lock_table_ k = Slot.absent := by
    simp only [Scenario.lockingCompleted, TxnProcessor.ExecuteTxn, TxnProcessor.ExecuteTxn_push,
      TxnProcessor.ExecuteTxn_run, TxnProcessor.ExecuteTxn_reads, TxnProcessor.setTxn,
      TxnProcessor.RunLockingScheduler_admit, TxnProcessor.NewTxnRequest,
      Scenario.newProcessor, Scenario.newTxn, TxnProcessor.lockLoop, List.append_nil,
      List.nil_append, Function.update_same]
    unfold TxnProcessor.lmReadLock TxnProcessor.lmWriteLock
    split_ifs <;>
      simp [LockManagerA.ReadLock, LockManagerA.WriteLock, LockManagerB.ReadLock,
        LockManagerB.WriteLock, LockManager.enqueue, LockManager.empty, LockManager.incr,
        LockManager.queue, Slot.reqs, Function.update_noteq h3, Function.update_noteq h4]
  simp [LockManager.queue, hlm, Slot.reqs]

/-- C27, at a concrete input: under `LockManagerB`, transaction 1 (read set
{3}, write set {4}) completed with COMPLETED_C; the completion step goes
through four states, after the commit, after `Release(1, 3)`, after
`Release(1, 4)` and after the result is published; the storage of each of
them holds the writes of transaction 1, and the last one, which the step
returns, has no request of transaction 1 in any queue. -/
theorem C27_writes_before_releases_witness :
    ∃ (states : List TxnProcessor) (final : TxnProcessor),
      TxnProcessor.RunLockingScheduler_complete_states
        (Scenario.lockingCompleted CCMode.LOCKING TxnStatus.COMPLETED_C) = .ok states ∧
      TxnProcessor.RunLockingScheduler_complete
        (Scenario.lockingCompleted CCMode.LOCKING TxnStatus.COMPLETED_C) = .ok final ∧
      states.length = 4 ∧
      (∀ st ∈ states, st.storage_ = TxnProcessor.applyWritesLoop 1 [(4, 40)]
        (StorageImpl.sv ((Storage.empty.Write 3 0 0).Write 4 0 0))) ∧
      ∀ k, ∀ r ∈ final.lm_.queue k, r.txn_ ≠ 1 := by
  have hmem : ∀ k, (k ∈ ((Scenario.lockingCompleted CCMode.LOCKING
      TxnStatus.COMPLETED_C).heap 1).readset_ ↔ k = 3) ∧
      (k ∈ ((Scenario.lockingCompleted CCMode.LOCKING
      TxnStatus.COMPLETED_C).heap 1).writeset_ ↔ k = 4) := by
    intro k
    constructor
    · show k ∈ [3] ↔ k = 3
      simp
    · show k ∈ [4] ↔ k = 4
      simp
  obtain ⟨states, final, h1, h2, _, h4, _, _, h7, _, _, h10⟩ := C27_writes_before_releases
    (Scenario.lockingCompleted CCMode.LOCKING TxnStatus.COMPLETED_C) 1 [] rfl (by decide)
    (by decide) (by decide) (by decide)
    (by
      intro k hk
      rw [(hmem k).1, (hmem k).2] at hk
      rcases hk with h | h <;> subst h <;> decide)
    (by
      intro k h1 h2
      rw [(hmem k).1] at h1
      rw [(hmem k).2] at h2
      rw [Scenario.lockingCompleted_queue CCMode.LOCKING TxnStatus.COMPLETED_C k h1 h2]
      rfl)
  exact ⟨states, final, h1, h2, h4, h7, h10⟩

/-! ### Pending counters of `LockManagerA` -/

/-- C29 (the claim as stated fails). After `WriteLock(1, 1)`, `WriteLock(2, 1)`
and `WriteLock(2, 2)` the pending counter of transaction 2 is 1, the number of
its requests that are not at the head of a queue. `Release(2, 2)`, the release
of a request that is present in the queue of key 2, erases the counter of
transaction 2: it reads 0, while the request of transaction 2 on key 1 is
still behind the one of transaction 1. -/
theorem C29_release_erases_counter_counterexample :
    Scenario.waitingHolder.queue 1 = [⟨LockMode.EXCLUSIVE, 1⟩, ⟨LockMode.EXCLUSIVE, 2⟩] ∧
    Scenario.waitingHolder.queue 2 = [⟨LockMode.EXCLUSIVE, 2⟩] ∧
    Scenario.waitingHolder.counter 2 = 1 ∧
    Scenario.waitingHolder.waitingBelow 2 3 = 1 ∧
    Scenario.waitingHolderReleased.map
      (fun lm => (lm.queue 1, lm.queue 2, lm.counter 2, lm.waitingBelow 2 3)) =
      some ([⟨LockMode.EXCLUSIVE, 1⟩, ⟨LockMode.EXCLUSIVE, 2⟩], [], 0, 1) := by
  decide

theorem LockManager.waitingBelow_congr (lm1 lm2 : LockManager) (t : TxnPtr) (n : Nat)
    (h : ∀ k, k < n → lm1.queue k = lm2.queue k) :
    lm1.waitingBelow t n = lm2.waitingBelow t n := by
  induction n with
  | zero => rfl
  | succ n ih =>
    simp only [LockManager.waitingBelow]
    rw [ih (fun k hk => h k (Nat.lt_succ_of_lt hk)), h n (Nat.lt_succ_self n)]

/-- Two managers whose queues differ on one key only, below `n`: the counts
differ by what the queue of that key contributes. -/
theorem LockManager.waitingBelow_update (lm lm1 : LockManager) (t : TxnPtr) (key : Nat)
    (h : ∀ k, k ≠ key → lm1.queue k = lm.queue k) (n : Nat) (hk : key < n) :
    lm1.waitingBelow t n + (lm.queue key).tail.countP (fun r => decide (r.txn_ = t)) =
      lm.waitingBelow t n + (lm1.queue key).tail.countP (fun r => decide (r.txn_ = t)) := by
  induction n with
  | zero => exact absurd hk (Nat.not_lt_zero _)
  | succ n ih =>
    simp only [LockManager.waitingBelow]
    by_cases hn : key = n
    · subst hn
      rw [LockManager.waitingBelow_congr lm1 lm t key
        (fun k hk1 => h k (Nat.ne_of_lt hk1))]
      omega
    · have hlt : key < n := by omega
      have := ih hlt
      rw [h n (fun e => hn e.symm)]
      omega

theorem LockManager.waitingBelow_extend (lm : LockManager) (t : TxnPtr) (n : Nat)
    (h : ∀ k, n ≤ k → lm.queue k = []) :
    ∀ m, n ≤ m → lm.waitingBelow t m = lm.waitingBelow t n := by
  intro m hm
  induction m with
  | zero =>
    have : n = 0 := by omega
    subst this; rfl
  | succ m ih =>
    by_cases hn : n = m + 1
    · subst hn; rfl
    · have hle : n ≤ m := by omega
      simp only [LockManager.waitingBelow]
      rw [ih hle, h m hle]
      simp

theorem LockManager.waitingBelow_eq_zero (lm : LockManager) (t : TxnPtr) (n : Nat)
    (h : lm.waitingBelow t n = 0) :
    ∀ k, k < n → (lm.queue k).tail.countP (fun r => decide (r.txn_ = t)) = 0 := by
  induction n with
  | zero => intro k hk; exact absurd hk (Nat.not_lt_zero _)
  | succ n ih =>
    simp only [LockManager.waitingBelow] at h
    intro k hk
    by_cases hn : k = n
    · subst hn; omega
    · exact ih (by omega) k (by omega)

theorem LockManager.countersExact_mono (lm : LockManager) (n m : Nat) (hnm : n ≤ m)
    (h : lm.CountersExact n) : lm.CountersExact m := by
  refine ⟨fun k hk => h.1 k (le_trans hnm hk), fun t => ?_⟩
  rw [h.2 t, LockManager.waitingBelow_extend lm t n h.1 m hnm]

/-- A lock request of `LockManagerA` keeps the pending counters exact. -/
theorem LockManagerA.countersExact_writeLock (lm : LockManager) (txn : TxnPtr) (key n : Nat)
    (h : lm.CountersExact n) :
    (LockManagerA.WriteLock lm txn key).2.CountersExact (max n (key + 1)) := by
  have hm1 : n ≤ max n (key + 1) := le_max_left _ _
  have hm2 : key < max n (key + 1) := lt_of_lt_of_le (Nat.lt_succ_self key) (le_max_right _ _)
  have hx := LockManager.countersExact_mono lm n _ hm1 h
  generalize max n (key + 1) = m at hm1 hm2 hx
  have hreq := LockManager.exclusive_request lm txn key
  simp only at hreq
  obtain ⟨q1, q2, q3, q4, q5, _⟩ := hreq
  have hother : ∀ k, k ≠ key → (LockManagerA.WriteLock lm txn key).2.queue k = lm.queue k := by
    intro k hk
    unfold LockManager.queue
    rw [q5 k hk]
  refine ⟨?_, ?_⟩
  · intro k hk
    have hne : k ≠ key := by
      intro e; subst e; exact absurd hm2 (not_lt.mpr hk)
    rw [hother k hne]
    exact hx.1 k hk
  · intro t
    have hB := LockManager.waitingBelow_update lm (LockManagerA.WriteLock lm txn key).2 t key
      hother m hm2
    rw [q1] at hB
    have hc := hx.2 t
    by_cases hq : lm.queue key = []
    · have hw := q4 (q2.mpr hq)
      rw [hq] at hB
      simp only [List.nil_append, List.tail_cons, List.tail_nil, List.countP_nil,
        Nat.add_zero] at hB
      simp only [LockManager.counter, hw] at hc ⊢
      rw [hc, hB]
    · have hfalse : (LockManagerA.WriteLock lm txn key).1 = false := by
        cases hb : (LockManagerA.WriteLock lm txn key).1 with
        | false => rfl
        | true => exact absurd (q2.mp hb) hq
      obtain ⟨c1, c2⟩ := q3 hfalse
      cases hqq : lm.queue key with
      | nil => exact absurd hqq hq
      | cons a q =>
        rw [hqq] at hB
        simp only [List.cons_append, List.tail_cons, List.countP_append, List.countP_cons,
          List.countP_nil] at hB
        by_cases ht : t = txn
        · subst ht
          rw [c1, hc]
          simp only [decide_True, if_true] at hB
          omega
        · have hcount : (LockManagerA.WriteLock lm txn key).2.counter t = lm.counter t := by
            simp only [LockManager.counter, c2 t ht]
          have hne : ¬ (txn = t) := fun e => ht e.symm
          rw [hcount, hc]
          simp only [hne, decide_False] at hB
          simp only [Bool.false_eq_true, if_false] at hB
          omega

/-- Removing the head of the queue of `key`, with counters adjusted by what the
remaining queue contributes, keeps the pending counters exact. -/
theorem LockManagerA.countersExact_pop (lm lmx : LockManager) (key n : Nat) (r : LockRequest)
    (rest : List LockRequest) (h : lm.CountersExact n) (hkn : key < n)
    (hq : lm.queue key = r :: rest)
    (hl : lmx.lock_table_ = Function.update lm.lock_table_ key (Slot.deque rest))
    (hc : ∀ t, lmx.counter t + (rest.countP (fun r => decide (r.txn_ = t)) : Int) =
      lm.counter t + (rest.tail.countP (fun r => decide (r.txn_ = t)) : Int)) :
    lmx.CountersExact n := by
  have hother : ∀ k, k ≠ key → lmx.queue k = lm.queue k := by
    intro k hk
    unfold LockManager.queue
    rw [hl, Function.update_noteq hk]
  have hkey : lmx.queue key = rest := LockManager.queue_of_slot (by rw [hl]; simp)
  refine ⟨?_, ?_⟩
  · intro k hk
    have hne : k ≠ key := by
      intro e; subst e; exact absurd hkn (not_lt.mpr hk)
    rw [hother k hne]
    exact h.1 k hk
  · intro t
    have hB := LockManager.waitingBelow_update lm lmx t key hother n hkn
    rw [hq, hkey, List.tail_cons] at hB
    have h1 := h.2 t
    have h2 := hc t
    omega

/-- A release by a transaction whose pending counter is 0 keeps the pending
counters of `LockManagerA` exact. -/
theorem LockManagerA.countersExact_release (lm lm1 : LockManager) (txn : TxnPtr) (key n : Nat)
    (h : lm.CountersExact n) (hpres : ∃ r ∈ lm.queue key, r.txn_ = txn)
    (hzero : lm.counter txn = 0) (hrel : LockManagerA.Release lm txn key = some lm1) :
    lm1.CountersExact n := by
  have hne : lm.queue key ≠ [] := by
    obtain ⟨r, hr, _⟩ := hpres
    intro e; rw [e] at hr; simp at hr
  have hkn : key < n := by
    by_contra hcon
    exact hne (h.1 key (not_lt.mp hcon))
  have hw0 : lm.waitingBelow txn n = 0 := by
    have := h.2 txn
    rw [hzero] at this
    exact_mod_cast this.symm
  have htail := LockManager.waitingBelow_eq_zero lm txn n hw0 key hkn
  have hs := LockManager.slot_of_queue_ne_nil hne
  cases hq : lm.queue key with
  | nil => exact absurd hq hne
  | cons r rest =>
    rw [hq] at hs htail hpres
    simp only [List.tail_cons] at htail
    have hnot : ∀ x ∈ rest, x.txn_ ≠ txn := by
      intro x hx e
      have := List.countP_eq_zero.mp htail x hx
      simp [e] at this
    have hr : r.txn_ = txn := by
      obtain ⟨x, hx, e⟩ := hpres
      rcases List.mem_cons.mp hx with h1 | h1
      · rw [← h1]; exact e
      · exact absurd e (hnot x h1)
    unfold LockManagerA.Release at hrel
    rw [hs] at hrel
    simp only [hr, if_true] at hrel
    cases rest with
    | nil =>
      simp only [Option.some.injEq] at hrel
      subst hrel
      apply LockManagerA.countersExact_pop lm _ key n r [] h hkn hq rfl
      intro t
      simp only [List.countP_nil, List.tail_nil, Nat.cast_zero, add_zero]
      by_cases ht : t = txn
      · subst ht
        simp [LockManager.counter, hzero] at hzero ⊢
        exact hzero.symm
      · simp [LockManager.counter, Function.update_noteq ht]
    | cons r1 rest1 =>
      have hne1 : r1.txn_ ≠ txn := hnot r1 (List.mem_cons_self _ _)
      have hcount : ∀ lmx : LockManager,
          lmx.txn_waits_ = Function.update (Function.update lm.txn_waits_ txn none) r1.txn_
            (some (lm.counter r1.txn_ - 1)) →
          ∀ t, lmx.counter t +
              (((r1 :: rest1).countP (fun r => decide (r.txn_ = t)) : Nat) : Int) =
            lm.counter t +
              (((r1 :: rest1).tail.countP (fun r => decide (r.txn_ = t)) : Nat) : Int) := by
        intro lmx hx t
        simp only [List.tail_cons, List.countP_cons]
        by_cases ht1 : t = r1.txn_
        · subst ht1
          simp only [LockManager.counter, hx, Function.update_same, Option.getD_some,
            decide_True, if_true]
          push_cast
          ring
        · have hd : ¬ (r1.txn_ = t) := fun e => ht1 e.symm
          simp only [hd, decide_False, Bool.false_eq_true, if_false, Nat.add_zero]
          by_cases ht : t = txn
          · subst ht
            simp only [LockManager.counter, hx, Function.update_noteq ht1, Function.update_same,
              Option.getD_none]
            simp only [LockManager.counter] at hzero
            rw [hzero]
          · simp only [LockManager.counter, hx, Function.update_noteq ht1,
              Function.update_noteq ht]
      have hcnt1 : ({ lm with
          lock_table_ := Function.update lm.lock_table_ key (Slot.deque (r1 :: rest1))
          txn_waits_ := Function.update lm.txn_waits_ txn none } : LockManager).counter r1.txn_ =
          lm.counter r1.txn_ := by
        simp [LockManager.counter, Function.update_noteq hne1]
      simp only [hcnt1] at hrel
      split_ifs at hrel
      · simp only [Option.some.injEq] at hrel
        subst hrel
        exact LockManagerA.countersExact_pop lm _ key n r (r1 :: rest1) h hkn hq rfl
          (hcount _ rfl)
      · simp only [Option.some.injEq] at hrel
        subst hrel
        exact LockManagerA.countersExact_pop lm _ key n r (r1 :: rest1) h hkn hq rfl
          (hcount _ rfl)

theorem LockManagerA.countersExact_of_reachable (lm : LockManager)
    (h : LockManagerA.Reachable lm) : ∃ n, lm.CountersExact n := by
  induction h with
  | empty =>
    refine ⟨0, fun k _ => rfl, fun t => ?_⟩
    simp [LockManager.counter, LockManager.empty, LockManager.waitingBelow]
  | readLock lm txn key _ ih =>
    obtain ⟨n, hn⟩ := ih
    exact ⟨_, LockManagerA.countersExact_writeLock lm txn key n hn⟩
  | writeLock lm txn key _ ih =>
    obtain ⟨n, hn⟩ := ih
    exact ⟨_, LockManagerA.countersExact_writeLock lm txn key n hn⟩
  | release lm lm1 txn key _ hpres hzero hrel ih =>
    obtain ⟨n, hn⟩ := ih
    exact ⟨n, LockManagerA.countersExact_release lm lm1 txn key n hn hpres hzero hrel⟩

/-- C29 (amended). In every state of `LockManagerA` reached from the empty
manager by `ReadLock` and `WriteLock` calls and by `Release(txn, key)` calls
for a request present in the queue of `key`, made while the pending counter
of `txn` is 0: only finitely many keys (those below some `n`) have a queued
request, and the pending counter of every transaction equals the number of
its queued requests that are not at the head of the queue of their key
(counted over the keys below any `m ≥ n`). -/
theorem C29_pending_counters_exact (lm : LockManager) (h : LockManagerA.Reachable lm) :
    ∃ n, (∀ k, n ≤ k → lm.queue k = []) ∧
      ∀ t m, n ≤ m → lm.counter t = (lm.waitingBelow t m : Int) := by
  obtain ⟨n, hn⟩ := LockManagerA.countersExact_of_reachable lm h
  exact ⟨n, hn.1, fun t m hm => (LockManager.countersExact_mono lm n m hm hn).2 t⟩

/-- C29, at a concrete input: after `WriteLock(1, 1)`, `WriteLock(2, 1)` and
`Release(1, 1)` (transaction 1 waits for nothing), the counters are exact:
transaction 2 is at the head of the queue of key 1 and its counter is 0. -/
theorem C29_pending_counters_exact_witness :
    Scenario.handedOver.queue 1 = [⟨LockMode.EXCLUSIVE, 2⟩] ∧
    Scenario.handedOver.counter 2 = 0 ∧
    ∃ n, (∀ k, n ≤ k → Scenario.handedOver.queue k = []) ∧
      ∀ t m, n ≤ m →
        Scenario.handedOver.counter t = (Scenario.handedOver.waitingBelow t m : Int) :=
  ⟨by decide, by decide,
    C29_pending_counters_exact Scenario.handedOver
      (LockManagerA.Reachable.release
        (LockManagerA.WriteLock (LockManagerA.WriteLock LockManager.empty 1 1).2 2 1).2
        Scenario.handedOver 1 1
        (LockManagerA.Reachable.writeLock _ 2 1
          (LockManagerA.Reachable.writeLock _ 1 1 LockManagerA.Reachable.empty))
        ⟨⟨LockMode.EXCLUSIVE, 1⟩, by decide, rfl⟩ (by decide) rfl)⟩

/-! ### The ids a processor hands out -/

theorem TxnProcessor.readmit_id (s : TxnProcessor) (txn : TxnPtr) :
    ((TxnProcessor.readmit s txn).heap txn).unique_id_ = s.next_unique_id_ ∧
    (TxnProcessor.readmit s txn).next_unique_id_ = intSucc s.next_unique_id_ := by
  simp [TxnProcessor.readmit, TxnProcessor.setTxn]

theorem TxnProcessor.commitOrAbort_next (s s1 : TxnProcessor) (txn : TxnPtr)
    (h : TxnProcessor.commitOrAbort s txn = .ok s1) :
    s1.next_unique_id_ = s.next_unique_id_ := by
  unfold TxnProcessor.commitOrAbort at h
  cases hst : (s.heap txn).status_ <;> rw [hst] at h <;> simp only [Except.ok.injEq] at h
  all_goals first
    | (subst h; rfl)
    | exact absurd h (by simp)

theorem TxnProcessor.RunSerialScheduler_step_next (s s1 : TxnProcessor) (now : Rat)
    (uninit : Value) (Run : Txn → Txn)
    (h : TxnProcessor.RunSerialScheduler_step s now uninit Run = .ok s1) :
    s1.next_unique_id_ = s.next_unique_id_ := by
  unfold TxnProcessor.RunSerialScheduler_step at h
  cases hr : s.txn_requests_ with
  | nil =>
    rw [hr] at h
    simp only [Except.ok.injEq] at h
    subst h; rfl
  | cons txn rest =>
    rw [hr] at h
    simp only at h
    cases hc : TxnProcessor.commitOrAbort
        (TxnProcessor.ExecuteTxn { s with txn_requests_ := rest } txn now uninit Run) txn with
    | error e => rw [hc] at h; simp at h
    | ok s2 =>
      rw [hc] at h
      simp only [Except.ok.injEq] at h
      subst h
      exact TxnProcessor.commitOrAbort_next
        (TxnProcessor.ExecuteTxn { s with txn_requests_ := rest } txn now uninit Run) s2 txn hc

theorem TxnProcessor.RunLockingScheduler_complete_next (s s1 : TxnProcessor)
    (h : TxnProcessor.RunLockingScheduler_complete s = .ok s1) :
    s1.next_unique_id_ = s.next_unique_id_ := by
  unfold TxnProcessor.RunLockingScheduler_complete at h
  cases hr : s.completed_txns_ with
  | nil =>
    rw [hr] at h
    simp only [Except.ok.injEq] at h
    subst h; rfl
  | cons txn rest =>
    rw [hr] at h
    simp only at h
    cases hc : TxnProcessor.commitOrAbort { s with completed_txns_ := rest } txn with
    | error e => rw [hc] at h; simp at h
    | ok s2 =>
      rw [hc] at h
      simp only at h
      have hn := TxnProcessor.commitOrAbort_next _ _ _ hc
      cases h1 : TxnProcessor.releaseLoop s2.mode_ txn (s2.heap txn).readset_ s2.lm_ with
      | none => rw [h1] at h; simp at h
      | some lm1 =>
        rw [h1] at h
        simp only at h
        cases h2 : TxnProcessor.releaseLoop s2.mode_ txn (s2.heap txn).writeset_ lm1 with
        | none => rw [h2] at h; simp at h
        | some lm2 =>
          rw [h2] at h
          simp only [Except.ok.injEq] at h
          subst h
          exact hn

theorem TxnProcessor.RunMVCCMV2PLScheduler_complete_next (s s1 : TxnProcessor)
    (h : TxnProcessor.RunMVCCMV2PLScheduler_complete s = .ok s1) :
    s1.next_unique_id_ = s.next_unique_id_ := by
  unfold TxnProcessor.RunMVCCMV2PLScheduler_complete at h
  cases hr : s.completed_txns_ with
  | nil =>
    rw [hr] at h
    simp only [Except.ok.injEq] at h
    subst h; rfl
  | cons txn rest =>
    rw [hr] at h
    simp only at h
    cases h1 : TxnProcessor.releaseLoop s.mode_ txn (s.heap txn).readset_ s.lm_ with
    | none => rw [h1] at h; simp at h
    | some lm1 =>
      rw [h1] at h
      simp only at h
      cases h2 : TxnProcessor.releaseLoop s.mode_ txn (s.heap txn).writeset_ lm1 with
      | none => rw [h2] at h; simp at h
      | some lm2 =>
        rw [h2] at h
        simp only [Except.ok.injEq] at h
        subst h
        rfl

/-- What one call does to the ids: a call that hands out an id gives its
transaction the value of `next_unique_id_` and increments `next_unique_id_`;
any other call leaves `next_unique_id_` as it is. -/
theorem Call.apply_ids (c : Call) (s s1 : TxnProcessor) (h : c.apply s = .ok s1) :
    (∀ txn, c.assignee s = some txn →
      (s1.heap txn).unique_id_ = s.next_unique_id_ ∧
      s1.next_unique_id_ = intSucc s.next_unique_id_) ∧
    (c.assignee s = none → s1.next_unique_id_ = s.next_unique_id_) := by
  cases c with
  | submit txn =>
    simp only [Call.apply, Except.ok.injEq] at h
    subst h
    simp [Call.assignee, TxnProcessor.NewTxnRequest, TxnProcessor.setTxn]
  | pop =>
    simp only [Call.apply, TxnProcessor.popRequest] at h
    cases hr : s.txn_requests_ with
    | nil =>
      rw [hr] at h
      simp only [Except.ok.injEq] at h
      subst h
      simp [Call.assignee]
    | cons txn rest =>
      rw [hr] at h
      simp only [Except.ok.injEq] at h
      subst h
      simp [Call.assignee]
  | serialStep now uninit Run =>
    simp only [Call.apply] at h
    simp [Call.assignee, TxnProcessor.RunSerialScheduler_step_next s s1 now uninit Run h]
  | lockingAdmission =>
    simp only [Call.apply, Except.ok.injEq] at h
    subst h
    simp only [Call.assignee, reduceCtorEq, false_implies, implies_true, true_and]
    unfold TxnProcessor.RunLockingScheduler_admit
    cases s.txn_requests_ <;> intros <;> rfl
  | lockingCompletion =>
    simp only [Call.apply] at h
    simp [Call.assignee, TxnProcessor.RunLockingScheduler_complete_next s s1 h]
  | execute txn now uninit Run =>
    simp only [Call.apply, Except.ok.injEq] at h
    subst h
    simp only [Call.assignee, reduceCtorEq, false_implies, implies_true, true_and]
    intros; rfl
  | forwardCompletion =>
    simp only [Call.apply, Except.ok.injEq] at h
    subst h
    unfold TxnProcessor.RunOCCSerialSchedulerForwardValidation_complete
    cases hr : s.completed_txns_ with
    | nil => simp [Call.assignee, hr]
    | cons txn rest =>
      have hv : TxnProcessor.SerialValidate { s with completed_txns_ := rest } txn =
          TxnProcessor.SerialValidate s txn := rfl
      simp only [Call.assignee, hr, hv]
      cases hsv : TxnProcessor.SerialValidate s txn with
      | true =>
        simp only [if_true, reduceCtorEq, false_implies, implies_true, true_and]
        intros; rfl
      | false =>
        simp only [Bool.false_eq_true, if_false, Option.some.injEq, reduceCtorEq, false_implies,
          and_true]
        intro t ht
        subst ht
        exact TxnProcessor.readmit_id { s with completed_txns_ := rest } txn
  | backwardCompletion =>
    simp only [Call.apply, Except.ok.injEq] at h
    subst h
    unfold TxnProcessor.RunOCCSerialSchedulerBackwardValidation_complete
    cases hr : s.completed_txns_ with
    | nil => simp [Call.assignee, hr]
    | cons txn rest =>
      have hv : TxnProcessor.scanCommitted s.heap (s.heap txn).readset_
          (s.committed_txns_.drop ((s.heap txn).occ_start_idx_ + 1)) true =
          TxnProcessor.backwardIsValid s txn := rfl
      simp only [Call.assignee, hr, hv]
      cases hsv : TxnProcessor.backwardIsValid s txn with
      | true =>
        simp only [if_true, reduceCtorEq, false_implies, implies_true, true_and]
        intros; rfl
      | false =>
        simp only [Bool.false_eq_true, if_false, Option.some.injEq, reduceCtorEq, false_implies,
          and_true]
        intro t ht
        subst ht
        exact TxnProcessor.readmit_id { s with completed_txns_ := rest } txn
  | parallelBackward txn uninit Run =>
    simp only [Call.apply, Except.ok.injEq] at h
    subst h
    have hE : TxnProcessor.ExecuteTxnParallelBackwardValidation s txn uninit Run =
        TxnProcessor.ExecuteTxnParallelBackwardValidation_finish
          (TxnProcessor.ExecuteTxnParallelBackwardValidation_run s txn uninit Run) txn := rfl
    have hn : (TxnProcessor.ExecuteTxnParallelBackwardValidation_run s txn uninit
        Run).next_unique_id_ = s.next_unique_id_ := rfl
    have ha : (TxnProcessor.ExecuteTxnParallelBackwardValidation_run s txn uninit
        Run).active_set_ = s.active_set_ := rfl
    simp only [Call.assignee]
    rw [hE]
    generalize TxnProcessor.ExecuteTxnParallelBackwardValidation_run s txn uninit Run = S
      at hn ha ⊢
    have hv : TxnProcessor.parallelBackwardIsValid
        { S with active_set_ := TxnProcessor.setInsert txn S.active_set_ } txn S.active_set_ =
        TxnProcessor.parallelBackwardIsValid S txn s.active_set_ := by rw [ha]; rfl
    unfold TxnProcessor.ExecuteTxnParallelBackwardValidation_finish
    simp only [Call.assignee, hv]
    cases hsv : TxnProcessor.parallelBackwardIsValid S txn s.active_set_ with
    | true =>
      simp only [if_true, reduceCtorEq, false_implies, implies_true, true_and]
      intro _; exact hn
    | false =>
      simp only [Bool.false_eq_true, if_false, Option.some.injEq, reduceCtorEq, false_implies,
        and_true]
      intro t ht
      subst ht
      rw [← hn]
      exact TxnProcessor.readmit_id
        { S with active_set_ := TxnProcessor.setInsert txn S.active_set_ } txn
  | parallelForward txn now uninit Run =>
    simp only [Call.apply, Except.ok.injEq] at h
    subst h
    have hE : TxnProcessor.ExecuteTxnParallelForwardValidation s txn now uninit Run =
        TxnProcessor.ExecuteTxnParallelForwardValidation_finish
          (TxnProcessor.ExecuteTxnParallelForwardValidation_run s txn now uninit Run) txn := rfl
    have hn : (TxnProcessor.ExecuteTxnParallelForwardValidation_run s txn now uninit
        Run).next_unique_id_ = s.next_unique_id_ := rfl
    have ha : (TxnProcessor.ExecuteTxnParallelForwardValidation_run s txn now uninit
        Run).active_set_ = s.active_set_ := rfl
    simp only [Call.assignee]
    rw [hE]
    generalize TxnProcessor.ExecuteTxnParallelForwardValidation_run s txn now uninit Run = S
      at hn ha ⊢
    have hv : TxnProcessor.parallelForwardIsValid
        { S with active_set_ := TxnProcessor.setInsert txn S.active_set_ } txn S.active_set_ =
        TxnProcessor.parallelForwardIsValid S txn s.active_set_ := by rw [ha]; rfl
    unfold TxnProcessor.ExecuteTxnParallelForwardValidation_finish
    simp only [Call.assignee, hv]
    cases hsv : TxnProcessor.parallelForwardIsValid S txn s.active_set_ with
    | true =>
      simp only [if_true, reduceCtorEq, false_implies, implies_true, true_and]
      intro _; exact hn
    | false =>
      simp only [Bool.false_eq_true, if_false, Option.some.injEq, reduceCtorEq, false_implies,
        and_true]
      intro t ht
      subst ht
      rw [← hn]
      exact TxnProcessor.readmit_id
        { S with active_set_ := TxnProcessor.setInsert txn S.active_set_ } txn
  | mvto txn uninit Run =>
    simp only [Call.apply, Except.ok.injEq] at h
    subst h
    have hE : TxnProcessor.MVCCMVTOExecuteTxn s txn uninit Run =
        TxnProcessor.MVCCMVTOExecuteTxn_finish
          (TxnProcessor.MVCCMVTOExecuteTxn_run s txn uninit Run) txn := rfl
    have hn : (TxnProcessor.MVCCMVTOExecuteTxn_run s txn uninit Run).next_unique_id_ =
        s.next_unique_id_ := rfl
    simp only [Call.assignee]
    rw [hE]
    generalize TxnProcessor.MVCCMVTOExecuteTxn_run s txn uninit Run = S at hn ⊢
    unfold TxnProcessor.MVCCMVTOExecuteTxn_finish
    simp only [Call.assignee]
    cases hsv : TxnProcessor.MVCCCheckWrites S txn with
    | true =>
      simp only [if_true, reduceCtorEq, false_implies, implies_true, true_and]
      intro _; exact hn
    | false =>
      simp only [Bool.false_eq_true, if_false, Option.some.injEq, reduceCtorEq, false_implies,
        and_true]
      intro t ht
      subst ht
      rw [← hn]
      exact TxnProcessor.readmit_id S txn
  | mv2plAdmission =>
    simp only [Call.apply, Except.ok.injEq] at h
    subst h
    simp only [Call.assignee, reduceCtorEq, false_implies, implies_true, true_and]
    unfold TxnProcessor.RunMVCCMV2PLScheduler_admit
    cases s.txn_requests_ <;> intros <;> rfl
  | mv2plCompletion =>
    simp only [Call.apply] at h
    simp [Call.assignee, TxnProcessor.RunMVCCMV2PLScheduler_complete_next s s1 h]
  | mv2pl txn Run =>
    simp only [Call.apply, Except.ok.injEq] at h
    subst h
    simp only [Call.assignee, reduceCtorEq, false_implies, implies_true, true_and]
    intros; rfl
  | dispatch =>
    simp only [Call.apply, TxnProcessor.popReady] at h
    cases hr : s.lm_.ready_txns_ with
    | nil =>
      rw [hr] at h
      simp only [Except.ok.injEq] at h
      subst h
      simp [Call.assignee]
    | cons txn rest =>
      rw [hr] at h
      simp only [Except.ok.injEq] at h
      subst h
      simp [Call.assignee]
  | getResult =>
    simp only [Call.apply, TxnProcessor.GetTxnResult] at h
    cases hr : s.txn_results_ with
    | nil =>
      rw [hr] at h
      simp only [Except.ok.injEq] at h
      subst h
      simp [Call.assignee]
    | cons txn rest =>
      rw [hr] at h
      simp only [Except.ok.injEq] at h
      subst h
      simp [Call.assignee]

/-! ### Ids that the calls leave alone -/

theorem TxnProcessor.update_id (heap : TxnPtr → Txn) (txn t : TxnPtr) (x : Txn)
    (hx : x.unique_id_ = (heap txn).unique_id_) :
    (Function.update heap txn x t).unique_id_ = (heap t).unique_id_ := by
  by_cases h : t = txn
  · subst h; simp [hx]
  · simp [Function.update_noteq h]

theorem TxnProcessor.setTxn_id (s : TxnProcessor) (txn t : TxnPtr) (x : Txn)
    (hx : x.unique_id_ = (s.heap txn).unique_id_) :
    ((s.setTxn txn x).heap t).unique_id_ = (s.heap t).unique_id_ :=
  TxnProcessor.update_id s.heap txn t x hx

theorem TxnProcessor.setStatus_id (s : TxnProcessor) (txn t : TxnPtr) (st : TxnStatus) :
    ((s.setStatus txn st).heap t).unique_id_ = (s.heap t).unique_id_ :=
  TxnProcessor.update_id s.heap txn t _ rfl

theorem TxnProcessor.commitOrAbort_id (s s1 : TxnProcessor) (txn t : TxnPtr)
    (h : TxnProcessor.commitOrAbort s txn = .ok s1) :
    (s1.heap t).unique_id_ = (s.heap t).unique_id_ := by
  unfold TxnProcessor.commitOrAbort at h
  cases hst : (s.heap txn).status_ <;> rw [hst] at h <;> simp only [Except.ok.injEq] at h
  all_goals first
    | (subst h; exact TxnProcessor.update_id s.heap txn t _ rfl)
    | exact absurd h (by simp)

theorem TxnProcessor.ExecuteTxn_id (s : TxnProcessor) (txn t : TxnPtr) (now : Rat)
    (uninit : Value) (Run : Txn → Txn) (hk : ∀ x : Txn, (Run x).unique_id_ = x.unique_id_) :
    ((TxnProcessor.ExecuteTxn s txn now uninit Run).heap t).unique_id_ =
      (s.heap t).unique_id_ := by
  have h1 : ∀ u, ((TxnProcessor.ExecuteTxn_reads s txn now uninit).heap u).unique_id_ =
      (s.heap u).unique_id_ := fun u => TxnProcessor.update_id s.heap txn u _ rfl
  show ((TxnProcessor.setTxn (TxnProcessor.ExecuteTxn_reads s txn now uninit) txn
    (Run ((TxnProcessor.ExecuteTxn_reads s txn now uninit).heap txn))).heap t).unique_id_ = _
  rw [TxnProcessor.setTxn_id _ _ _ _ (hk _), h1]

theorem TxnProcessor.readmit_other_id (s : TxnProcessor) (txn t : TxnPtr) (h : t ≠ txn) :
    ((TxnProcessor.readmit s txn).heap t).unique_id_ = (s.heap t).unique_id_ := by
  simp [TxnProcessor.readmit, TxnProcessor.setTxn, Function.update_noteq h]

theorem TxnProcessor.commitParallel_id (s : TxnProcessor) (txn t : TxnPtr) :
    ((TxnProcessor.commitParallel s txn).heap t).unique_id_ = (s.heap t).unique_id_ :=
  TxnProcessor.update_id s.heap txn t _ rfl

/-- A call changes the `unique_id_` of no transaction but the one it hands an
id to, when its body leaves `unique_id_` alone. -/
theorem Call.apply_other_ids (c : Call) (s s1 : TxnProcessor) (hk : c.KeepsIds)
    (h : c.apply s = .ok s1) (t : TxnPtr) (ht : c.assignee s ≠ some t) :
    (s1.heap t).unique_id_ = (s.heap t).unique_id_ := by
  cases c with
  | submit txn =>
    simp only [Call.apply, Except.ok.injEq] at h
    subst h
    have hne : t ≠ txn := fun e => ht (by rw [e]; rfl)
    simp [TxnProcessor.NewTxnRequest, TxnProcessor.setTxn, Function.update_noteq hne]
  | pop =>
    simp only [Call.apply, TxnProcessor.popRequest] at h
    cases hr : s.txn_requests_ with
    | nil =>
      rw [hr] at h
      simp only [Except.ok.injEq] at h
      subst h; rfl
    | cons txn rest =>
      rw [hr] at h
      simp only [Except.ok.injEq] at h
      subst h; rfl
  | serialStep now uninit Run =>
    have hRun : ∀ x : Txn, (Run x).unique_id_ = x.unique_id_ := hk Run rfl
    simp only [Call.apply] at h
    unfold TxnProcessor.RunSerialScheduler_step at h
    cases hr : s.txn_requests_ with
    | nil =>
      rw [hr] at h
      simp only [Except.ok.injEq] at h
      subst h; rfl
    | cons txn rest =>
      rw [hr] at h
      simp only at h
      cases hc : TxnProcessor.commitOrAbort
          (TxnProcessor.ExecuteTxn { s with txn_requests_ := rest } txn now uninit Run) txn with
      | error e => rw [hc] at h; simp at h
      | ok s2 =>
        rw [hc] at h
        simp only [Except.ok.injEq] at h
        subst h
        show (s2.heap t).unique_id_ = _
        rw [TxnProcessor.commitOrAbort_id _ s2 txn t hc,
          TxnProcessor.ExecuteTxn_id _ txn t now uninit Run hRun]
  | lockingAdmission =>
    simp only [Call.apply, Except.ok.injEq] at h
    subst h
    unfold TxnProcessor.RunLockingScheduler_admit
    cases s.txn_requests_ <;> rfl
  | lockingCompletion =>
    simp only [Call.apply] at h
    unfold TxnProcessor.RunLockingScheduler_complete at h
    cases hr : s.completed_txns_ with
    | nil =>
      rw [hr] at h
      simp only [Except.ok.injEq] at h
      subst h; rfl
    | cons txn rest =>
      rw [hr] at h
      simp only at h
      cases hc : TxnProcessor.commitOrAbort { s with completed_txns_ := rest } txn with
      | error e => rw [hc] at h; simp at h
      | ok s2 =>
        rw [hc] at h
        simp only at h
        have hn := TxnProcessor.commitOrAbort_id _ s2 txn t hc
        cases h1 : TxnProcessor.releaseLoop s2.mode_ txn (s2.heap txn).readset_ s2.lm_ with
        | none => rw [h1] at h; simp at h
        | some lm1 =>
          rw [h1] at h
          simp only at h
          cases h2 : TxnProcessor.releaseLoop s2.mode_ txn (s2.heap txn).writeset_ lm1 with
          | none => rw [h2] at h; simp at h
          | some lm2 =>
            rw [h2] at h
            simp only [Except.ok.injEq] at h
            subst h
            exact hn
  | execute txn now uninit Run =>
    have hRun : ∀ x : Txn, (Run x).unique_id_ = x.unique_id_ := hk Run rfl
    simp only [Call.apply, Except.ok.injEq] at h
    subst h
    exact TxnProcessor.ExecuteTxn_id s txn t now uninit Run hRun
  | forwardCompletion =>
    simp only [Call.apply, Except.ok.injEq] at h
    subst h
    unfold TxnProcessor.RunOCCSerialSchedulerForwardValidation_complete
    cases hr : s.completed_txns_ with
    | nil => rfl
    | cons txn rest =>
      have hv : TxnProcessor.SerialValidate { s with completed_txns_ := rest } txn =
          TxnProcessor.SerialValidate s txn := rfl
      simp only [Call.assignee, hr] at ht
      simp only [hv]
      cases hsv : TxnProcessor.SerialValidate s txn with
      | true =>
        simp only [if_true]
        exact TxnProcessor.update_id s.heap txn t _ rfl
      | false =>
        simp only [hsv, Bool.false_eq_true, if_false, ne_eq, Option.some.injEq] at ht
        simp only [Bool.false_eq_true, if_false]
        exact TxnProcessor.readmit_other_id _ txn t (fun e => ht e.symm)
  | backwardCompletion =>
    simp only [Call.apply, Except.ok.injEq] at h
    subst h
    unfold TxnProcessor.RunOCCSerialSchedulerBackwardValidation_complete
    cases hr : s.completed_txns_ with
    | nil => rfl
    | cons txn rest =>
      have hv : TxnProcessor.scanCommitted s.heap (s.heap txn).readset_
          (s.committed_txns_.drop ((s.heap txn).occ_start_idx_ + 1)) true =
          TxnProcessor.backwardIsValid s txn := rfl
      simp only [Call.assignee, hr] at ht
      simp only [hv]
      cases hsv : TxnProcessor.backwardIsValid s txn with
      | true =>
        simp only [if_true]
        exact TxnProcessor.update_id s.heap txn t _ rfl
      | false =>
        simp only [hsv, Bool.false_eq_true, if_false, ne_eq, Option.some.injEq] at ht
        simp only [Bool.false_eq_true, if_false]
        exact TxnProcessor.readmit_other_id _ txn t (fun e => ht e.symm)
  | parallelBackward txn uninit Run =>
    have hRun : ∀ x : Txn, (Run x).unique_id_ = x.unique_id_ := hk Run rfl
    simp only [Call.apply, Except.ok.injEq] at h
    subst h
    have hE : TxnProcessor.ExecuteTxnParallelBackwardValidation s txn uninit Run =
        TxnProcessor.ExecuteTxnParallelBackwardValidation_finish
          (TxnProcessor.ExecuteTxnParallelBackwardValidation_run s txn uninit Run) txn := rfl
    have hi : ∀ u, ((TxnProcessor.ExecuteTxnParallelBackwardValidation_run s txn uninit
        Run).heap u).unique_id_ = (s.heap u).unique_id_ := by
      intro u
      have h1 : ∀ u, ((TxnProcessor.ExecuteTxnParallelBackwardValidation_reads s txn
          uninit).heap u).unique_id_ = (s.heap u).unique_id_ :=
        fun u => TxnProcessor.update_id s.heap txn u _ rfl
      show ((TxnProcessor.setTxn (TxnProcessor.ExecuteTxnParallelBackwardValidation_reads s txn
        uninit) txn _).heap u).unique_id_ = _
      rw [TxnProcessor.setTxn_id _ _ _ _ (hRun _), h1]
    have ha : (TxnProcessor.ExecuteTxnParallelBackwardValidation_run s txn uninit
        Run).active_set_ = s.active_set_ := rfl
    simp only [Call.assignee] at ht
    rw [hE]
    generalize TxnProcessor.ExecuteTxnParallelBackwardValidation_run s txn uninit Run = S
      at hi ha ht ⊢
    have hv : TxnProcessor.parallelBackwardIsValid
        { S with active_set_ := TxnProcessor.setInsert txn S.active_set_ } txn S.active_set_ =
        TxnProcessor.parallelBackwardIsValid S txn s.active_set_ := by rw [ha]; rfl
    unfold TxnProcessor.ExecuteTxnParallelBackwardValidation_finish
    simp only [hv]
    cases hsv : TxnProcessor.parallelBackwardIsValid S txn s.active_set_ with
    | true =>
      simp only [if_true]
      exact (TxnProcessor.commitParallel_id _ txn t).trans (hi t)
    | false =>
      simp only [hsv, Bool.false_eq_true, if_false, ne_eq, Option.some.injEq] at ht
      simp only [Bool.false_eq_true, if_false]
      exact (TxnProcessor.readmit_other_id _ txn t (fun e => ht e.symm)).trans (hi t)
  | parallelForward txn now uninit Run =>
    have hRun : ∀ x : Txn, (Run x).unique_id_ = x.unique_id_ := hk Run rfl
    simp only [Call.apply, Except.ok.injEq] at h
    subst h
    have hE : TxnProcessor.ExecuteTxnParallelForwardValidation s txn now uninit Run =
        TxnProcessor.ExecuteTxnParallelForwardValidation_finish
          (TxnProcessor.ExecuteTxnParallelForwardValidation_run s txn now uninit Run) txn := rfl
    have hi : ∀ u, ((TxnProcessor.ExecuteTxnParallelForwardValidation_run s txn now uninit
        Run).heap u).unique_id_ = (s.heap u).unique_id_ := by
      intro u
      have h1 : ∀ u, ((TxnProcessor.ExecuteTxnParallelForwardValidation_reads s txn now
          uninit).heap u).unique_id_ = (s.heap u).unique_id_ :=
        fun u => TxnProcessor.update_id s.heap txn u _ rfl
      show ((TxnProcessor.setTxn (TxnProcessor.ExecuteTxnParallelForwardValidation_reads s txn
        now uninit) txn _).heap u).unique_id_ = _
      rw [TxnProcessor.setTxn_id _ _ _ _ (hRun _), h1]
    have ha : (TxnProcessor.ExecuteTxnParallelForwardValidation_run s txn now uninit
        Run).active_set_ = s.active_set_ := rfl
    simp only [Call.assignee] at ht
    rw [hE]
    generalize TxnProcessor.ExecuteTxnParallelForwardValidation_run s txn now uninit Run = S
      at hi ha ht ⊢
    have hv : TxnProcessor.parallelForwardIsValid
        { S with active_set_ := TxnProcessor.setInsert txn S.active_set_ } txn S.active_set_ =
        TxnProcessor.parallelForwardIsValid S txn s.active_set_ := by rw [ha]; rfl
    unfold TxnProcessor.ExecuteTxnParallelForwardValidation_finish
    simp only [hv]
    cases hsv : TxnProcessor.parallelForwardIsValid S txn s.active_set_ with
    | true =>
      simp only [if_true]
      exact (TxnProcessor.commitParallel_id _ txn t).trans (hi t)
    | false =>
      simp only [hsv, Bool.false_eq_true, if_false, ne_eq, Option.some.injEq] at ht
      simp only [Bool.false_eq_true, if_false]
      exact (TxnProcessor.readmit_other_id _ txn t (fun e => ht e.symm)).trans (hi t)
  | mvto txn uninit Run =>
    have hRun : ∀ x : Txn, (Run x).unique_id_ = x.unique_id_ := hk Run rfl
    simp only [Call.apply, Except.ok.injEq] at h
    subst h
    have hE : TxnProcessor.MVCCMVTOExecuteTxn s txn uninit Run =
        TxnProcessor.MVCCMVTOExecuteTxn_finish
          (TxnProcessor.MVCCMVTOExecuteTxn_run s txn uninit Run) txn := rfl
    have hi : ∀ u, ((TxnProcessor.MVCCMVTOExecuteTxn_run s txn uninit Run).heap u).unique_id_ =
        (s.heap u).unique_id_ := by
      intro u
      have h1 : ∀ u, ((TxnProcessor.MVCCMVTOExecuteTxn_reads s txn uninit).heap u).unique_id_ =
          (s.heap u).unique_id_ :=
        fun u => TxnProcessor.update_id s.heap txn u _ rfl
      show ((TxnProcessor.setTxn (TxnProcessor.MVCCMVTOExecuteTxn_reads s txn uninit) txn
        _).heap u).unique_id_ = _
      rw [TxnProcessor.setTxn_id _ _ _ _ (hRun _), h1]
    simp only [Call.assignee] at ht
    rw [hE]
    generalize TxnProcessor.MVCCMVTOExecuteTxn_run s txn uninit Run = S at hi ht ⊢
    unfold TxnProcessor.MVCCMVTOExecuteTxn_finish
    cases hsv : TxnProcessor.MVCCCheckWrites S txn with
    | true =>
      simp only [if_true]
      exact (TxnProcessor.commitParallel_id _ txn t).trans (hi t)
    | false =>
      simp only [hsv, Bool.false_eq_true, if_false, ne_eq, Option.some.injEq] at ht
      simp only [Bool.false_eq_true, if_false]
      exact (TxnProcessor.readmit_other_id _ txn t (fun e => ht e.symm)).trans (hi t)
  | mv2plAdmission =>
    simp only [Call.apply, Except.ok.injEq] at h
    subst h
    unfold TxnProcessor.RunMVCCMV2PLScheduler_admit
    cases s.txn_requests_ <;> rfl
  | mv2plCompletion =>
    simp only [Call.apply] at h
    unfold TxnProcessor.RunMVCCMV2PLScheduler_complete at h
    cases hr : s.completed_txns_ with
    | nil =>
      rw [hr] at h
      simp only [Except.ok.injEq] at h
      subst h; rfl
    | cons txn rest =>
      rw [hr] at h
      simp only at h
      cases h1 : TxnProcessor.releaseLoop s.mode_ txn (s.heap txn).readset_ s.lm_ with
      | none => rw [h1] at h; simp at h
      | some lm1 =>
        rw [h1] at h
        simp only at h
        cases h2 : TxnProcessor.releaseLoop s.mode_ txn (s.heap txn).writeset_ lm1 with
        | none => rw [h2] at h; simp at h
        | some lm2 =>
          rw [h2] at h
          simp only [Except.ok.injEq] at h
          subst h
          rfl
  | mv2pl txn Run =>
    have hRun : ∀ x : Txn, (Run x).unique_id_ = x.unique_id_ := hk Run rfl
    simp only [Call.apply, Except.ok.injEq] at h
    subst h
    show ((TxnProcessor.setStatus (TxnProcessor.ApplyWrites
      (s.setTxn txn (Run (s.heap txn))) txn) txn TxnStatus.COMMITTED).heap t).unique_id_ = _
    rw [TxnProcessor.setStatus_id]
    exact TxnProcessor.setTxn_id s txn t _ (hRun _)
  | dispatch =>
    simp only [Call.apply, TxnProcessor.popReady] at h
    cases hr : s.lm_.ready_txns_ with
    | nil =>
      rw [hr] at h
      simp only [Except.ok.injEq] at h
      subst h; rfl
    | cons txn rest =>
      rw [hr] at h
      simp only [Except.ok.injEq] at h
      subst h; rfl
  | getResult =>
    simp only [Call.apply, TxnProcessor.GetTxnResult] at h
    cases hr : s.txn_results_ with
    | nil =>
      rw [hr] at h
      simp only [Except.ok.injEq] at h
      subst h; rfl
    | cons txn rest =>
      rw [hr] at h
      simp only [Except.ok.injEq] at h
      subst h; rfl

/-- The ids handed out along a sequence of calls are the consecutive values of
`next_unique_id_`, starting with the one of the initial state, as long as they
stay inside the range of a 32-bit `int`. -/
theorem Call.idLog_eq (cs : List Call) :
    ∀ s : TxnProcessor, -2147483648 ≤ s.next_unique_id_ →
      s.next_unique_id_ + ((Call.idLog cs s).length : Int) ≤ 2147483648 →
      Call.idLog cs s =
        (List.range (Call.idLog cs s).length).map (fun i : Nat => s.next_unique_id_ + (i : Int)) := by
  induction cs with
  | nil => intro s _ _; rfl
  | cons c rest ih =>
    intro s hlo hhi
    unfold Call.idLog at hhi ⊢
    cases ha : c.apply s with
    | error e => rfl
    | ok s1 =>
      obtain ⟨h1, h2⟩ := Call.apply_ids c s s1 ha
      rw [ha] at hhi
      simp only at hhi ⊢
      cases hs : c.assignee s with
      | none =>
        rw [hs] at hhi
        simp only at hhi ⊢
        have := ih s1
        rw [h2 hs] at this
        exact this hlo hhi
      | some txn =>
        rw [hs] at hhi
        simp only [List.length_cons, Nat.cast_succ] at hhi
        simp only
        obtain ⟨e1, e2⟩ := h1 txn hs
        by_cases hlt : s.next_unique_id_ < 2147483647
        · have e3 : s1.next_unique_id_ = s.next_unique_id_ + 1 := by
            rw [e2]; exact intSucc_eq _ hlo hlt
          have := ih s1
          rw [e3] at this
          have := this (by omega) (by omega)
          rw [List.length_cons, List.range_succ_eq_map, List.map_cons, List.map_map, e1]
          simp only [Nat.cast_zero, add_zero, List.cons.injEq, true_and]
          rw [this]
          simp only [List.length_map, List.length_range, List.map_map]
          apply List.map_congr_left
          intro i _
          simp only [Function.comp, Nat.cast_succ]
          ring
        · have hz : (Call.idLog rest s1).length = 0 := by omega
          rw [List.length_eq_zero] at hz
          rw [hz, e1]
          simp [List.range_succ]

theorem Call.idLog_increasing (cs : List Call) (s : TxnProcessor)
    (hlo : -2147483648 ≤ s.next_unique_id_)
    (hhi : s.next_unique_id_ + ((Call.idLog cs s).length : Int) ≤ 2147483648) :
    (Call.idLog cs s).Pairwise (fun a b => a < b) := by
  rw [Call.idLog_eq cs s hlo hhi]
  apply List.Pairwise.map (fun i : Nat => s.next_unique_id_ + (i : Int)) _ (List.pairwise_lt_range _)
  intro a b hab
  simp only [add_lt_add_iff_left, Nat.cast_lt]
  exact hab

/-- Along a sequence of calls whose bodies leave `unique_id_` alone and that
keeps `next_unique_id_` inside the range of a 32-bit `int`: `next_unique_id_`
has gone up by the number of ids handed out, and every transaction that was
handed an id, or that held an id below `next_unique_id_` at the start, holds
an id below `next_unique_id_` at the end. -/
theorem Call.run_ids (cs : List Call) :
    ∀ (s0 s : TxnProcessor) (P : TxnPtr → Prop),
      Call.runAll cs s0 = .ok s →
      (∀ c ∈ cs, c.KeepsIds) →
      -2147483648 ≤ s0.next_unique_id_ →
      s0.next_unique_id_ + ((Call.idLog cs s0).length : Int) ≤ 2147483647 →
      (∀ t, P t → (s0.heap t).unique_id_ < s0.next_unique_id_) →
      s.next_unique_id_ = s0.next_unique_id_ + ((Call.idLog cs s0).length : Int) ∧
      ∀ t, P t ∨ t ∈ Call.assignees cs s0 → (s.heap t).unique_id_ < s.next_unique_id_ := by
  induction cs with
  | nil =>
    intro s0 s P hrun _ _ _ hP
    simp only [Call.runAll, Except.ok.injEq] at hrun
    subst hrun
    refine ⟨by simp [Call.idLog], ?_⟩
    intro t ht
    rcases ht with ht | ht
    · exact hP t ht
    · simp [Call.assignees] at ht
  | cons c rest ih =>
    intro s0 s P hrun hk hlo hhi hP
    unfold Call.runAll at hrun
    unfold Call.idLog at hhi ⊢
    unfold Call.assignees
    cases ha : c.apply s0 with
    | error e => rw [ha] at hrun; simp at hrun
    | ok s1 =>
      rw [ha] at hrun hhi
      simp only at hrun hhi ⊢
      obtain ⟨h1, h2⟩ := Call.apply_ids c s0 s1 ha
      have hkc : c.KeepsIds := hk c (List.mem_cons_self _ _)
      have hkr : ∀ c1 ∈ rest, c1.KeepsIds := fun c1 hc1 => hk c1 (List.mem_cons_of_mem _ hc1)
      cases hs : c.assignee s0 with
      | none =>
        rw [hs] at hhi
        simp only at hhi ⊢
        have hn := h2 hs
        have hother : ∀ t, (s1.heap t).unique_id_ = (s0.heap t).unique_id_ :=
          fun t => Call.apply_other_ids c s0 s1 hkc ha t (by rw [hs]; simp)
        have := ih s1 s P hrun hkr (by rw [hn]; exact hlo) (by rw [hn]; exact hhi)
          (fun t ht => by rw [hother t, hn]; exact hP t ht)
        rw [hn] at this
        exact this
      | some txn =>
        rw [hs] at hhi
        simp only [List.length_cons, Nat.cast_succ] at hhi
        simp only [List.length_cons, Nat.cast_succ, List.mem_cons]
        obtain ⟨e1, e2⟩ := h1 txn hs
        have e3 : s1.next_unique_id_ = s0.next_unique_id_ + 1 := by
          rw [e2]; exact intSucc_eq _ hlo (by omega)
        have hother : ∀ t, t ≠ txn → (s1.heap t).unique_id_ = (s0.heap t).unique_id_ :=
          fun t ht => Call.apply_other_ids c s0 s1 hkc ha t
            (by rw [hs]; simpa using fun e => ht e.symm)
        have := ih s1 s (fun t => P t ∨ t = txn) hrun hkr (by omega) (by omega)
          (fun t ht => by
            by_cases htt : t = txn
            · subst htt; rw [e1, e3]; omega
            · rcases ht with ht | ht
              · rw [hother t htt, e3]
                have := hP t ht
                omega
              · exact absurd ht htt)
        refine ⟨by rw [this.1, e3]; ring, ?_⟩
        intro t ht
        apply this.2 t
        rcases ht with ht | ht | ht
        · exact Or.inl (Or.inl ht)
        · exact Or.inl (Or.inr ht)
        · exact Or.inr ht

/-- A transaction that holds an id of the processor holds an id below
`next_unique_id_`, and `next_unique_id_` is between 1 and `2^31 - 2`. -/
theorem TxnProcessor.idHandedOut_below (s : TxnProcessor) (txn : TxnPtr)
    (h : s.IdHandedOut txn) :
    (s.heap txn).unique_id_ < s.next_unique_id_ ∧
    1 ≤ s.next_unique_id_ ∧ s.next_unique_id_ < 2147483647 := by
  obtain ⟨cs, mode, storage, heap, hrun, hk, hlen, hmem⟩ := h
  have hnew : (Scenario.newProcessor mode storage heap).next_unique_id_ = 1 := rfl
  obtain ⟨h1, h2⟩ := Call.run_ids cs (Scenario.newProcessor mode storage heap) s
    (fun _ => False) hrun hk (by rw [hnew]; norm_num) (by rw [hnew]; omega)
    (fun t ht => absurd ht id)
  rw [hnew] at h1
  exact ⟨h2 txn (Or.inr hmem), by omega, by omega⟩

/-- A call that hands an id to a transaction that already holds an id of the
processor gives it a larger one, which is also larger than the id of every
other transaction that holds an id of the processor, and `next_unique_id_`
goes up by 1. -/
theorem Call.new_id_larger (c : Call) (s s1 : TxnProcessor) (txn : TxnPtr)
    (h : c.apply s = .ok s1) (ha : c.assignee s = some txn) (hh : s.IdHandedOut txn) :
    (s.heap txn).unique_id_ < (s1.heap txn).unique_id_ ∧
    (s1.heap txn).unique_id_ = s.next_unique_id_ ∧
    s1.next_unique_id_ = s.next_unique_id_ + 1 ∧
    ∀ t, s.IdHandedOut t → (s.heap t).unique_id_ < (s1.heap txn).unique_id_ := by
  obtain ⟨e1, e2⟩ := (Call.apply_ids c s s1 h).1 txn ha
  obtain ⟨b1, b2, b3⟩ := TxnProcessor.idHandedOut_below s txn hh
  refine ⟨by rw [e1]; exact b1, e1, by rw [e2]; exact intSucc_eq _ (by omega) b3, ?_⟩
  intro t ht
  rw [e1]
  exact (TxnProcessor.idHandedOut_below s t ht).1

/-- The state after two sequences of calls, one after the other. -/
theorem Call.runAll_append (cs1 cs2 : List Call) :
    ∀ s s1 : TxnProcessor, Call.runAll cs1 s = .ok s1 →
      Call.runAll (cs1 ++ cs2) s = Call.runAll cs2 s1 := by
  induction cs1 with
  | nil =>
    intro s s1 h
    simp only [Call.runAll, Except.ok.injEq] at h
    subst h
    rfl
  | cons c rest ih =>
    intro s s1 h
    unfold Call.runAll at h
    cases ha : c.apply s with
    | error e => rw [ha] at h; simp at h
    | ok s2 =>
      rw [ha] at h
      simp only at h
      show Call.runAll (c :: (rest ++ cs2)) s = _
      simp only [Call.runAll, ha]
      exact ih s2 s1 h

/-- Submitting a transaction and popping its request, on a processor with an
empty request queue whose `next_unique_id_` is inside the range of a 32-bit
`int` and below `2^31 - 1`. -/
theorem Call.submit_pop (txn : TxnPtr) (s : TxnProcessor) (hq : s.txn_requests_ = [])
    (hlo : -2147483648 ≤ s.next_unique_id_) (hhi : s.next_unique_id_ < 2147483647) :
    Call.runAll [Call.submit txn, Call.pop] s =
      .ok (Scenario.counterAt s txn (s.next_unique_id_ + 1)) := by
  have hn : intSucc s.next_unique_id_ = s.next_unique_id_ + 1 := intSucc_eq _ hlo hhi
  simp only [Call.runAll, Call.apply, TxnProcessor.NewTxnRequest, TxnProcessor.setTxn,
    TxnProcessor.popRequest, hq, List.nil_append, Scenario.counterAt, hn, add_sub_cancel_right]

/-- Submitting a transaction and popping its request `n` times over, on a
processor with an empty request queue, while `next_unique_id_` stays inside
the range of a 32-bit `int`: `next_unique_id_` goes up by `n`, the transaction
holds the last id handed out, and nothing else changes. -/
theorem Call.submit_pop_run (txn : TxnPtr) (n : Nat) :
    ∀ s : TxnProcessor, s.txn_requests_ = [] → 0 < n → -2147483648 ≤ s.next_unique_id_ →
      s.next_unique_id_ + (n : Int) ≤ 2147483647 →
      Call.runAll (Scenario.submitAndPop txn n) s =
        .ok (Scenario.counterAt s txn (s.next_unique_id_ + (n : Int))) := by
  induction n with
  | zero => intro s _ h; omega
  | succ n ih =>
    intro s hq _ hlo hhi
    rw [Nat.cast_succ] at hhi
    have h1 := Call.submit_pop txn s hq hlo (by omega)
    have hsplit : Scenario.submitAndPop txn (n + 1) =
        [Call.submit txn, Call.pop] ++ Scenario.submitAndPop txn n := by
      simp [Scenario.submitAndPop, List.replicate_succ]
    rw [hsplit, Call.runAll_append _ _ s _ h1]
    by_cases hn : n = 0
    · subst hn
      simp [Scenario.submitAndPop, Call.runAll]
    · have h2 := ih (Scenario.counterAt s txn (s.next_unique_id_ + 1)) hq (by omega)
        (show -2147483648 ≤ s.next_unique_id_ + 1 by omega)
        (show s.next_unique_id_ + 1 + (n : Int) ≤ 2147483647 by omega)
      rw [h2]
      have e : s.next_unique_id_ + 1 + (n : Int) = s.next_unique_id_ + ((n : Int) + 1) := by
        ring
      simp only [Scenario.counterAt, Function.update_idem, Function.update_same, e, Nat.cast_succ]

/-- The ids that two submissions hand out. -/
theorem Call.idLog_two_submits (s : TxnProcessor) (t1 t2 : TxnPtr) :
    Call.idLog [Call.submit t1, Call.submit t2] s =
      [s.next_unique_id_, intSucc s.next_unique_id_] := by
  simp [Call.idLog, Call.apply, Call.assignee, TxnProcessor.NewTxnRequest, TxnProcessor.setTxn]

/-- The ids handed out along two sequences of calls, one after the other. -/
theorem Call.idLog_append (cs1 cs2 : List Call) :
    ∀ s s1 : TxnProcessor, Call.runAll cs1 s = .ok s1 →
      Call.idLog (cs1 ++ cs2) s = Call.idLog cs1 s ++ Call.idLog cs2 s1 := by
  induction cs1 with
  | nil =>
    intro s s1 h
    simp only [Call.runAll, Except.ok.injEq] at h
    subst h
    rfl
  | cons c rest ih =>
    intro s s1 h
    unfold Call.runAll at h
    cases ha : c.apply s with
    | error e => rw [ha] at h; simp at h
    | ok s2 =>
      rw [ha] at h
      simp only at h
      have := ih s2 s1 h
      show Call.idLog (c :: (rest ++ cs2)) s = Call.idLog (c :: rest) s ++ _
      simp only [Call.idLog, ha]
      cases c.assignee s with
      | none => exact this
      | some txn => simp only [List.cons_append, this]

/-- C25 (the claim fails where the counter overflows). `next_unique_id_` is a
32-bit `int`. On the new processor `Scenario.idStart`, submitting transaction
9 and popping its request 2147483646 times over raises `next_unique_id_` from
1 to 2147483647, the ids 1 to 2147483646 being handed out. Two further
submissions then get the ids 2147483647 and -2147483648: the sequence of
assigned ids is not strictly increasing, on the state with the counter at
2147483647 and so along the whole run from the new processor. -/
theorem C25_ids_wrap_counterexample :
    Call.runAll (Scenario.submitAndPop 9 2147483646) Scenario.idStart =
      .ok (Scenario.counterAt Scenario.idStart 9 2147483647) ∧
    Call.idLog [Call.submit 1, Call.submit 2]
      (Scenario.counterAt Scenario.idStart 9 2147483647) = [2147483647, -2147483648] ∧
    ¬ (Call.idLog [Call.submit 1, Call.submit 2]
      (Scenario.counterAt Scenario.idStart 9 2147483647)).Pairwise (fun a b => a < b) ∧
    ¬ (Call.idLog (Scenario.submitAndPop 9 2147483646 ++ [Call.submit 1, Call.submit 2])
      Scenario.idStart).Pairwise (fun a b => a < b) := by
  have hrun : Call.runAll (Scenario.submitAndPop 9 2147483646) Scenario.idStart =
      .ok (Scenario.counterAt Scenario.idStart 9 2147483647) :=
    Call.submit_pop_run 9 2147483646 Scenario.idStart rfl (by decide) (by decide) (by decide)
  have h0 : Call.idLog [Call.submit 1, Call.submit 2]
      (Scenario.counterAt Scenario.idStart 9 2147483647) = [2147483647, -2147483648] := by
    decide
  refine ⟨hrun, h0, ?_, ?_⟩
  · rw [h0]; decide
  · rw [Call.idLog_append _ _ _ _ hrun, h0]
    intro hp
    have := (List.pairwise_append.1 hp).2.1
    revert this
    decide

/-- C25 (amended). A processor starts with `next_unique_id_ = 1`. Every call
that hands out an id, `NewTxnRequest` or a re-admission after a failed
validation, gives its transaction the current value of `next_unique_id_` and
increments `next_unique_id_`, which adds 1 as long as the value is inside the
range of a 32-bit `int` and below `2^31 - 1`; every other call leaves
`next_unique_id_` as it is. So, as long as the ids stay inside the range of a
32-bit `int`, the ids handed out along a sequence of calls are the
consecutive values from the initial `next_unique_id_` on: the sequence is
strictly increasing, every id is larger than all ids handed out before it, and
no id is handed out twice. For a new processor these are the ids 1, 2, 3, ...
of every sequence of calls that hands out at most `2^31 - 1` ids. -/
theorem C25_ids_strictly_increasing :
    (∀ (mode : CCMode) (storage : StorageImpl) (heap : TxnPtr → Txn),
      (Scenario.newProcessor mode storage heap).next_unique_id_ = 1) ∧
    (∀ (c : Call) (s s1 : TxnProcessor), c.apply s = .ok s1 →
      (∀ txn, c.assignee s = some txn →
        (s1.heap txn).unique_id_ = s.next_unique_id_ ∧
        s1.next_unique_id_ = intSucc s.next_unique_id_ ∧
        (-2147483648 ≤ s.next_unique_id_ → s.next_unique_id_ < 2147483647 →
          s1.next_unique_id_ = s.next_unique_id_ + 1)) ∧
      (c.assignee s = none → s1.next_unique_id_ = s.next_unique_id_)) ∧
    (∀ (cs : List Call) (s : TxnProcessor),
      -2147483648 ≤ s.next_unique_id_ →
      s.next_unique_id_ + ((Call.idLog cs s).length : Int) ≤ 2147483648 →
      Call.idLog cs s =
        (List.range (Call.idLog cs s).length).map (fun i : Nat => s.next_unique_id_ + (i : Int)) ∧
      (Call.idLog cs s).Pairwise (fun a b => a < b) ∧
      (Call.idLog cs s).Nodup) ∧
    (∀ (cs : List Call) (mode : CCMode) (storage : StorageImpl) (heap : TxnPtr → Txn),
      (Call.idLog cs (Scenario.newProcessor mode storage heap)).length ≤ 2147483647 →
      Call.idLog cs (Scenario.newProcessor mode storage heap) =
        (List.range (Call.idLog cs (Scenario.newProcessor mode storage heap)).length).map
          (fun i : Nat => 1 + (i : Int)) ∧
      (Call.idLog cs (Scenario.newProcessor mode storage heap)).Pairwise (fun a b => a < b) ∧
      (Call.idLog cs (Scenario.newProcessor mode storage heap)).Nodup) := by
  refine ⟨fun _ _ _ => rfl, fun c s s1 h => ⟨?_, (Call.apply_ids c s s1 h).2⟩,
    fun cs s hlo hhi => ⟨?_, ?_, ?_⟩, fun cs mode storage heap hlen => ?_⟩
  · intro txn ht
    obtain ⟨e1, e2⟩ := (Call.apply_ids c s s1 h).1 txn ht
    exact ⟨e1, e2, fun hlo hhi => by rw [e2]; exact intSucc_eq _ hlo hhi⟩
  · exact Call.idLog_eq cs s hlo hhi
  · exact Call.idLog_increasing cs s hlo hhi
  · exact (Call.idLog_increasing cs s hlo hhi).imp (fun h => ne_of_lt h)
  · have hnew : (Scenario.newProcessor mode storage heap).next_unique_id_ = 1 := rfl
    have hlo : -2147483648 ≤ (Scenario.newProcessor mode storage heap).next_unique_id_ := by
      rw [hnew]; decide
    have hhi : (Scenario.newProcessor mode storage heap).next_unique_id_ +
        ((Call.idLog cs (Scenario.newProcessor mode storage heap)).length : Int) ≤
        2147483648 := by
      rw [hnew]; omega
    exact ⟨Call.idLog_eq cs _ hlo hhi, Call.idLog_increasing cs _ hlo hhi,
      (Call.idLog_increasing cs _ hlo hhi).imp (fun h => ne_of_lt h)⟩

/-- C25, at a concrete input: on a new processor, three submissions get the ids
1, 2 and 3; the transactions are executed; the serial backward validation
commits the transactions 1 and 3 and re-admits transaction 2, which read the
key 5 that transaction 3 wrote, with the id 4. -/
theorem C25_ids_strictly_increasing_witness :
    Call.idLog Scenario.idRun Scenario.idStart = [1, 2, 3, 4] ∧
    (Call.idLog Scenario.idRun Scenario.idStart).Pairwise (fun a b => a < b) :=
  ⟨by decide, (C25_ids_strictly_increasing.2.2.1 Scenario.idRun Scenario.idStart (by decide) (by decide)).2.1⟩

/-! ### Re-admission after a failed validation -/

/-- The bodies of the calls `Scenario.mvtoRun` leave `unique_id_` alone. -/
theorem Scenario.mvtoRun_keepsIds : ∀ c ∈ Scenario.mvtoRun, c.KeepsIds := by
  intro c hc
  simp only [Scenario.mvtoRun, List.mem_cons, List.mem_singleton, List.not_mem_nil,
    or_false] at hc
  rcases hc with h | h | h | h | h <;> subst h <;>
    intro Run hRun t <;> simp only [Call.body, Option.some.injEq, reduceCtorEq] at hRun
  subst hRun
  rfl

/-- In the state the calls `Scenario.mvtoRun` leave on the new processor
`Scenario.mvtoNew`, transaction 1 holds an id of the processor. -/
theorem Scenario.mvtoReaderDone_handedOut :
    (Scenario.mvtoReaderDoneFrom Scenario.mvtoNew).IdHandedOut 1 :=
  ⟨Scenario.mvtoRun, CCMode.MVCC_MVTO, StorageImpl.mv (MVCCStorage.empty.Write 3 0 0),
    (fun p => if p = 1 then Scenario.newTxn [] [3] else Scenario.newTxn [3] []),
    rfl, Scenario.mvtoRun_keepsIds, by decide, by decide⟩

/-- C24 (the claim fails where the counter overflows). `next_unique_id_` is a
32-bit `int`. On the new processor `Scenario.mvtoNew`, transaction 9 is
submitted and popped 2147483645 times over, which raises `next_unique_id_` to
2147483646; then transaction 1 (write set {3}) gets the id 2147483646 and
transaction 2 (read set {3}) the id 2147483647 from `NewTxnRequest`, which
leaves `next_unique_id_ = -2147483648`; transaction 2 reads key 3 and commits.
The write check of transaction 1 on key 3 then fails, and the re-admission
gives it the id -2147483648, which is not larger than its old id. -/
theorem C24_readmission_wraps_counterexample :
    Call.runAll (Scenario.submitAndPop 9 2147483645 ++ Scenario.mvtoRun) Scenario.mvtoNew =
      .ok (Scenario.mvtoReaderDoneFrom (Scenario.counterAt Scenario.mvtoNew 9 2147483646)) ∧
    ((Scenario.mvtoReaderDoneFrom
      (Scenario.counterAt Scenario.mvtoNew 9 2147483646)).heap 1).unique_id_ = 2147483646 ∧
    (Scenario.mvtoReaderDoneFrom
      (Scenario.counterAt Scenario.mvtoNew 9 2147483646)).next_unique_id_ = -2147483648 ∧
    TxnProcessor.MVCCCheckWrites (TxnProcessor.MVCCMVTOExecuteTxn_run
      (Scenario.mvtoReaderDoneFrom (Scenario.counterAt Scenario.mvtoNew 9 2147483646)) 1 0
      (Scenario.writeAndCommit [(3, 99)])) 1 = false ∧
    ((TxnProcessor.MVCCMVTOExecuteTxn
      (Scenario.mvtoReaderDoneFrom (Scenario.counterAt Scenario.mvtoNew 9 2147483646)) 1 0
      (Scenario.writeAndCommit [(3, 99)])).heap 1).unique_id_ = -2147483648 := by
  refine ⟨?_, by decide, by decide, by decide, by decide⟩
  rw [Call.runAll_append _ _ _ _ (Call.submit_pop_run 9 2147483645 Scenario.mvtoNew rfl
    (by decide) (by decide) (by decide))]
  rfl

/-- C24 (amended). `MVCCMVTOExecuteTxn` is its validation applied to the state
its reads and the body leave. In that state the flag of `MVCCCheckWrites` is
true if and only if `CheckWrite(k, id)` holds for every key `k` of the write
set. When it is true the transaction is committed: its writes are applied, it
is published with status COMMITTED and appended to the committed history, and
on the multi-version storage every `(k, v)` of `writes_` (a map: distinct
keys) becomes the head version `⟨v, id, id⟩` of `k` in front of the old chain,
the other chains being untouched. When it is false, storage (so every chain),
committed history and result queue are unchanged and the transaction is reset
and re-admitted with the id `next_unique_id_` held; over the whole of
`MVCCMVTOExecuteTxn`, reads included, no version is added to any chain. So the
transaction is appended to the committed history if and only if every write
check holds. The id of the re-admission is fresh and larger on a processor
whose `next_unique_id_` has stayed below `2^31 - 1` since it was created: it
is larger than the id of every transaction that holds an id the processor
handed out, the old id of the re-admitted transaction among them. -/
theorem C24_mvto_all_or_nothing :
    (∀ (s : TxnProcessor) (txn : TxnPtr) (uninit : Value) (Run : Txn → Txn),
      TxnProcessor.MVCCMVTOExecuteTxn s txn uninit Run =
        TxnProcessor.MVCCMVTOExecuteTxn_finish
          (TxnProcessor.MVCCMVTOExecuteTxn_run s txn uninit Run) txn ∧
      (TxnProcessor.MVCCCheckWrites (TxnProcessor.MVCCMVTOExecuteTxn_run s txn uninit Run) txn =
          false →
        ∀ k, (TxnProcessor.MVCCMVTOExecuteTxn s txn uninit Run).storage_.versions k =
          s.storage_.versions k)) ∧
    (∀ (s : TxnProcessor) (txn : TxnPtr),
      (TxnProcessor.MVCCCheckWrites s txn = true ↔
        ∀ k ∈ (s.heap txn).writeset_,
          s.storage_.CheckWrite k (s.heap txn).unique_id_ = true) ∧
      (TxnProcessor.MVCCCheckWrites s txn = true →
        TxnProcessor.CommittedBy s (TxnProcessor.MVCCMVTOExecuteTxn_finish s txn) txn ∧
        ∀ m : MVCCStorage, s.storage_ = StorageImpl.mv m →
          ((s.heap txn).writes_.map (fun kv => kv.1)).Nodup →
          ∃ m1, (TxnProcessor.MVCCMVTOExecuteTxn_finish s txn).storage_ = StorageImpl.mv m1 ∧
            (∀ kv ∈ (s.heap txn).writes_, m1.mvcc_data_ kv.1 =
              some ({ value_ := kv.2, max_read_id_ := (s.heap txn).unique_id_,
                      version_id_ := (s.heap txn).unique_id_ } :: m.chain kv.1)) ∧
            (∀ k, k ∉ (s.heap txn).writes_.map (fun kv => kv.1) →
              m1.mvcc_data_ k = m.mvcc_data_ k)) ∧
      (TxnProcessor.MVCCCheckWrites s txn = false →
        TxnProcessor.Readmitted s (TxnProcessor.MVCCMVTOExecuteTxn_finish s txn) txn) ∧
      ((TxnProcessor.MVCCMVTOExecuteTxn_finish s txn).committed_txns_ =
          s.committed_txns_ ++ [txn] ↔
        ∀ k ∈ (s.heap txn).writeset_,
          s.storage_.CheckWrite k (s.heap txn).unique_id_ = true)) ∧
    (∀ (s : TxnProcessor) (txn : TxnPtr) (uninit : Value) (Run : Txn → Txn),
      TxnProcessor.MVCCCheckWrites (TxnProcessor.MVCCMVTOExecuteTxn_run s txn uninit Run) txn =
        false →
      s.IdHandedOut txn →
      ((TxnProcessor.MVCCMVTOExecuteTxn s txn uninit Run).heap txn).unique_id_ =
        s.next_unique_id_ ∧
      ∀ t, s.IdHandedOut t →
        (s.heap t).unique_id_ <
          ((TxnProcessor.MVCCMVTOExecuteTxn s txn uninit Run).heap txn).unique_id_) := by
  refine ⟨?_, ?_, ?_⟩
  · intro s txn uninit Run
    refine ⟨rfl, ?_⟩
    intro hf k
    have hE : TxnProcessor.MVCCMVTOExecuteTxn s txn uninit Run =
        TxnProcessor.readmit (TxnProcessor.MVCCMVTOExecuteTxn_run s txn uninit Run) txn := by
      show TxnProcessor.MVCCMVTOExecuteTxn_finish
        (TxnProcessor.MVCCMVTOExecuteTxn_run s txn uninit Run) txn = _
      unfold TxnProcessor.MVCCMVTOExecuteTxn_finish
      rw [hf]; simp
    rw [hE]
    exact (TxnProcessor.readKeys_mvcc uninit (s.heap txn).unique_id_ 0 0
      (s.heap txn).readset_ s.storage_ (s.heap txn).reads_).1 k
  · intro s txn
    have hiff : TxnProcessor.MVCCCheckWrites s txn = true ↔
        ∀ k ∈ (s.heap txn).writeset_,
          s.storage_.CheckWrite k (s.heap txn).unique_id_ = true := by
      unfold TxnProcessor.MVCCCheckWrites
      rw [TxnProcessor.checkWritesLoop_true]
      simp
    have hcommit : TxnProcessor.MVCCCheckWrites s txn = true →
        (TxnProcessor.MVCCMVTOExecuteTxn_finish s txn).committed_txns_ =
          s.committed_txns_ ++ [txn] := by
      intro hv
      unfold TxnProcessor.MVCCMVTOExecuteTxn_finish
      rw [hv]; rfl
    have hback : TxnProcessor.MVCCCheckWrites s txn = false →
        TxnProcessor.Readmitted s (TxnProcessor.MVCCMVTOExecuteTxn_finish s txn) txn := by
      intro hv
      unfold TxnProcessor.MVCCMVTOExecuteTxn_finish
      rw [hv]
      simp only [Bool.false_eq_true, if_false]
      exact TxnProcessor.readmit_readmitted s s txn rfl rfl rfl rfl rfl
    refine ⟨hiff, ?_, hback, ?_⟩
    rotate_left
    · rw [← hiff]
      constructor
      · intro hc
        cases hv : TxnProcessor.MVCCCheckWrites s txn with
        | true => rfl
        | false =>
          have h2 := (hback hv).2.1
          rw [h2] at hc
          have := congrArg List.length hc
          simp at this
      · exact hcommit
    · intro hv
      have hfin : TxnProcessor.MVCCMVTOExecuteTxn_finish s txn =
          { (TxnProcessor.ApplyWrites s txn).setStatus txn TxnStatus.COMMITTED with
            txn_results_ := s.txn_results_ ++ [txn]
            committed_txns_ := s.committed_txns_ ++ [txn] } := by
        unfold TxnProcessor.MVCCMVTOExecuteTxn_finish
        rw [hv]; rfl
      rw [hfin]
      refine ⟨⟨rfl, rfl, rfl, ?_⟩, ?_⟩
      · simp [TxnProcessor.setStatus, TxnProcessor.setTxn, TxnProcessor.ApplyWrites]
      · intro m hm hnd
        obtain ⟨m1, e1, e2, e3⟩ := TxnProcessor.applyWritesLoop_mv (s.heap txn).unique_id_
          (s.heap txn).writes_ m hnd
        refine ⟨m1, ?_, e2, e3⟩
        show TxnProcessor.applyWritesLoop (s.heap txn).unique_id_ (s.heap txn).writes_ s.storage_
          = _
        rw [hm, e1]
  · intro s txn uninit Run hv hh
    obtain ⟨_, h2, _, h4⟩ := Call.new_id_larger (Call.mvto txn uninit Run) s _ txn rfl
      (by simp [Call.assignee, hv]) hh
    exact ⟨h2, h4⟩

/-- C24, at a concrete input. Transaction 1 (id 1, write set {1}) runs on a
storage whose key 1 holds the initial version; its body buffers 1 ↦ 50: the
write check passes and `⟨50, 1, 1⟩` becomes the head of the chain of key 1. On
a new processor, transaction 1 (write set {3}) and transaction 2 (read set
{3}) are submitted (ids 1, 2) and transaction 2 runs first; the write check of
transaction 1 on key 3 fails and it is re-admitted with the id 3, larger than
its old id 1. -/
theorem C24_mvto_all_or_nothing_witness :
    (∃ m1, (TxnProcessor.MVCCMVTOExecuteTxn Scenario.mvtoStart 1 0
        (Scenario.writeAndCommit [(1, 50)])).storage_ = StorageImpl.mv m1 ∧
      m1.mvcc_data_ 1 = some [⟨50, 1, 1⟩, ⟨0, 0, 0⟩]) ∧
    TxnProcessor.MVCCCheckWrites (TxnProcessor.MVCCMVTOExecuteTxn_run
      (Scenario.mvtoReaderDoneFrom Scenario.mvtoNew) 1 0
      (Scenario.writeAndCommit [(3, 99)])) 1 = false ∧
    ((Scenario.mvtoReaderDoneFrom Scenario.mvtoNew).heap 1).unique_id_ = 1 ∧
    ((TxnProcessor.MVCCMVTOExecuteTxn (Scenario.mvtoReaderDoneFrom Scenario.mvtoNew) 1 0
      (Scenario.writeAndCommit [(3, 99)])).heap 1).unique_id_ = 3 ∧
    ((Scenario.mvtoReaderDoneFrom Scenario.mvtoNew).heap 1).unique_id_ <
      ((TxnProcessor.MVCCMVTOExecuteTxn (Scenario.mvtoReaderDoneFrom Scenario.mvtoNew) 1 0
        (Scenario.writeAndCommit [(3, 99)])).heap 1).unique_id_ := by
  refine ⟨?_, by decide, by decide, by decide, ?_⟩
  · obtain ⟨m1, h1, h2, _⟩ := ((C24_mvto_all_or_nothing.2.1
      (TxnProcessor.MVCCMVTOExecuteTxn_run Scenario.mvtoStart 1 0
        (Scenario.writeAndCommit [(1, 50)])) 1).2.1 (by decide)).2
      (MVCCStorage.empty.Write 1 0 0) rfl (by decide)
    refine ⟨m1, h1, ?_⟩
    rw [h2 (1, 50) (by decide)]
    decide
  · exact (C24_mvto_all_or_nothing.2.2 (Scenario.mvtoReaderDoneFrom Scenario.mvtoNew) 1 0
      (Scenario.writeAndCommit [(3, 99)]) (by decide) Scenario.mvtoReaderDone_handedOut).2 1
      Scenario.mvtoReaderDone_handedOut

/-! ### Read marks and write timestamps -/

/-- In a storage reached from the empty one, no version has a read mark below
its write timestamp. -/
theorem MVCCStorage.marks_of_reachableFromEmpty (s : MVCCStorage)
    (h : MVCCStorage.ReachableFromEmpty s) :
    ∀ key chain, s.mvcc_data_ key = some chain →
      ∀ v ∈ chain, v.version_id_ ≤ v.max_read_id_ := by
  induction h with
  | empty =>
    intro key chain hk
    simp [MVCCStorage.empty] at hk
  | read s key result id _ ih =>
    rcases MVCCStorage.Read_storage s key result id with h1 | ⟨v, rest, hd, hv, h1⟩
    · rw [h1]; exact ih
    · rw [h1]
      intro k chain hk u hu
      by_cases hkk : k = key
      · subst hkk
        simp only [Function.update_same, Option.some.injEq] at hk
        subst hk
        rcases List.mem_cons.mp hu with hu | hu
        · subst hu
          have := ih k (v :: rest) hd v (List.mem_cons_self _ _)
          simp only
          omega
        · exact ih k (v :: rest) hd u (List.mem_cons_of_mem _ hu)
      · simp only [Function.update_noteq hkk] at hk
        exact ih k chain hk u hu
  | write s key value id _ ih =>
    intro k chain hk u hu
    by_cases hkk : k = key
    · subst hkk
      simp only [MVCCStorage.Write, Function.update_same, Option.some.injEq] at hk
      subst hk
      rcases List.mem_cons.mp hu with hu | hu
      · subst hu; simp
      · cases hd : s.mvcc_data_ k with
        | none => simp [hd] at hu
        | some old =>
          simp only [hd, Option.getD_some] at hu
          exact ih k old hd u hu
    · simp only [MVCCStorage.Write, Function.update_noteq hkk] at hk
      exact ih k chain hk u hu

/-- C32. In every `MVCCStorage` state reached from the empty storage by `Write`
and `Read` calls with arbitrary arguments, every version of every chain has
`max_read_id_ ≥ version_id_`; so whenever `CheckWrite(key, id)` returns true,
`CheckWrite1(key, id)` returns true as well. -/
theorem C32_read_mark_dominates (s : MVCCStorage) (h : MVCCStorage.ReachableFromEmpty s) :
    (∀ key chain, s.mvcc_data_ key = some chain →
      ∀ v ∈ chain, v.max_read_id_ ≥ v.version_id_) ∧
    ∀ key id, s.CheckWrite key id = true → s.CheckWrite1 key id = true := by
  have hm := MVCCStorage.marks_of_reachableFromEmpty s h
  refine ⟨fun key chain hk v hv => hm key chain hk v hv, ?_⟩
  intro key id hc
  unfold MVCCStorage.CheckWrite at hc
  unfold MVCCStorage.CheckWrite1
  cases hd : s.mvcc_data_ key with
  | none => rfl
  | some chain =>
    cases chain with
    | nil => rfl
    | cons v rest =>
      rw [hd] at hc
      have h1 := hm key (v :: rest) hd v (List.mem_cons_self _ _)
      by_cases hv : v.max_read_id_ > id
      · simp [hv] at hc
      · have h2 : ¬ v.version_id_ > id := by omega
        simp [h2]

/-- C32, at a concrete input: after `Write(1, 0, 0)`, `Write(1, 10, 5)` and a
read of key 1 by 9 on the empty storage, the chain of key 1 is
`[⟨10, 9, 5⟩, ⟨0, 0, 0⟩]`; `CheckWrite(1, 9)` and `CheckWrite1(1, 9)` both
return true. -/
theorem C32_read_mark_dominates_witness :
    (Scenario.storageAfterTwoWrites.Read 1 77 9).2.2.mvcc_data_ 1 =
      some [⟨10, 9, 5⟩, ⟨0, 0, 0⟩] ∧
    (Scenario.storageAfterTwoWrites.Read 1 77 9).2.2.CheckWrite 1 9 = true ∧
    (Scenario.storageAfterTwoWrites.Read 1 77 9).2.2.CheckWrite1 1 9 = true :=
  ⟨by decide, by decide,
    (C32_read_mark_dominates (Scenario.storageAfterTwoWrites.Read 1 77 9).2.2
      (MVCCStorage.ReachableFromEmpty.read _ 1 77 9
        (MVCCStorage.ReachableFromEmpty.write _ 1 10 5
          (MVCCStorage.ReachableFromEmpty.write _ 1 0 0
            MVCCStorage.ReachableFromEmpty.empty)))).2 1 9 (by decide)⟩

/-! ### Pending counters of `LockManagerB` -/

/-- C33 (the code departs from the claim). After `WriteLock(1, 7)` and
`ReadLock(2, 7)` on the empty manager the request of transaction 2 is behind
the EXCLUSIVE request of transaction 1, yet `ReadLock` returned true and the
counter of transaction 2 is 0; `Release(1, 7)`, the release of a request that
is present, then takes that counter to -1. With a second request of
transaction 2 waiting behind transaction 3 on key 8 (counter 1), the same
`Release(1, 7)` takes the counter to 0 and appends transaction 2 to the ready
queue while its request on key 8 is still behind the EXCLUSIVE request of
transaction 3. -/
theorem C33_counter_negative_and_early_wake :
    (LockManagerB.ReadLock (Scenario.writeLocked 1 7) 2 7).1 = true ∧
    (LockManagerB.ReadLock (Scenario.writeLocked 1 7) 2 7).2.queue 7 =
      [⟨LockMode.EXCLUSIVE, 1⟩, ⟨LockMode.SHARED, 2⟩] ∧
    (LockManagerB.Release (LockManagerB.ReadLock (Scenario.writeLocked 1 7) 2 7).2 1 7).map
      (fun lm => lm.counter 2) = some (-1) ∧
    Scenario.readerBehindTwoWriters.queue 7 =
      [⟨LockMode.EXCLUSIVE, 1⟩, ⟨LockMode.SHARED, 2⟩] ∧
    Scenario.readerBehindTwoWriters.queue 8 =
      [⟨LockMode.EXCLUSIVE, 3⟩, ⟨LockMode.EXCLUSIVE, 2⟩] ∧
    Scenario.readerBehindTwoWriters.counter 2 = 1 ∧
    Scenario.readerBehindTwoWriters.ready_txns_ = [] ∧
    (LockManagerB.Release Scenario.readerBehindTwoWriters 1 7).map
      (fun lm => (lm.counter 2, lm.ready_txns_, lm.queue 8)) =
      some (0, [2], [⟨LockMode.EXCLUSIVE, 3⟩, ⟨LockMode.EXCLUSIVE, 2⟩]) := by
  decide

/-! ### `LockManagerA::Status` -/

/-- C34 (the code departs from the claim). For a key that was never locked
`LockManagerA::Status` returns UNLOCKED, and for a key with a queued request it
returns EXCLUSIVE with `owners` set to the transaction at the head. After
`WriteLock(1, 7)` and `Release(1, 7)` no request is queued on key 7, but the
key keeps its entry with an empty deque: `Status(7, owners)` does not return
UNLOCKED, it evaluates `front()` of the empty deque. `Status` returns UNLOCKED
for no key that has an entry. -/
theorem C34_status_of_released_key :
    LockManagerA.Status LockManager.empty 7 [9] = some (LockMode.UNLOCKED, [9]) ∧
    LockManagerA.Status (LockManagerA.WriteLock LockManager.empty 1 7).2 7 [9] =
      some (LockMode.EXCLUSIVE, [1]) ∧
    (LockManagerA.Release (LockManagerA.WriteLock LockManager.empty 1 7).2 1 7).map
      (fun lm => (lm.queue 7, lm.lock_table_ 7, LockManagerA.Status lm 7 [9])) =
      some ([], Slot.deque [], none) ∧
    (∀ (lm : LockManager) (key : Key) (owners owners1 : List TxnPtr),
      lm.lock_table_ key ≠ Slot.absent →
      LockManagerA.Status lm key owners ≠ some (LockMode.UNLOCKED, owners1)) := by
  refine ⟨by decide, by decide, by decide, ?_⟩
  intro lm key owners owners1 hne
  unfold LockManagerA.Status
  cases hs : lm.lock_table_ key with
  | absent => exact absurd hs hne
  | null => simp
  | deque q => cases q <;> simp

/-! ### A body that asks to abort -/

/-- C31 (the code departs from the claim). Transaction 1 (id 1, write set {5})
runs a body that buffers the write 5 ↦ 50 and ends with COMPLETED_A. In the
completion steps of the two serial OCC schedulers it passes validation and is
committed: its status is COMMITTED, it is on the result queue and in the
committed history, and a read of key 5 yields 50. The two parallel OCC
executors and the MVCC-TO executor commit it as well, and so does
`MVCC2PLExecuteTxn`, after which the completion step of the MVCC-2PL scheduler
publishes it with status COMMITTED; on the multi-version storage the chain of
key 5 gets the version `⟨50, 1, 1⟩`. -/
theorem C31_abort_request_is_committed :
    ((Scenario.abortingCompleted CCMode.OCC_SERIAL_BACKWARD_VALIDATION).heap 1).status_ =
      TxnStatus.COMPLETED_A ∧
    ((Scenario.abortingCompleted CCMode.OCC_SERIAL_BACKWARD_VALIDATION).heap 1).writes_ =
      [(5, 50)] ∧
    TxnProcessor.backwardIsValid
      (Scenario.abortingCompleted CCMode.OCC_SERIAL_BACKWARD_VALIDATION) 1 = true ∧
    ((TxnProcessor.RunOCCSerialSchedulerBackwardValidation_complete
      (Scenario.abortingCompleted CCMode.OCC_SERIAL_BACKWARD_VALIDATION)).heap 1).status_ =
      TxnStatus.COMMITTED ∧
    (TxnProcessor.RunOCCSerialSchedulerBackwardValidation_complete
      (Scenario.abortingCompleted CCMode.OCC_SERIAL_BACKWARD_VALIDATION)).txn_results_ = [1] ∧
    (TxnProcessor.RunOCCSerialSchedulerBackwardValidation_complete
      (Scenario.abortingCompleted CCMode.OCC_SERIAL_BACKWARD_VALIDATION)).committed_txns_ =
      [1] ∧
    ((TxnProcessor.RunOCCSerialSchedulerBackwardValidation_complete
      (Scenario.abortingCompleted CCMode.OCC_SERIAL_BACKWARD_VALIDATION)).storage_.Read
        5 0 0).2.1 = 50 ∧
    TxnProcessor.SerialValidate
      (Scenario.abortingCompleted CCMode.OCC_SERIAL_FORWARD_VALIDATION) 1 = true ∧
    ((TxnProcessor.RunOCCSerialSchedulerForwardValidation_complete
      (Scenario.abortingCompleted CCMode.OCC_SERIAL_FORWARD_VALIDATION)).heap 1).status_ =
      TxnStatus.COMMITTED ∧
    (TxnProcessor.RunOCCSerialSchedulerForwardValidation_complete
      (Scenario.abortingCompleted CCMode.OCC_SERIAL_FORWARD_VALIDATION)).txn_results_ = [1] ∧
    ((TxnProcessor.RunOCCSerialSchedulerForwardValidation_complete
      (Scenario.abortingCompleted CCMode.OCC_SERIAL_FORWARD_VALIDATION)).storage_.Read
        5 0 0).2.1 = 50 ∧
    ((TxnProcessor.ExecuteTxnParallelBackwardValidation
      (Scenario.svPopped CCMode.OCC_PARREL_BACKWARD_VALIDATION) 1 0
      (Scenario.writeAndAbort [(5, 50)])).heap 1).status_ = TxnStatus.COMMITTED ∧
    (TxnProcessor.ExecuteTxnParallelBackwardValidation
      (Scenario.svPopped CCMode.OCC_PARREL_BACKWARD_VALIDATION) 1 0
      (Scenario.writeAndAbort [(5, 50)])).txn_results_ = [1] ∧
    ((TxnProcessor.ExecuteTxnParallelForwardValidation
      (Scenario.svPopped CCMode.OCC_PARREL_FORWARD_VALIDATION) 1 10 0
      (Scenario.writeAndAbort [(5, 50)])).heap 1).status_ = TxnStatus.COMMITTED ∧
    (TxnProcessor.ExecuteTxnParallelForwardValidation
      (Scenario.svPopped CCMode.OCC_PARREL_FORWARD_VALIDATION) 1 10 0
      (Scenario.writeAndAbort [(5, 50)])).txn_results_ = [1] ∧
    ((TxnProcessor.MVCCMVTOExecuteTxn (Scenario.mvccPopped CCMode.MVCC_MVTO) 1 0
      (Scenario.writeAndAbort [(5, 50)])).heap 1).status_ = TxnStatus.COMMITTED ∧
    (TxnProcessor.MVCCMVTOExecuteTxn (Scenario.mvccPopped CCMode.MVCC_MVTO) 1 0
      (Scenario.writeAndAbort [(5, 50)])).txn_results_ = [1] ∧
    (TxnProcessor.MVCCMVTOExecuteTxn (Scenario.mvccPopped CCMode.MVCC_MVTO) 1 0
      (Scenario.writeAndAbort [(5, 50)])).storage_.versions 5 = [(50, 1), (0, 0)] ∧
    (Scenario.mv2plAborting.heap 1).status_ = TxnStatus.COMMITTED ∧
    Scenario.mv2plAborting.committed_txns_ = [1] ∧
    Scenario.mv2plAborting.storage_.versions 5 = [(50, 1), (0, 0)] ∧
    (TxnProcessor.RunMVCCMV2PLScheduler_complete Scenario.mv2plAborting).toOption.map
      (fun s => (s.txn_results_, (s.heap 1).status_)) = some ([1], TxnStatus.COMMITTED) := by
  decide

end CC
